import Mathlib

/-!
# vault-auth-kubernetes: role model and reconciliation engine

A shallow embedding of `pkg/util/collection.go`, `pkg/vault/role.go`,
`pkg/auth/roles.go` and `pkg/auth/auth.go`.

Conventions of the embedding
* a Go `string` is a `String`; a Go `error` is `Option String` (`none` is `nil`);
* a Go `[]string` that is stored in a struct is a `Slice`: `none` is the nil
  slice, `some l` a non-nil slice holding `l` (so `some []` is `[]string{}`);
* a Go `map[string]V` is a `GoMap V`, a key-unique association list; the order in
  which a `range` statement visits it is chosen by a `RangeOrder`;
* a call through the `K8sClient` / `VaultClient` interfaces is a state
  transformer on an arbitrary collaborator state and is recorded, with its
  reply, in a trace; `logger.Errorf` calls are not part of the trace.
-/

namespace VaultAuthKubernetes

/-! ## Go values -/

/-- Go `error`: `none` is `nil`, `some msg` an error with message `msg`. -/
abbrev GoError := Option String

/-- Go `[]string` with the nil slice kept apart from the empty slice. -/
abbrev Slice := Option (List String)

/-- The elements of a slice, as visited by `for _, v := range s`. -/
def Slice.elems : Slice → List String
  | none => []
  | some l => l

/-- Go `append(s, v)`. -/
def Slice.append (s : Slice) (v : String) : Slice :=
  some (s.elems ++ [v])

/-- Go `map[string]V`: entries with pairwise different keys. -/
structure GoMap (V : Type) where
  entries : List (String × V)
  nodupKeys : (entries.map Prod.fst).Nodup

namespace GoMap

variable {V : Type}

instance [DecidableEq V] : DecidableEq (GoMap V) := fun a b =>
  match a, b with
  | ⟨ea, _⟩, ⟨eb, _⟩ =>
    if h : ea = eb then isTrue (by subst h; rfl)
    else isFalse (fun h2 => h (by cases h2; rfl))

/-- Go `make(map[string]V)`. -/
def empty : GoMap V := ⟨[], List.nodup_nil⟩

/-- The keys of the map. -/
def keys (m : GoMap V) : List String := m.entries.map Prod.fst

/-- Go `v, ok := m[k]`, with `ok` folded into the option. -/
def get? (m : GoMap V) (k : String) : Option V :=
  (m.entries.find? (fun p => p.1 = k)).map Prod.snd

/-- Go `_, ok := m[k]`. -/
def contains (m : GoMap V) (k : String) : Bool := (m.get? k).isSome

/-- Go `m[k] = v`: the entry of `k`, if any, is replaced. -/
def set (m : GoMap V) (k : String) (v : V) : GoMap V :=
  ⟨m.entries.filter (fun p => p.1 ≠ k) ++ [(k, v)], by
    rw [List.map_append, List.nodup_append]
    refine ⟨(m.nodupKeys.sublist ((List.filter_sublist _).map _)), by simp, ?_⟩
    intro a ha hb
    simp only [List.map_cons, List.map_nil, List.mem_singleton] at hb
    subst hb
    simp only [List.mem_map, List.mem_filter] at ha
    obtain ⟨p, ⟨_, hp⟩, rfl⟩ := ha
    simp at hp⟩

end GoMap

/-- The visiting order of `for k, v := range m` over a map is not fixed by Go.
A `RangeOrder` fixes one for every range statement (numbered by `site`) and
every entry list; all that is known is that every entry is visited once. -/
structure RangeOrder where
  visit : {α : Type} → Nat → List α → List α
  perm : ∀ {α : Type} (site : Nat) (l : List α), (visit site l).Perm l

/-- The range order that visits entries as they are stored. -/
def RangeOrder.stored : RangeOrder := ⟨fun _ l => l, fun _ l => List.Perm.refl l⟩

/-! ## `pkg/util/collection.go` -/

/-- `StringSliceToSet`: `out` starts as the nil slice, `set` as the empty map;
every `v` of `in` not yet in `set` is appended to `out`, then recorded in `set`. -/
def StringSliceToSet (input : Slice) : Slice :=
  (input.elems.foldl
    (fun (acc : Slice × GoMap Unit) v =>
      ((if acc.2.contains v then acc.1 else acc.1.append v), acc.2.set v ()))
    (none, GoMap.empty)).1

/-- `StringSliceContains`. -/
def StringSliceContains (s : Slice) (search : String) : Bool :=
  s.elems.any (fun v => v = search)

/-! ## `pkg/vault/role.go` -/

/-- `Role`. -/
structure Role where
  BoundServiceAccountNames : Slice
  BoundServiceAccountNamespaces : Slice
  TokenPolicies : Slice
  TokenTTL : Int
  deriving DecidableEq, Repr

/-- The zero value `Role{}`. -/
def Role.zero : Role := ⟨none, none, none, 0⟩

/-- `Role.sanitize`. -/
def Role.sanitize (r : Role) : Role :=
  let r := { r with BoundServiceAccountNamespaces := StringSliceToSet r.BoundServiceAccountNamespaces }
  let r := { r with BoundServiceAccountNames := StringSliceToSet r.BoundServiceAccountNames }
  let r := if StringSliceContains r.BoundServiceAccountNamespaces "*"
    then { r with BoundServiceAccountNamespaces := some ["*"] } else r
  let r := if StringSliceContains r.BoundServiceAccountNames "*"
    then { r with BoundServiceAccountNames := some ["*"] } else r
  r

/-- `Role.validate`. -/
def Role.validate (r : Role) : GoError :=
  if StringSliceContains r.BoundServiceAccountNamespaces "*" &&
      StringSliceContains r.BoundServiceAccountNames "*" then
    some "vault role cannot contain * in both bound service account namespaces and names"
  else none

/-- `NewRole`. The JSON decoder `json.Unmarshal(rawRole, &role)` of the Go
standard library is the parameter `unmarshal`: it gives the decoded role and
the decoding error. -/
def NewRole (unmarshal : String → Role × GoError) (rawRole : String) : Role × GoError :=
  match unmarshal rawRole with
  | (_, some err) => (Role.zero, some ("unmarshal vault role: " ++ err))
  | (role, none) =>
    let role := role.sanitize
    match role.validate with
    | some err => (Role.zero, some err)
    | none => (role, none)

/-- `sort.Sort(sort.StringSlice(s))`: the elements in ascending order; a nil
slice stays nil. Go orders strings byte by byte, which on UTF-8 text is the
lexicographic order of the code point lists. -/
def sortStrings (s : Slice) : Slice :=
  s.map (List.insertionSort (fun a b : String => a.data ≤ b.data))

/-- The three `sort.Sort` calls `Role.Equal` makes on the lists of one role. The
sorts work in place on the backing arrays, which the caller's role shares. -/
def Role.sortLists (r : Role) : Role :=
  { r with
    BoundServiceAccountNames := sortStrings r.BoundServiceAccountNames
    BoundServiceAccountNamespaces := sortStrings r.BoundServiceAccountNamespaces
    TokenPolicies := sortStrings r.TokenPolicies }

/-- `Role.Equal`: the result of `reflect.DeepEqual(r, r2)` after the six sorts,
together with the lists of the receiver and of the argument as their owners see
them after the call. The list fields of the two roles are taken not to overlap
in memory, except that both roles may be the same role. -/
def Role.Equal (r r2 : Role) : Bool × Role × Role :=
  (decide (r.sortLists = r2.sortLists), r.sortLists, r2.sortLists)

/-! ## `pkg/auth`: collaborator interfaces -/

/-- A call through `VaultClient` or `K8sClient`, with its arguments. -/
inductive Call where
  | InitAuthKubernetes (k8sHost : String) (k8sCA tokenReviewerJWT : List UInt8)
  | ListRoles
  | DeleteRole (role : String)
  | CreateRole (name : String) (role : Role)
  | GetNamespaces
  | GetConfigMapData (ns name : String)
  | GetServiceAccounts (ns : String) (annotations : GoMap String)
  | DeleteServiceAccount (ns serviceAccount : String)
  | CreateServiceAccount (ns serviceAccount : String) (annotations : GoMap String)
  | GetServiceAccountToken (ns serviceAccount : String)
  | CreateAuthDelegatorClusterRoleBinding (bindingName ns serviceAccount : String)
  deriving DecidableEq

/-- What a collaborator call returned. -/
inductive Reply where
  | error (err : GoError)
  | names (value : List String) (err : GoError)
  | data (value : GoMap String) (err : GoError)
  | bytes (value : List UInt8) (err : GoError)
  deriving DecidableEq

/-- One collaborator call together with what it returned. -/
structure Event where
  call : Call
  reply : Reply
  deriving DecidableEq

/-- Interface `VaultClient`, over a collaborator state `σ`. -/
structure VaultClient (σ : Type) where
  InitAuthKubernetes : String → List UInt8 → List UInt8 → σ → GoError × σ
  ListRoles : σ → (List String × GoError) × σ
  DeleteRole : String → σ → GoError × σ
  CreateRole : String → Role → σ → GoError × σ

/-- Interface `K8sClient`, over a collaborator state `σ`. -/
structure K8sClient (σ : Type) where
  GetNamespaces : σ → (List String × GoError) × σ
  GetConfigMapData : String → String → σ → (GoMap String × GoError) × σ
  GetServiceAccounts : String → GoMap String → σ → (List String × GoError) × σ
  DeleteServiceAccount : String → String → σ → GoError × σ
  CreateServiceAccount : String → String → GoMap String → σ → GoError × σ
  GetServiceAccountToken : String → String → σ → (List UInt8 × GoError) × σ
  CreateAuthDelegatorClusterRoleBinding : String → String → String → σ → GoError × σ

/-- `Config`. -/
structure Config where
  VaultMount : String
  K8sHost : String
  K8sCA : List UInt8

/-- `Auth`. -/
structure Auth (σ : Type) where
  config : Config
  vaultClient : VaultClient σ
  k8sClient : K8sClient σ

/-- The collaborator state and the calls made so far, oldest first. -/
structure Run (σ : Type) where
  state : σ
  trace : List Event

/-- The calls of a trace, without their replies. -/
def calls (t : List Event) : List Call := t.map Event.call

/-- Run one collaborator operation and record it. -/
def Run.record {σ α : Type} (w : Run σ) (c : Call) (reply : α → Reply) (op : σ → α × σ) :
    α × Run σ :=
  ((op w.state).1, ⟨(op w.state).2, w.trace ++ [⟨c, reply (op w.state).1⟩]⟩)

namespace Auth

variable {σ : Type}

/-- The call `a.vaultClient.InitAuthKubernetes(k8sHost, k8sCA, tokenReviewerJWT)`. -/
def InitAuthKubernetes (a : Auth σ) (k8sHost : String) (k8sCA tokenReviewerJWT : List UInt8)
    (w : Run σ) : GoError × Run σ :=
  w.record (.InitAuthKubernetes k8sHost k8sCA tokenReviewerJWT) .error
    (a.vaultClient.InitAuthKubernetes k8sHost k8sCA tokenReviewerJWT)

/-- The call `a.vaultClient.ListRoles()`. -/
def ListRoles (a : Auth σ) (w : Run σ) : (List String × GoError) × Run σ :=
  w.record .ListRoles (fun r => .names r.1 r.2) a.vaultClient.ListRoles

/-- The call `a.vaultClient.DeleteRole(role)`. -/
def DeleteRole (a : Auth σ) (role : String) (w : Run σ) : GoError × Run σ :=
  w.record (.DeleteRole role) .error (a.vaultClient.DeleteRole role)

/-- The call `a.vaultClient.CreateRole(name, role)`. -/
def CreateRole (a : Auth σ) (name : String) (role : Role) (w : Run σ) : GoError × Run σ :=
  w.record (.CreateRole name role) .error (a.vaultClient.CreateRole name role)

/-- The call `a.k8sClient.GetNamespaces()`. -/
def GetNamespaces (a : Auth σ) (w : Run σ) : (List String × GoError) × Run σ :=
  w.record .GetNamespaces (fun r => .names r.1 r.2) a.k8sClient.GetNamespaces

/-- The call `a.k8sClient.GetConfigMapData(namespace, name)`. -/
def GetConfigMapData (a : Auth σ) (ns name : String) (w : Run σ) :
    (GoMap String × GoError) × Run σ :=
  w.record (.GetConfigMapData ns name) (fun r => .data r.1 r.2)
    (a.k8sClient.GetConfigMapData ns name)

/-- The call `a.k8sClient.GetServiceAccounts(namespace, annotations)`. -/
def GetServiceAccounts (a : Auth σ) (ns : String) (annotations : GoMap String) (w : Run σ) :
    (List String × GoError) × Run σ :=
  w.record (.GetServiceAccounts ns annotations) (fun r => .names r.1 r.2)
    (a.k8sClient.GetServiceAccounts ns annotations)

/-- The call `a.k8sClient.DeleteServiceAccount(namespace, serviceAccount)`. -/
def DeleteServiceAccount (a : Auth σ) (ns serviceAccount : String) (w : Run σ) :
    GoError × Run σ :=
  w.record (.DeleteServiceAccount ns serviceAccount) .error
    (a.k8sClient.DeleteServiceAccount ns serviceAccount)

/-- The call `a.k8sClient.CreateServiceAccount(namespace, serviceAccount, annotations)`. -/
def CreateServiceAccount (a : Auth σ) (ns serviceAccount : String) (annotations : GoMap String)
    (w : Run σ) : GoError × Run σ :=
  w.record (.CreateServiceAccount ns serviceAccount annotations) .error
    (a.k8sClient.CreateServiceAccount ns serviceAccount annotations)

/-- The call `a.k8sClient.GetServiceAccountToken(namespace, serviceAccount)`. -/
def GetServiceAccountToken (a : Auth σ) (ns serviceAccount : String) (w : Run σ) :
    (List UInt8 × GoError) × Run σ :=
  w.record (.GetServiceAccountToken ns serviceAccount) (fun r => .bytes r.1 r.2)
    (a.k8sClient.GetServiceAccountToken ns serviceAccount)

/-- The call `a.k8sClient.CreateAuthDelegatorClusterRoleBinding(bindingName, namespace,
serviceAccount)`. -/
def CreateAuthDelegatorClusterRoleBinding (a : Auth σ) (bindingName ns serviceAccount : String)
    (w : Run σ) : GoError × Run σ :=
  w.record (.CreateAuthDelegatorClusterRoleBinding bindingName ns serviceAccount) .error
    (a.k8sClient.CreateAuthDelegatorClusterRoleBinding bindingName ns serviceAccount)

end Auth

/-! ## `pkg/auth/roles.go` -/

/-- `vaultAuthConfigNamespace`. -/
def vaultAuthConfigNamespace : String := "vault-auth"

/-- `vaultAuthConfigMap`. -/
def vaultAuthConfigMap : String := "vault-auth-roles"

/-- `serviceAccountAnnotations`. -/
def serviceAccountAnnotations : GoMap String :=
  ⟨[("vak-managed", "true")], by simp⟩

/-- `newVaultRoles`, ranging over `configMapData` at site 1. -/
def newVaultRoles (ro : RangeOrder) (unmarshal : String → Role × GoError)
    (configMapData : GoMap String) : GoMap Role :=
  (ro.visit 1 configMapData.entries).foldl
    (fun roles entry =>
      match NewRole unmarshal entry.2 with
      | (_, some _) => roles
      | (role, none) => roles.set entry.1 role)
    GoMap.empty

/-- `vaultRoles.getServiceAccountsSetByNamespace`, ranging over `v` at site 2. The
statement `serviceAccountsByNamespace[namespace][serviceAccount] = struct{}{}`
adds `serviceAccount` to the set stored at `namespace`. -/
def getServiceAccountsSetByNamespace (ro : RangeOrder) (v : GoMap Role) : GoMap (GoMap Unit) :=
  (ro.visit 2 v.entries).foldl
    (fun serviceAccountsByNamespace entry =>
      entry.2.BoundServiceAccountNamespaces.elems.foldl
        (fun serviceAccountsByNamespace ns =>
          let serviceAccountsByNamespace :=
            if serviceAccountsByNamespace.contains ns then serviceAccountsByNamespace
            else serviceAccountsByNamespace.set ns GoMap.empty
          entry.2.BoundServiceAccountNames.elems.foldl
            (fun serviceAccountsByNamespace serviceAccount =>
              serviceAccountsByNamespace.set ns
                (((serviceAccountsByNamespace.get? ns).getD GoMap.empty).set serviceAccount ()))
            serviceAccountsByNamespace)
        serviceAccountsByNamespace)
    GoMap.empty

/-! ## `pkg/auth/auth.go` -/

namespace Auth

variable {σ : Type}

/-- `Auth.deleteServiceAccounts`. -/
def deleteServiceAccounts (a : Auth σ) (serviceAccountsSetByNamespace : GoMap (GoMap Unit))
    (serviceAccountAnnotations : GoMap String) (w : Run σ) : Run σ :=
  let r := a.GetNamespaces w
  if r.1.2.isSome then r.2
  else
    r.1.1.foldl
      (fun w k8sNamespace =>
        let r := a.GetServiceAccounts k8sNamespace serviceAccountAnnotations w
        if r.1.2.isSome then r.2
        else
          r.1.1.foldl
            (fun w k8sServiceAccount =>
              match serviceAccountsSetByNamespace.get? k8sNamespace with
              | none => (a.DeleteServiceAccount k8sNamespace k8sServiceAccount w).2
              | some serviceAccountsSet =>
                if serviceAccountsSet.contains k8sServiceAccount then w
                else (a.DeleteServiceAccount k8sNamespace k8sServiceAccount w).2)
            r.2)
      r.2

/-- `Auth.deleteVaultRoles`. -/
def deleteVaultRoles (a : Auth σ) (vaultRolesInConfig : GoMap Role) (w : Run σ) : Run σ :=
  let r := a.ListRoles w
  if r.1.2.isSome then r.2
  else
    r.1.1.foldl
      (fun w vaultRoleInVault =>
        if vaultRolesInConfig.contains vaultRoleInVault then w
        else (a.DeleteRole vaultRoleInVault w).2)
      r.2

/-- `Auth.createServiceAccounts`, ranging over the set of a namespace at site 3.
An error of `GetNamespaces` is logged only; the loop runs over whatever list
came back with it. -/
def createServiceAccounts (a : Auth σ) (ro : RangeOrder)
    (serviceAccountsSetByNamespace : GoMap (GoMap Unit)) (w : Run σ) : Run σ :=
  let r := a.GetNamespaces w
  r.1.1.foldl
    (fun w k8sNamespace =>
      (ro.visit 3 ((serviceAccountsSetByNamespace.get? k8sNamespace).getD GoMap.empty).entries).foldl
        (fun w entry =>
          (a.CreateServiceAccount k8sNamespace entry.1 serviceAccountAnnotations w).2)
        w)
    r.2

/-- `Auth.createVaultRoles`, ranging over the roles at site 4. -/
def createVaultRoles (a : Auth σ) (ro : RangeOrder) (vaultRolesInConfig : GoMap Role)
    (w : Run σ) : Run σ :=
  (ro.visit 4 vaultRolesInConfig.entries).foldl
    (fun w entry => (a.CreateRole entry.1 entry.2 w).2)
    w

/-- `Auth.initServiceAccounts`: one reconciliation pass. -/
def initServiceAccounts (a : Auth σ) (ro : RangeOrder) (unmarshal : String → Role × GoError)
    (w : Run σ) : Run σ :=
  let r := a.GetConfigMapData vaultAuthConfigNamespace vaultAuthConfigMap w
  if r.1.2.isSome then r.2
  else
    let vaultRoles := newVaultRoles ro unmarshal r.1.1
    let serviceAccountsSetByNamespace := getServiceAccountsSetByNamespace ro vaultRoles
    let w := a.deleteServiceAccounts serviceAccountsSetByNamespace serviceAccountAnnotations r.2
    let w := a.deleteVaultRoles vaultRoles w
    let w := a.createServiceAccounts ro serviceAccountsSetByNamespace w
    a.createVaultRoles ro vaultRoles w

/-- The trace of one reconciliation pass started in collaborator state `s`. -/
def pass (a : Auth σ) (ro : RangeOrder) (unmarshal : String → Role × GoError) (s : σ) :
    List Event :=
  (a.initServiceAccounts ro unmarshal ⟨s, []⟩).trace

end Auth

/-! ## Collaborators for worked examples -/

/-- The config map of the first case of `TestAuth_initServiceAccounts`. -/
def exampleConfigMapData : GoMap String :=
  ⟨[("role1", "\x7b\"bound_service_account_names\": [\"vault-agent-injector\", \"default\"], \"bound_service_account_namespaces\": [\"kube-system\", \"default\"], \"token_policies\": [\"test\"]\x7d"),
    ("role2", "\x7b\"bound_service_account_names\": [\"vault-agent-injector\"], \"bound_service_account_namespaces\": [\"kube-system\"], \"token_policies\": [\"test\", \"default\"]\x7d")],
    by decide⟩

/-- A decoder that knows the two raw roles of `exampleConfigMapData` and rejects
every other text. -/
def exampleUnmarshal (rawRole : String) : Role × GoError :=
  if rawRole = "\x7b\"bound_service_account_names\": [\"vault-agent-injector\", \"default\"], \"bound_service_account_namespaces\": [\"kube-system\", \"default\"], \"token_policies\": [\"test\"]\x7d" then
    (⟨some ["vault-agent-injector", "default"], some ["kube-system", "default"], some ["test"], 0⟩,
      none)
  else if rawRole = "\x7b\"bound_service_account_names\": [\"vault-agent-injector\"], \"bound_service_account_namespaces\": [\"kube-system\"], \"token_policies\": [\"test\", \"default\"]\x7d" then
    (⟨some ["vault-agent-injector"], some ["kube-system"], some ["test", "default"], 0⟩, none)
  else (Role.zero, some "invalid character")

/-- The `VaultClientMock` of the first case of `TestAuth_initServiceAccounts`. -/
def exampleVaultClient : VaultClient Unit where
  InitAuthKubernetes := fun _ _ _ s => (none, s)
  ListRoles := fun s => ((["role1", "role3"], none), s)
  DeleteRole := fun _ s => (none, s)
  CreateRole := fun _ _ s => (none, s)

/-- The `K8sClientMock` of the first case of `TestAuth_initServiceAccounts`. -/
def exampleK8sClient : K8sClient Unit where
  GetNamespaces := fun s => ((["kube-system", "test", "default"], none), s)
  GetConfigMapData := fun _ _ s => ((exampleConfigMapData, none), s)
  GetServiceAccounts := fun ns _ s =>
    ((if ns = "test" then ["vault-agent-injector", "default"]
      else if ns = "kube-system" then ["vault-agent-injector"] else [], none), s)
  DeleteServiceAccount := fun _ _ s => (none, s)
  CreateServiceAccount := fun _ _ _ s => (none, s)
  GetServiceAccountToken := fun _ _ s => (([], none), s)
  CreateAuthDelegatorClusterRoleBinding := fun _ _ _ s => (none, s)

/-- The `Auth` of the first case of `TestAuth_initServiceAccounts`. -/
def exampleAuth : Auth Unit :=
  ⟨⟨"test-account/test-cluster", "http://kube.host", []⟩, exampleVaultClient, exampleK8sClient⟩

/-- The collaborators of `exampleAuth`, except that every create and delete
operation fails. -/
def exampleAuthFailing : Auth Unit :=
  ⟨exampleAuth.config,
    { exampleVaultClient with
      DeleteRole := fun _ s => (some "failed to delete role", s)
      CreateRole := fun _ _ s => (some "test failure", s) },
    { exampleK8sClient with
      DeleteServiceAccount := fun _ _ s => (some "failed to delete service account", s)
      CreateServiceAccount := fun _ _ _ s => (some "test failure", s) }⟩

/-- The collaborators of `exampleAuth`, except that `ListRoles` fails, as in the
case "when list roles request fails then no roles are deleted". -/
def exampleAuthListRolesFails : Auth Unit :=
  ⟨exampleAuth.config,
    { exampleVaultClient with ListRoles := fun s => (([], some "failed to list roles"), s) },
    exampleK8sClient⟩

/-- The requirement derived from `exampleConfigMapData`. -/
def exampleRequirement : GoMap (GoMap Unit) :=
  getServiceAccountsSetByNamespace RangeOrder.stored
    (newVaultRoles RangeOrder.stored exampleUnmarshal exampleConfigMapData)

/-! ## An idealised cluster and secret store

The collaborators behind `K8sClient` and `VaultClient` are outside the
repository. To speak about two consecutive passes, `World` gives them the
behaviour the design attributes to them: every call succeeds, creating a service
account that exists changes nothing, deleting removes, listing with an annotation
filter returns the accounts that carry every annotation of the filter, and the
store keeps the roles written to it. -/

/-- A service account of the idealised cluster. -/
structure ServiceAccount where
  ns : String
  name : String
  annotations : GoMap String
  deriving DecidableEq

/-- The state of the idealised cluster and secret store. -/
structure World where
  configMap : GoMap String
  namespaces : List String
  serviceAccounts : List ServiceAccount
  roles : List (String × Role)
  deriving DecidableEq

/-- The account carries every annotation of the filter. -/
def ServiceAccount.carries (sa : ServiceAccount) (filter : GoMap String) : Bool :=
  filter.entries.all (fun p => sa.annotations.get? p.1 = some p.2)

/-- The idealised cluster behind `K8sClient`. -/
def World.k8sClient : K8sClient World where
  GetNamespaces := fun s => ((s.namespaces, none), s)
  GetConfigMapData := fun _ _ s => ((s.configMap, none), s)
  GetServiceAccounts := fun ns filter s =>
    (((s.serviceAccounts.filter (fun sa => sa.ns = ns && sa.carries filter)).map
      ServiceAccount.name, none), s)
  DeleteServiceAccount := fun ns name s =>
    (none, { s with
      serviceAccounts := s.serviceAccounts.filter (fun sa => !(sa.ns = ns && sa.name = name)) })
  CreateServiceAccount := fun ns name annotations s =>
    (none,
      if s.serviceAccounts.any (fun sa => sa.ns = ns && sa.name = name) then s
      else { s with serviceAccounts := s.serviceAccounts ++ [⟨ns, name, annotations⟩] })
  GetServiceAccountToken := fun _ _ s => (([], none), s)
  CreateAuthDelegatorClusterRoleBinding := fun _ _ _ s => (none, s)

/-- The idealised secret store behind `VaultClient`. -/
def World.vaultClient : VaultClient World where
  InitAuthKubernetes := fun _ _ _ s => (none, s)
  ListRoles := fun s => ((s.roles.map Prod.fst, none), s)
  DeleteRole := fun role s => (none, { s with roles := s.roles.filter (fun p => p.1 ≠ role) })
  CreateRole := fun name role s =>
    (none, { s with roles := s.roles.filter (fun p => p.1 ≠ name) ++ [(name, role)] })

/-- The engine attached to the idealised cluster and secret store. -/
def World.auth : Auth World :=
  ⟨⟨"test-account/test-cluster", "http://kube.host", []⟩, World.vaultClient, World.k8sClient⟩

/-- The collaborator state that one pass leaves behind. -/
def World.afterPass (ro : RangeOrder) (unmarshal : String → Role × GoError) (s : World) : World :=
  (World.auth.initServiceAccounts ro unmarshal ⟨s, []⟩).state

/-- A world with the config map of `exampleConfigMapData`, three namespaces, two
stale managed accounts in `test`, and the roles `role1` and `role3` in the store. -/
def exampleWorld : World where
  configMap := exampleConfigMapData
  namespaces := ["kube-system", "test", "default"]
  serviceAccounts :=
    [⟨"test", "vault-agent-injector", serviceAccountAnnotations⟩,
     ⟨"test", "default", serviceAccountAnnotations⟩,
     ⟨"kube-system", "vault-agent-injector", serviceAccountAnnotations⟩]
  roles := [("role1", Role.zero), ("role3", Role.zero)]

/-! ## Specification-side notions -/

/-- The elements of `l` that are not in `seen`, each kept at its first occurrence. -/
def firstOccurrences (seen : List String) : List String → List String
  | [] => []
  | x :: xs =>
    if x ∈ seen then firstOccurrences seen xs else x :: firstOccurrences (x :: seen) xs

/-- Slice `t` holds the elements of slice `s` in some order; a nil slice is only
a reordering of a nil slice. -/
def Slice.Permuted (s t : Slice) : Prop :=
  match s, t with
  | none, none => True
  | some l, some l' => l.Perm l'
  | _, _ => False

/-- The interface method of a call, numbered as the methods are declared in
`VaultClient` (0 to 3) and `K8sClient` (4 to 10). -/
def Call.method : Call → Nat
  | .InitAuthKubernetes _ _ _ => 0
  | .ListRoles => 1
  | .DeleteRole _ => 2
  | .CreateRole _ _ => 3
  | .GetNamespaces => 4
  | .GetConfigMapData _ _ => 5
  | .GetServiceAccounts _ _ => 6
  | .DeleteServiceAccount _ _ => 7
  | .CreateServiceAccount _ _ _ => 8
  | .GetServiceAccountToken _ _ => 9
  | .CreateAuthDelegatorClusterRoleBinding _ _ _ => 10

/-- A create or delete operation: `DeleteRole`, `CreateRole`,
`DeleteServiceAccount` or `CreateServiceAccount`. -/
def Call.isCreateOrDelete (c : Call) : Bool :=
  c.method = 2 || c.method = 3 || c.method = 7 || c.method = 8

/-- Account `sa` is required in namespace `ns` by the requirement `R`: `ns` is a
key of `R` and `sa` is in the set stored there. -/
def isRequired (R : GoMap (GoMap Unit)) (ns sa : String) : Bool :=
  match R.get? ns with
  | none => false
  | some set => set.contains sa

/-- The `DeleteServiceAccount` calls that follow a `GetServiceAccounts` reply for
`ns` in `deleteServiceAccounts`. -/
def sweepCalls (R : GoMap (GoMap Unit)) (ns : String) (listed : List String) (err : GoError) :
    List Call :=
  if err.isSome then []
  else (listed.filter (fun sa => !isRequired R ns sa)).map (Call.DeleteServiceAccount ns)

/-- The trace segment of one namespace in `deleteServiceAccounts`: the listing of
the namespace, then the deletions it leads to. -/
def IsSweep (R : GoMap (GoMap Unit)) (annotations : GoMap String) (ns : String)
    (seg : List Event) : Prop :=
  ∃ listed err dels, seg = ⟨.GetServiceAccounts ns annotations, .names listed err⟩ :: dels ∧
    calls dels = sweepCalls R ns listed err

/-- The trace segment of `deleteServiceAccounts`. -/
def IsDeleteServiceAccounts (R : GoMap (GoMap Unit)) (annotations : GoMap String)
    (seg : List Event) : Prop :=
  ∃ (namespaces : List String) (err : GoError) (sweeps : List (List Event)),
    seg = ⟨.GetNamespaces, .names namespaces err⟩ :: sweeps.flatten ∧
    (err.isSome = true → sweeps = []) ∧
    (err = none → List.Forall₂ (IsSweep R annotations) namespaces sweeps)

/-- The trace segment of `deleteVaultRoles`. -/
def IsDeleteVaultRoles (D : GoMap Role) (seg : List Event) : Prop :=
  ∃ (listed : List String) (err : GoError) (dels : List Event),
    seg = ⟨.ListRoles, .names listed err⟩ :: dels ∧
    calls dels = if err.isSome then []
      else (listed.filter (fun r => !D.contains r)).map Call.DeleteRole

/-- The `CreateServiceAccount` calls of `createServiceAccounts` for the listed
namespaces. -/
def createServiceAccountCalls (ro : RangeOrder) (R : GoMap (GoMap Unit))
    (namespaces : List String) : List Call :=
  namespaces.flatMap (fun ns =>
    (ro.visit 3 ((R.get? ns).getD GoMap.empty).entries).map
      (fun entry => Call.CreateServiceAccount ns entry.1 serviceAccountAnnotations))

/-- The trace segment of `createServiceAccounts`. -/
def IsCreateServiceAccounts (ro : RangeOrder) (R : GoMap (GoMap Unit)) (seg : List Event) :
    Prop :=
  ∃ (namespaces : List String) (err : GoError) (creates : List Event),
    seg = ⟨.GetNamespaces, .names namespaces err⟩ :: creates ∧
    calls creates = createServiceAccountCalls ro R namespaces

/-- The trace segment of `createVaultRoles`. -/
def IsCreateVaultRoles (ro : RangeOrder) (D : GoMap Role) (seg : List Event) : Prop :=
  calls seg = (ro.visit 4 D.entries).map (fun entry => Call.CreateRole entry.1 entry.2)

/-- An observation is a call of `ListRoles`, `GetNamespaces`, `GetConfigMapData` or
`GetServiceAccounts`. -/
def isObservation (e : Event) : Bool :=
  e.call.method = 1 || e.call.method = 4 || e.call.method = 5 || e.call.method = 6

/-- The observations of a trace, in order, each with its reply. -/
def observations (t : List Event) : List Event := t.filter isObservation

/-- The calls that a `GetServiceAccounts` event stands for in
`deleteServiceAccounts`: the call itself and the deletions its reply leads to. -/
def sweepExpand (R : GoMap (GoMap Unit)) (e : Event) : List Call :=
  match e.call, e.reply with
  | .GetServiceAccounts ns _, .names listed err => e.call :: sweepCalls R ns listed err
  | _, _ => [e.call]

/-- The body of the namespace loop of `deleteServiceAccounts`. -/
def Auth.sweep {σ : Type} (a : Auth σ) (serviceAccountsSetByNamespace : GoMap (GoMap Unit))
    (serviceAccountAnnotations : GoMap String) (w : Run σ) (k8sNamespace : String) : Run σ :=
  let r := a.GetServiceAccounts k8sNamespace serviceAccountAnnotations w
  if r.1.2.isSome then r.2
  else
    r.1.1.foldl
      (fun w k8sServiceAccount =>
        match serviceAccountsSetByNamespace.get? k8sNamespace with
        | none => (a.DeleteServiceAccount k8sNamespace k8sServiceAccount w).2
        | some serviceAccountsSet =>
          if serviceAccountsSet.contains k8sServiceAccount then w
          else (a.DeleteServiceAccount k8sNamespace k8sServiceAccount w).2)
      r.2

/-- The role that `newVaultRoles` keeps for a raw config-map entry, if `NewRole`
accepts it. -/
def acceptedRole (unmarshal : String → Role × GoError) (rawRole : String) : Option Role :=
  match NewRole unmarshal rawRole with
  | (_, some _) => none
  | (role, none) => some role

/-- Nothing was added: `s'` has the config map and namespaces of `s`, and its
service accounts and roles are among those of `s`. -/
def World.Shrinks (s s' : World) : Prop :=
  s'.configMap = s.configMap ∧ s'.namespaces = s.namespaces ∧
  (∀ x ∈ s'.serviceAccounts, x ∈ s.serviceAccounts) ∧ (∀ p ∈ s'.roles, p ∈ s.roles)

/-- Every managed account of namespace `ns` is required there. -/
def World.NamespaceConverged (R : GoMap (GoMap Unit)) (ns : String) (s : World) : Prop :=
  ∀ x ∈ s.serviceAccounts, x.ns = ns → x.carries serviceAccountAnnotations = true →
    isRequired R ns x.name = true

/-- The observed state agrees with the desired state: in every namespace of the
cluster every managed account is required, and every role of the store is desired. -/
def World.Converged (R : GoMap (GoMap Unit)) (D : GoMap Role) (s : World) : Prop :=
  (∀ ns ∈ s.namespaces, s.NamespaceConverged R ns) ∧ (∀ p ∈ s.roles, D.contains p.1 = true)

/-- Only wanted things were added: `s'` has the config map and namespaces of `s`,
every service account of `s'` is one of `s` or is required, and every role of
`s'` is one of `s` or is desired. -/
def World.GrowsWithin (R : GoMap (GoMap Unit)) (D : GoMap Role) (s s' : World) : Prop :=
  s'.configMap = s.configMap ∧ s'.namespaces = s.namespaces ∧
  (∀ x ∈ s'.serviceAccounts, x ∈ s.serviceAccounts ∨ isRequired R x.ns x.name = true) ∧
  (∀ p ∈ s'.roles, p ∈ s.roles ∨ D.contains p.1 = true)

/-- No `DeleteRole` and no `DeleteServiceAccount` among the calls of a trace. -/
def NoDelete (t : List Event) : Prop :=
  ∀ c ∈ calls t, c.method ≠ 2 ∧ c.method ≠ 7

/-! ## `pkg/vault/client.go`, `pkg/vault/error.go`

The Vault client. Its collaborators are the `HttpClient` behind the `Config` (a
state transformer over the state `σ` of the server), and the functions of the
Go standard library that it calls, which are parameters of the model (`Lib`). Every call of
`HttpClient.Do` is logged with what `doHttpRequest` made of the answer. -/

namespace Vault

/-- `strings.Trim(s, cutset)`. -/
def stringsTrim (s cutset : String) : String :=
  String.mk (((s.data.dropWhile (fun ch => cutset.data.contains ch)).reverse.dropWhile
    (fun ch => cutset.data.contains ch)).reverse)

/-- `strings.TrimSuffix(s, suffix)`. -/
def stringsTrimSuffix (s suffix : String) : String :=
  if suffix.data.isSuffixOf s.data then String.mk (s.data.take (s.data.length - suffix.data.length))
  else s

/-- `vaultVersion`. -/
def vaultVersion : String := "v1"

/-- `kubernetesMountType`. -/
def kubernetesMountType : String := "kubernetes"

/-- `httpNumberOfRetries`. -/
def httpNumberOfRetries : Nat := 3

/-- `*http.Request` as far as the client uses it: method, URL, header fields (the
client uses one value per field) and the body, if any. The body of a request is a
reader over the marshalled text: `Body` is the text that is left to read. -/
structure Request where
  Method : String
  URL : String
  Header : GoMap String
  Body : Option String
  deriving DecidableEq

/-- `request.Header.Set(key, value)`. -/
def Request.HeaderSet (request : Request) (key value : String) : Request :=
  { request with Header := request.Header.set key value }

/-- `*http.Response` as far as the client uses it: the status code and what
`ioutil.ReadAll(response.Body)` returns. -/
structure Response where
  StatusCode : Int
  Body : String × GoError
  deriving DecidableEq

/-- What `HttpClient.Do` returns: an error, or a response with a nil error. -/
inductive HttpResult where
  | failed (err : String)
  | replied (response : Response)
  deriving DecidableEq

/-- `HttpClient`. `Do` gets the request by pointer and may read from its body:
`Do` is the call as a transformer of the server state, and `Unread` is the text
that the call leaves to read in the body of a request that has one
(`*http.Client` reads the body of a request that it sends to its end). -/
structure HttpClient (σ : Type) where
  Do : Request → σ → HttpResult × σ
  Unread : Request → σ → String

/-- The request object after `Do` was called with it: method, URL and header are
kept, and the body, if there is one, holds what the call left to read. -/
def Request.afterDo {σ : Type} (request : Request) (httpClient : HttpClient σ) (server : σ) :
    Request :=
  { request with Body := request.Body.map (fun _ => httpClient.Unread request server) }

/-- `Config` of the Vault client. -/
structure Config (σ : Type) where
  HttpClient : Vault.HttpClient σ
  Host : String
  RoleId : String
  SecretId : String

/-- `Client`. -/
structure Client (σ : Type) where
  config : Config σ
  mount : String
  token : String

/-- `responseErrors`. -/
structure responseErrors where
  status : Int
  errors : Slice
  deriving DecidableEq

/-- `responseErrors.contains`. -/
def responseErrors.contains (r : responseErrors) (msg : String) : Bool :=
  r.errors.elems.any (fun line => line = msg)

/-- One call of `HttpClient.Do`: the request as sent, what `Do` returned, and
the `(responseErrs, err)` that `doHttpRequest` returned for it. -/
structure Exchange where
  request : Request
  result : HttpResult
  outcome : Option responseErrors × GoError
  deriving DecidableEq

/-- What a method of `*Client` works on: the client behind the pointer, the
state of the server behind its `HttpClient`, and the exchanges made so far. -/
structure Session (σ : Type) where
  client : Client σ
  server : σ
  log : List Exchange

/-- The request bodies that the client marshals. -/
inductive RequestBody where
  | role (role : Role)
  | login (RoleId SecretId : String)
  | mount (Type_ Description : String) (Config : GoMap String)
  | configure (KubernetesHost KubernetesCACert TokenReviewerJWT : String)
  deriving DecidableEq

/-- The `Auth` part of the response that `appRoleLogin` decodes. -/
structure AppRoleAuth where
  Renewable : Bool
  LeaseDuration : Int
  TokenPolicies : Slice
  Accessor : String
  ClientToken : String
  deriving DecidableEq

/-- The zero value of the login response. -/
def AppRoleAuth.zero : AppRoleAuth := ⟨false, 0, none, "", ""⟩

/-- The functions of the Go standard library that the client calls.
`marshal` is `json.Marshal`; `newRequest method url` is the error of
`http.NewRequest(method, url, body)`; `unmarshalErrors` is `json.Unmarshal` into
a fresh `struct{Errors []string}`; the other four are `json.Unmarshal` into the
response value of `readRole`, `ListRoles`, `isAuthKubernetesMounted` and
`appRoleLogin`: they take the value the target holds and give the value it holds
afterwards (also when decoding fails) and the decoding error. -/
structure Lib where
  marshal : RequestBody → String × GoError
  newRequest : String → String → GoError
  unmarshalErrors : String → Slice × GoError
  unmarshalRole : String → Option Role → Option Role × GoError
  unmarshalKeys : String → Slice → Slice × GoError
  unmarshalMounts : String → GoMap String → GoMap String × GoError
  unmarshalLogin : String → AppRoleAuth → AppRoleAuth × GoError

/-- `Client.buildVaultUrl`. -/
def buildVaultUrl {σ : Type} (c : Client σ) (path : String) : String :=
  c.config.Host ++ "/" ++ vaultVersion ++ "/" ++ stringsTrim path "/"

/-- `Client.newJsonRequest`; `jsonRequestBody = none` is the nil interface. -/
def newJsonRequest {σ : Type} (L : Lib) (c : Client σ) (method path : String)
    (jsonRequestBody : Option RequestBody) : Except String Request :=
  let body : Except String (Option String) :=
    match jsonRequestBody with
    | none => .ok none
    | some b =>
      match L.marshal b with
      | (_, some err) => .error ("marshal json request: " ++ err)
      | (requestBody, none) => .ok (some requestBody)
  match body with
  | .error err => .error err
  | .ok body =>
    let url := buildVaultUrl c path
    match L.newRequest method url with
    | some err => .error ("new http request: " ++ err)
    | none => .ok ⟨method, url, GoMap.empty.set "Content-Type" "application/json", body⟩

/-- `Client.doHttpRequest`. The pair `decode`, `jsonResponseBody` stands for
the Go argument `jsonResponseBody`: `decode = none` is the nil interface,
`decode = some unmarshal` a pointer to the value `jsonResponseBody`, which
`unmarshal` decodes into. The value the target holds afterwards is returned
with the result. -/
def doHttpRequest {σ β : Type} (L : Lib) (request : Request)
    (decode : Option (String → β → β × GoError)) (jsonResponseBody : β) (s : Session σ) :
    (Option responseErrors × GoError) × β × Session σ :=
  let (result, server) := s.client.config.HttpClient.Do request s.server
  let out : (Option responseErrors × GoError) × β :=
    match result with
    | .failed err => ((none, some ("http httpClient do: " ++ err)), jsonResponseBody)
    | .replied response =>
      match response.Body with
      | (_, some err) => ((none, some ("read response body: " ++ err)), jsonResponseBody)
      | (responseBody, none) =>
        if response.StatusCode.tdiv 100 ≠ 2 then
          if responseBody.length > 0 then
            match L.unmarshalErrors responseBody with
            | (_, some err) => ((none, some ("unmarshal json response: " ++ err)), jsonResponseBody)
            | (errors, none) => ((some ⟨response.StatusCode, errors⟩, none), jsonResponseBody)
          else ((some ⟨response.StatusCode, none⟩, none), jsonResponseBody)
        else
          match decode with
          | none => ((none, none), jsonResponseBody)
          | some unmarshal =>
            match unmarshal responseBody jsonResponseBody with
            | (v, some err) => ((none, some ("unmarshal json response: " ++ err)), v)
            | (v, none) => ((none, none), v)
  (out.1, out.2, { s with server := server, log := s.log ++ [⟨request, result, out.1⟩] })

/-- The two values of type `errorHandler` that the package defines:
`permissionDeniedErrorHandler` and `expectedNotFoundErrorHandler`. -/
inductive errorHandler where
  | permissionDenied
  | expectedNotFound
  deriving DecidableEq

/-- `expectedNotFoundErrorHandler`. Its assignment `jsonResponseBody = nil`
changes the handler's own parameter only. -/
def expectedNotFoundErrorHandler (responseErrs : responseErrors) : Bool × GoError :=
  if responseErrs.status = 404 then (true, none) else (false, none)

/-- `permissionDeniedErrorHandler`; `appRoleLogin` is `c.appRoleLogin(retries - 1)`. -/
def permissionDeniedErrorHandler {σ : Type} (appRoleLogin : Session σ → GoError × Session σ)
    (responseErrs : responseErrors) (s : Session σ) : (Bool × GoError) × Session σ :=
  if responseErrs.contains "permission denied" then
    match appRoleLogin s with
    | (some err, s) => ((true, some ("app role login: " ++ err)), s)
    | (none, s) => ((false, none), s)
  else ((false, none), s)

/-- Calling a handler. -/
def errorHandler.call {σ : Type} (handler : errorHandler)
    (appRoleLogin : Session σ → GoError × Session σ) (responseErrs : responseErrors)
    (s : Session σ) : (Bool × GoError) × Session σ :=
  match handler with
  | .permissionDenied => permissionDeniedErrorHandler appRoleLogin responseErrs s
  | .expectedNotFound => (expectedNotFoundErrorHandler responseErrs, s)

/-- The loop `for _, handler := range errorHandlers` of `doJsonRequest`: `(true,
err)` when a handler made `doJsonRequest` return `err`, `(false, nil)` when the
loop ran to its end. -/
def runErrorHandlers {σ : Type} (appRoleLogin : Session σ → GoError × Session σ)
    (responseErrs : responseErrors) : List errorHandler → Session σ → (Bool × GoError) × Session σ
  | [], s => ((false, none), s)
  | handler :: rest, s =>
    match handler.call appRoleLogin responseErrs s with
    | ((stop, err), s) =>
      if stop || err.isSome then ((true, err), s)
      else runErrorHandlers appRoleLogin responseErrs rest s

/-- The body of `Client.appRoleLogin`, with its call `c.doJsonRequest(jsonRequest,
&response, nil, retries)` as the argument `doJsonRequest`. -/
def appRoleLoginBody {σ : Type} (L : Lib)
    (doJsonRequest : Request → AppRoleAuth → Session σ → GoError × AppRoleAuth × Session σ)
    (s : Session σ) : GoError × Session σ :=
  let path := "auth/approle/login"
  let request := RequestBody.login s.client.config.RoleId s.client.config.SecretId
  match newJsonRequest L s.client "POST" path (some request) with
  | .error err => (some err, s)
  | .ok jsonRequest =>
    match doJsonRequest jsonRequest AppRoleAuth.zero s with
    | (some err, _, s) => (some err, s)
    | (none, response, s) =>
      (none, { s with client := { s.client with token := response.ClientToken } })

/-- `Client.doJsonRequest`. The budget `retries` is a natural number: every
caller in the package passes `httpNumberOfRetries` or, from a handler, the
budget of a running `doJsonRequest` minus one, which is taken only after the
test `retries == 0` has failed. Every attempt works on the one request object
that the caller built: the header assignment changes it, and so does the call
of `Do` inside `doHttpRequest`, which may read from its body; the next attempt
gets the object as this one left it. -/
def doJsonRequest {σ β : Type} (L : Lib) (request : Request)
    (decode : Option (String → β → β × GoError)) (jsonResponseBody : β)
    (errorHandlers : List errorHandler) : Nat → Session σ → GoError × β × Session σ
  | 0, s => (some "number of retries exceeded", jsonResponseBody, s)
  | retries + 1, s =>
    let request := request.HeaderSet "X-Vault-Token" s.client.token
    let attempt := doHttpRequest L request decode jsonResponseBody s
    let request := request.afterDo s.client.config.HttpClient s.server
    match attempt with
    | ((_, some _), jsonResponseBody, s) =>
      doJsonRequest L request decode jsonResponseBody errorHandlers retries s
    | ((some responseErrs, none), jsonResponseBody, s) =>
      match runErrorHandlers
          (appRoleLoginBody L (fun jsonRequest response s =>
            doJsonRequest L jsonRequest (some L.unmarshalLogin) response [] retries s))
          responseErrs errorHandlers s with
      | ((true, err), s) => (err, jsonResponseBody, s)
      | ((false, _), s) =>
        doJsonRequest L request decode jsonResponseBody errorHandlers retries s
    | ((none, none), jsonResponseBody, s) => (none, jsonResponseBody, s)

/-- `Client.appRoleLogin`. -/
def appRoleLogin {σ : Type} (L : Lib) (retries : Nat) (s : Session σ) : GoError × Session σ :=
  appRoleLoginBody L (fun jsonRequest response s =>
    doJsonRequest L jsonRequest (some L.unmarshalLogin) response [] retries s) s

/-- `NewClient`: the returned pointer and error; the session holds the client
that was built, also when the login failed and the caller gets no pointer. -/
def NewClient {σ : Type} (L : Lib) (config : Config σ) (authK8sMount : String) (server : σ)
    (log : List Exchange) : (Option (Client σ) × GoError) × Session σ :=
  let config := { config with Host := stringsTrimSuffix config.Host "/" }
  let c : Client σ := { mount := stringsTrim authK8sMount "/", config := config, token := "" }
  match appRoleLogin L httpNumberOfRetries ⟨c, server, log⟩ with
  | (some err, s) => ((none, some err), s)
  | (none, s) => ((some s.client, none), s)

/-- `Client.readRole`. -/
def readRole {σ : Type} (L : Lib) (name : String) (s : Session σ) :
    (Option Role × GoError) × Session σ :=
  let path := "auth/" ++ s.client.mount ++ "/role/" ++ name
  let response : Option Role := none
  match newJsonRequest L s.client "GET" path none with
  | .error err => ((none, some err), s)
  | .ok jsonRequest =>
    let errorHandlers := [errorHandler.permissionDenied,
      errorHandler.expectedNotFound]
    match doJsonRequest L jsonRequest (some L.unmarshalRole) response errorHandlers
        httpNumberOfRetries s with
    | (some err, _, s) => ((none, some err), s)
    | (none, response, s) => ((response, none), s)

/-- `Client.ListRoles`. -/
def ListRoles {σ : Type} (L : Lib) (s : Session σ) : (Slice × GoError) × Session σ :=
  let path := "auth/" ++ s.client.mount ++ "/role"
  let response : Slice := none
  match newJsonRequest L s.client "LIST" path none with
  | .error err => ((none, some err), s)
  | .ok jsonRequest =>
    let errorHandlers := [errorHandler.permissionDenied,
      errorHandler.expectedNotFound]
    match doJsonRequest L jsonRequest (some L.unmarshalKeys) response errorHandlers
        httpNumberOfRetries s with
    | (some err, _, s) => ((none, some err), s)
    | (none, response, s) => ((response, none), s)

/-- `Client.CreateRole`. When `role.Equal(*existingRole)` is false the request
is built from `role` as `Equal` left it: `Equal` sorts the lists of its
receiver in place, and the receiver shares them with `role`. -/
def CreateRole {σ : Type} (L : Lib) (name : String) (role : Role) (s : Session σ) :
    GoError × Session σ :=
  match readRole L name s with
  | ((_, some err), s) => (some err, s)
  | ((existingRole, none), s) =>
    let compared : Bool × Role :=
      match existingRole with
      | some existingRole => ((role.Equal existingRole).1, (role.Equal existingRole).2.1)
      | none => (false, role)
    if compared.1 then (none, s)
    else
      let role := compared.2
      let path := "auth/" ++ s.client.mount ++ "/role/" ++ name
      match newJsonRequest L s.client "POST" path (some (RequestBody.role role)) with
      | .error err => (some err, s)
      | .ok jsonRequest =>
        let errorHandlers := [errorHandler.permissionDenied]
        match doJsonRequest L jsonRequest (none : Option (String → Unit → Unit × GoError)) ()
            errorHandlers httpNumberOfRetries s with
        | (err, _, s) => (err, s)

/-- `Client.DeleteRole`. -/
def DeleteRole {σ : Type} (L : Lib) (name : String) (s : Session σ) : GoError × Session σ :=
  match readRole L name s with
  | ((_, some err), s) => (some err, s)
  | ((none, none), s) => (none, s)
  | ((some _, none), s) =>
    let path := "auth/" ++ s.client.mount ++ "/role/" ++ name
    match newJsonRequest L s.client "DELETE" path none with
    | .error err => (some err, s)
    | .ok jsonRequest =>
      let errorHandlers := [errorHandler.permissionDenied,
        errorHandler.expectedNotFound]
      match doJsonRequest L jsonRequest (none : Option (String → Unit → Unit × GoError)) ()
          errorHandlers httpNumberOfRetries s with
      | (err, _, s) => (err, s)

end Vault

/-! ## A library and servers for worked examples of the Vault client -/

namespace Vault

/-- The answer of Vault to a successful login, as in `authAppRoleResponse`. -/
def exampleLoginBody : String :=
  "\x7b\"auth\": \x7b\"renewable\": true, \"lease_duration\": 1200, \"token_policies\": [\"default\"], \"accessor\": \"fd6c9a00\", \"client_token\": \"5b1a0318\"\x7d\x7d"

/-- The answer of Vault to reading a role, as in `readRoleResponse`. -/
def exampleRoleBody : String :=
  "\x7b\"data\": \x7b\"bound_service_account_names\": [\"default\", \"test1\"], \"bound_service_account_namespaces\": [\"test1\"], \"token_policies\": [\"test1\"], \"token_ttl\": 3600\x7d\x7d"

/-- The role of `exampleRoleBody`. -/
def exampleRole : Role := ⟨some ["default", "test1"], some ["test1"], some ["test1"], 3600⟩

/-- The answer of Vault to listing the roles, as in `listRolesResponse`. -/
def exampleKeysBody : String := "\x7b\"data\": \x7b\"keys\": [\"test1\"]\x7d\x7d"

/-- The body of a rejection for an expired token. -/
def permissionDeniedBody : String := "\x7b\"errors\":[\"permission denied\"]\x7d"

/-- The body of a failure of the server. -/
def internalServerErrorBody : String := "\x7b\"errors\":[\"internal server error\"]\x7d"

/-- A rendering of a string list for `exampleLib`. -/
def exampleMarshalSlice : Slice → String
  | none => "null"
  | some l => "[" ++ ",".intercalate (l.map (fun x => "\"" ++ x ++ "\"")) ++ "]"

/-- A library for worked examples: it decodes the bodies above and rejects
every other text, marshals request bodies to a rendering of their string
fields, and refuses URLs with a control character, like `http.NewRequest`. -/
def exampleLib : Lib where
  marshal := fun b =>
    match b with
    | .role role =>
      ("\x7b\"bound_service_account_names\":" ++ exampleMarshalSlice role.BoundServiceAccountNames
        ++ ",\"bound_service_account_namespaces\":"
        ++ exampleMarshalSlice role.BoundServiceAccountNamespaces
        ++ ",\"token_policies\":" ++ exampleMarshalSlice role.TokenPolicies ++ "\x7d", none)
    | .login RoleId SecretId =>
      ("\x7b\"role_id\":\"" ++ RoleId ++ "\",\"secret_id\":\"" ++ SecretId ++ "\"\x7d", none)
    | .mount Type_ Description _ =>
      ("\x7b\"type\":\"" ++ Type_ ++ "\",\"description\":\"" ++ Description ++ "\"\x7d", none)
    | .configure KubernetesHost KubernetesCACert TokenReviewerJWT =>
      ("\x7b\"kubernetes_host\":\"" ++ KubernetesHost ++ "\",\"kubernetes_ca_cert\":\""
        ++ KubernetesCACert ++ "\",\"token_reviewer_jwt\":\"" ++ TokenReviewerJWT ++ "\"\x7d", none)
  newRequest := fun _ url =>
    if url.data.any (fun ch => decide (ch.toNat < 32) || decide (ch.toNat = 127)) then
      some "net/url: invalid control character in URL"
    else none
  unmarshalErrors := fun data =>
    if data = permissionDeniedBody then (some ["permission denied"], none)
    else if data = internalServerErrorBody then (some ["internal server error"], none)
    else if data = "\x7b\"errors\":[]\x7d" then (some [], none)
    else (none, some "invalid character")
  unmarshalRole := fun data v =>
    if data = exampleRoleBody then (some exampleRole, none) else (v, some "invalid character")
  unmarshalKeys := fun data v =>
    if data = exampleKeysBody then (some ["test1"], none) else (v, some "invalid character")
  unmarshalMounts := fun data v =>
    if data = "\x7b\"data\": \x7b\x7d\x7d" then (GoMap.empty, none)
    else (v, some "invalid character")
  unmarshalLogin := fun data v =>
    if data = exampleLoginBody then
      (⟨true, 1200, some ["default"], "fd6c9a00", "5b1a0318"⟩, none)
    else (v, some "invalid character")

/-- A server that gives the answers of a script in turn, whatever is asked,
and refuses the connection when the script is used up. A request that gets an
answer was sent, and its body read to the end; a refused connection reads
nothing. -/
def scriptedHttpClient : HttpClient (List HttpResult) where
  Do := fun _ script =>
    match script with
    | [] => (.failed "connection refused", [])
    | result :: rest => (result, rest)
  Unread := fun request script =>
    match script with
    | [] => request.Body.getD ""
    | _ :: _ => ""

/-- An answer with a status and a body that is read without error. -/
def answer (status : Int) (body : String) : HttpResult := .replied ⟨status, (body, none)⟩

/-- A client of the scripted server, as the tests build theirs: mount
`kubernetes/hcom-sandbox-aws/backend`, token `ABC123`. -/
def exampleClient : Client (List HttpResult) :=
  ⟨⟨scriptedHttpClient, "http://127.0.0.1:8200", "role-id", "secret-id"⟩,
    "kubernetes/hcom-sandbox-aws/backend", "ABC123"⟩

/-- A session of `exampleClient` in front of a script, with nothing sent so far. -/
def exampleSession (script : List HttpResult) : Session (List HttpResult) :=
  ⟨exampleClient, script, []⟩

/-- The request that `ListRoles` builds for `exampleClient`. -/
def exampleRequest : Request :=
  ⟨"LIST", "http://127.0.0.1:8200/v1/auth/kubernetes/hcom-sandbox-aws/backend/role",
    GoMap.empty.set "Content-Type" "application/json", none⟩

/-- A desired role whose lists are not in ascending order. -/
def exampleDesiredRole : Role :=
  ⟨some ["vault-injector", "default"], some ["test", "kube-system"], some ["test", "default"], 1800⟩

/-- The server of the test "when token is expired then login needs to happen to
re-generate token before the request": it answers a login with a token, rejects
the token `expired-token` and accepts every other one. It reads the body of
every request to the end. -/
def expiredTokenHttpClient : HttpClient Unit where
  Do := fun request s =>
    if request.URL = "http://127.0.0.1:8200/v1/auth/approle/login" && request.Method = "POST" then
      (answer 200 exampleLoginBody, s)
    else if request.Header.get? "X-Vault-Token" = some "expired-token" then
      (answer 403 permissionDeniedBody, s)
    else (answer 200 exampleKeysBody, s)
  Unread := fun _ _ => ""

/-- A session in front of `expiredTokenHttpClient` of a client that holds the
expired token. -/
def expiredTokenSession : Session Unit :=
  ⟨⟨⟨expiredTokenHttpClient, "http://127.0.0.1:8200", "role-id", "secret-id"⟩,
    "kubernetes/hcom-sandbox-aws/backend", "expired-token"⟩, (), []⟩

/-- An answer of Vault to reading a role in which `token_ttl` is a string:
`json.Unmarshal` decodes the fields that it can and returns an error for the
field that it cannot. -/
def exampleMistypedRoleBody : String :=
  "\x7b\"data\": \x7b\"bound_service_account_names\": [\"a\"], \"token_ttl\": \"x\"\x7d\x7d"

/-- The library `exampleLib`, which also decodes `exampleMistypedRoleBody`: the
response value then holds a role with the names of the body, and the error for
`token_ttl` is returned. -/
def exampleMistypedLib : Lib :=
  { exampleLib with
    unmarshalRole := fun data v =>
      if data = exampleMistypedRoleBody then
        (some { v.getD Role.zero with BoundServiceAccountNames := some ["a"] },
          some "json: cannot unmarshal string into Go struct field .data.token_ttl of type int")
      else exampleLib.unmarshalRole data v }

/-- The login request of the example clients. -/
def exampleLoginRequest : Request :=
  ⟨"POST", "http://127.0.0.1:8200/v1/auth/approle/login",
    GoMap.empty.set "Content-Type" "application/json",
    some "\x7b\"role_id\":\"role-id\",\"secret_id\":\"secret-id\"\x7d"⟩

end Vault

/-! ## Specification-side notions for the Vault client -/

namespace Vault

/-- The exchanges made from session `s` to the later session `s2`. -/
def Session.since {σ : Type} (s s2 : Session σ) : List Exchange := s2.log.drop s.log.length

/-- Session `s2` comes after `s` by the exchanges `ext`: the log is extended by
them, and host, credentials, HTTP client and mount of the client are the same. -/
def Session.Extends {σ : Type} (s s2 : Session σ) (ext : List Exchange) : Prop :=
  s2.log = s.log ++ ext ∧ s2.client.config = s.client.config ∧ s2.client.mount = s.client.mount

/-- The request object as the attempt that `doJsonRequest` makes with it in
session `s` leaves it: it carries the token of the client, and its body is what
`Do` left to read. -/
def Session.attempted {σ : Type} (s : Session σ) (request : Request) : Request :=
  (request.HeaderSet "X-Vault-Token" s.client.token).afterDo s.client.config.HttpClient s.server

/-- The URL of the login request of a client. -/
def loginUrl {σ : Type} (c : Client σ) : String := buildVaultUrl c "auth/approle/login"

/-- An exchange resolves an attempt of a request made with the given handlers:
the answer was 2xx and decoded, or it was a 404 and the handler for the
expected not-found is among the handlers. -/
def Exchange.resolved (errorHandlers : List errorHandler) (e : Exchange) : Bool :=
  match e.outcome with
  | (_, some _) => false
  | (some responseErrs, none) =>
    decide (responseErrs.status = 404) && errorHandlers.contains errorHandler.expectedNotFound
  | (none, none) => true

/-- The number of exchanges in a log that went to the URL of `request`. -/
def attempts (request : Request) (log : List Exchange) : Nat :=
  log.countP (fun e => e.request.URL = request.URL)

/-- The error list and error that `doHttpRequest` gets from the body of a
non-2xx answer: an empty body is not decoded. -/
def decodedErrors (L : Lib) (responseBody : String) : Slice × GoError :=
  if responseBody.length > 0 then L.unmarshalErrors responseBody else (none, none)

/-- What an exchange leaves in a decoding target that held `v`: the target
changes only when the answer is 2xx and its body was read. -/
def Exchange.decodeInto {β : Type} (decode : Option (String → β → β × GoError)) (v : β)
    (e : Exchange) : β :=
  match e.result, decode with
  | .replied ⟨status, (responseBody, none)⟩, some unmarshal =>
    if status.tdiv 100 ≠ 2 then v else (unmarshal responseBody v).1
  | _, _ => v

end Vault

/-! ## `pkg/auth/auth.go`: the token reviewer and `Run` -/

/-- `tokenReviewerServiceAccount`. -/
def tokenReviewerServiceAccount : String := "token-reviewer"

/-- `tokenReviewerNamespace`. -/
def tokenReviewerNamespace : String := "vault-auth"

/-- `tokenReviewerClusterRoleBinding`. -/
def tokenReviewerClusterRoleBinding : String := "vault-auth-token-reviewer"

namespace Auth

variable {σ : Type}

/-- `Auth.initTokenReviewer`. The nil annotations of the first call are the
empty map. -/
def initTokenReviewer (a : Auth σ) (w : Run σ) : GoError × Run σ :=
  match a.CreateServiceAccount tokenReviewerNamespace tokenReviewerServiceAccount GoMap.empty w with
  | (some err, w) => (some ("create service account: " ++ err), w)
  | (none, w) =>
    match a.GetServiceAccountToken tokenReviewerNamespace tokenReviewerServiceAccount w with
    | ((_, some err), w) => (some ("get service account token: " ++ err), w)
    | ((token, none), w) =>
      match a.CreateAuthDelegatorClusterRoleBinding tokenReviewerClusterRoleBinding
          tokenReviewerNamespace tokenReviewerServiceAccount w with
      | (some err, w) => (some ("create auth delegator cluster role binding: " ++ err), w)
      | (none, w) => a.InitAuthKubernetes a.config.K8sHost a.config.K8sCA token w

/-- The loop `for { a.initServiceAccounts(); <-time.After(...) }` of `Run`, cut
after `passes` iterations; iteration `i` ranges over its maps in the order
`ro i`. The wait between two passes calls no collaborator. -/
def reconcile (a : Auth σ) (ro : Nat → RangeOrder) (unmarshal : String → Role × GoError) :
    Nat → Run σ → Run σ
  | 0, w => w
  | passes + 1, w => a.initServiceAccounts (ro passes) unmarshal (reconcile a ro unmarshal passes w)

/-- `Auth.Run`, observed until it returns or has finished `passes` passes of
its loop, which has no exit: the error is the one `Run` returned, and nil
while `Run` is still running. -/
def Run (a : Auth σ) (ro : Nat → RangeOrder) (unmarshal : String → Role × GoError)
    (passes : Nat) (w : VaultAuthKubernetes.Run σ) : GoError × VaultAuthKubernetes.Run σ :=
  match a.initTokenReviewer w with
  | (some err, w) => (some err, w)
  | (none, w) => (none, a.reconcile ro unmarshal passes w)

end Auth

/-- The error in the reply of a collaborator call. -/
def Reply.err : Reply → GoError
  | .error err => err
  | .names _ err => err
  | .data _ err => err
  | .bytes _ err => err


/-- The names in the reply of a listing call; empty for every other reply. -/
def Event.names (e : Event) : List String :=
  match e.reply with
  | .names value _ => value
  | _ => []

/-! ## Collaborators for worked examples with wildcards -/

/-- A decoder that knows a role bound to every namespace and a role bound to
every account name of the namespace `test`. -/
def wildcardUnmarshal (rawRole : String) : Role × GoError :=
  if rawRole = "\x7b\"bound_service_account_names\": [\"app\"], \"bound_service_account_namespaces\": [\"*\"], \"token_policies\": [\"app\"]\x7d" then
    (⟨some ["app"], some ["*"], some ["app"], 0⟩, none)
  else if rawRole = "\x7b\"bound_service_account_names\": [\"*\"], \"bound_service_account_namespaces\": [\"test\"], \"token_policies\": [\"test\"]\x7d" then
    (⟨some ["*"], some ["test"], some ["test"], 0⟩, none)
  else (Role.zero, some "invalid character")

/-- The collaborators of `exampleAuth`, with a config map whose only role is
bound to the account `app` in every namespace. -/
def namespaceWildcardAuth : Auth Unit :=
  ⟨exampleAuth.config, exampleVaultClient,
    { exampleK8sClient with
      GetConfigMapData := fun _ _ s =>
        ((⟨[("app", "\x7b\"bound_service_account_names\": [\"app\"], \"bound_service_account_namespaces\": [\"*\"], \"token_policies\": [\"app\"]\x7d")],
          by decide⟩, none), s) }⟩

/-- The collaborators of `exampleAuth`, with a config map whose only role is
bound to every account name in the namespace `test`. -/
def nameWildcardAuth : Auth Unit :=
  ⟨exampleAuth.config, exampleVaultClient,
    { exampleK8sClient with
      GetConfigMapData := fun _ _ s =>
        ((⟨[("test", "\x7b\"bound_service_account_names\": [\"*\"], \"bound_service_account_namespaces\": [\"test\"], \"token_policies\": [\"test\"]\x7d")],
          by decide⟩, none), s) }⟩


/-- Roles `a` and `b` agree on every field except one list, which is nil in `a`
and empty but not nil in `b`. -/
def Role.NilWhereEmpty (a b : Role) : Prop :=
  (a.BoundServiceAccountNames = none ∧ b = { a with BoundServiceAccountNames := some [] })
  ∨ (a.BoundServiceAccountNamespaces = none
      ∧ b = { a with BoundServiceAccountNamespaces := some [] })
  ∨ (a.TokenPolicies = none ∧ b = { a with TokenPolicies := some [] })

instance (a b : Role) : Decidable (a.NilWhereEmpty b) := by
  unfold Role.NilWhereEmpty
  exact inferInstance


/-! ## `pkg/vault/client.go`: mounting the auth backend -/

namespace Vault

/-- The loop of `isAuthKubernetesMounted` over the entries of the listing, in
the order they are visited: the first key that is the mount, leading and
trailing `/` apart, decides. Each entry is a key with the `Type` of its value. -/
def findAuthKubernetesMount (mount : String) : List (String × String) → Bool × GoError
  | [] => (false, none)
  | (key, type) :: rest =>
    if stringsTrim key "/" = mount then
      if type ≠ kubernetesMountType then
        (false, some ("found " ++ key ++ " auth backend but with incorrect type " ++ type))
      else (true, none)
    else findAuthKubernetesMount mount rest

/-- `Client.isAuthKubernetesMounted`, ranging over the listing at site 5. The
response value is the map `Data`, from the key of a mount to its `Type`. -/
def isAuthKubernetesMounted {σ : Type} (L : Lib) (ro : RangeOrder) (s : Session σ) :
    (Bool × GoError) × Session σ :=
  let path := "sys/auth"
  let response : GoMap String := GoMap.empty
  match newJsonRequest L s.client "GET" path none with
  | .error err => ((false, some err), s)
  | .ok jsonRequest =>
    let errorHandlers := [errorHandler.permissionDenied]
    match doJsonRequest L jsonRequest (some L.unmarshalMounts) response errorHandlers
        httpNumberOfRetries s with
    | (some err, _, s) => ((false, some err), s)
    | (none, response, s) =>
      (findAuthKubernetesMount s.client.mount (ro.visit 5 response.entries), s)

/-- `Client.mountAuthKubernetes`. -/
def mountAuthKubernetes {σ : Type} (L : Lib) (s : Session σ) : GoError × Session σ :=
  let path := "sys/auth/" ++ s.client.mount
  let request := RequestBody.mount kubernetesMountType "Kubernetes auth backend for RUN cluster"
    (GoMap.empty.set "max_lease_ttl" "8760h")
  match newJsonRequest L s.client "POST" path (some request) with
  | .error err => (some err, s)
  | .ok jsonRequest =>
    let errorHandlers := [errorHandler.permissionDenied]
    match doJsonRequest L jsonRequest (none : Option (String → Unit → Unit × GoError)) ()
        errorHandlers httpNumberOfRetries s with
    | (err, _, s) => (err, s)

/-- `Client.configureAuthKubernetes`; the certificate and the token are the
strings that the byte slices are converted to. -/
def configureAuthKubernetes {σ : Type} (L : Lib)
    (kubernetesHost kubernetesCACert tokenReviewerJWT : String) (s : Session σ) :
    GoError × Session σ :=
  let path := "auth/" ++ s.client.mount ++ "/config"
  let request := RequestBody.configure kubernetesHost kubernetesCACert tokenReviewerJWT
  match newJsonRequest L s.client "POST" path (some request) with
  | .error err => (some err, s)
  | .ok jsonRequest =>
    let errorHandlers := [errorHandler.permissionDenied]
    match doJsonRequest L jsonRequest (none : Option (String → Unit → Unit × GoError)) ()
        errorHandlers httpNumberOfRetries s with
    | (err, _, s) => (err, s)

/-- `Client.InitAuthKubernetes`. -/
def InitAuthKubernetes {σ : Type} (L : Lib) (ro : RangeOrder)
    (kubernetesHost kubernetesCACert tokenReviewerJWT : String) (s : Session σ) :
    GoError × Session σ :=
  match isAuthKubernetesMounted L ro s with
  | ((_, some err), s) => (some err, s)
  | ((true, none), s) => (none, s)
  | ((false, none), s) =>
    match mountAuthKubernetes L s with
    | (some err, s) => (some err, s)
    | (none, s) => configureAuthKubernetes L kubernetesHost kubernetesCACert tokenReviewerJWT s

/-- `Client.DeleteAuthKubernetes`. -/
def DeleteAuthKubernetes {σ : Type} (L : Lib) (ro : RangeOrder) (s : Session σ) :
    GoError × Session σ :=
  match isAuthKubernetesMounted L ro s with
  | ((_, some err), s) => (some err, s)
  | ((false, none), s) => (none, s)
  | ((true, none), s) =>
    let path := "sys/auth/" ++ s.client.mount
    match newJsonRequest L s.client "DELETE" path none with
    | .error err => (some err, s)
    | .ok jsonRequest =>
      let errorHandlers := [errorHandler.permissionDenied, errorHandler.expectedNotFound]
      match doJsonRequest L jsonRequest (none : Option (String → Unit → Unit × GoError)) ()
          errorHandlers httpNumberOfRetries s with
      | (err, _, s) => (err, s)

/-- The answer of Vault to listing the auth backends, with the mount of the
example clients, an approle backend and a mount that shares a prefix with the
mount of the example clients. -/
def exampleMountsBody : String :=
  "\x7b\"data\": \x7b\"kubernetes/hcom-sandbox-aws/backend/\": \x7b\"type\": \"kubernetes\"\x7d, \"approle/\": \x7b\"type\": \"approle\"\x7d, \"kubernetes/hcom-sandbox-aws/\": \x7b\"type\": \"ldap\"\x7d\x7d\x7d"

/-- The answer of Vault to listing the auth backends when only an approle
backend and a mount that shares a prefix with the mount of the example clients
are mounted. -/
def exampleOtherMountsBody : String :=
  "\x7b\"data\": \x7b\"approle/\": \x7b\"type\": \"approle\"\x7d, \"kubernetes/hcom-sandbox-aws/\": \x7b\"type\": \"kubernetes\"\x7d\x7d\x7d"

/-- The library `exampleLib`, which also decodes the two listings of auth
backends. -/
def exampleMountsLib : Lib :=
  { exampleLib with
    unmarshalMounts := fun data v =>
      if data = exampleMountsBody then
        (⟨[("kubernetes/hcom-sandbox-aws/backend/", "kubernetes"), ("approle/", "approle"),
          ("kubernetes/hcom-sandbox-aws/", "ldap")], by decide⟩, none)
      else if data = exampleOtherMountsBody then
        (⟨[("approle/", "approle"), ("kubernetes/hcom-sandbox-aws/", "kubernetes")],
          by decide⟩, none)
      else (v, some "invalid character") }

end Vault


/-! ## `pkg/k8s/client.go`

The Kubernetes client, as far as it lists service accounts and reads the token
of a service account. The typed interfaces of the Kubernetes API behind it are
state transformers over the state `σ` of the cluster; every call through them is
logged. -/

namespace K8s

/-- `v1.ServiceAccount` as far as the client reads it: the name, the
annotations and the names of the secrets. -/
structure ServiceAccount where
  Name : String
  Annotations : GoMap String
  Secrets : List String
  deriving DecidableEq

/-- `v1.Secret` as far as the client reads it. -/
structure Secret where
  Name : String
  Data : GoMap (List UInt8)
  deriving DecidableEq

/-- A call through `serviceAccountInterface` or `secretsInterface`. -/
inductive ApiCall where
  | serviceAccountsList (ns : String)
  | serviceAccountsGet (ns name : String)
  | secretsGet (ns name : String)
  deriving DecidableEq

/-- `serviceAccountInterface`, with the methods `Get` and `List` that the
modelled functions call. A result behind a pointer is the value pointed to; it
is read only when the error is nil. -/
structure serviceAccountInterface (σ : Type) where
  Get : String → σ → (ServiceAccount × GoError) × σ
  List : σ → (List ServiceAccount × GoError) × σ

/-- `secretsInterface`. -/
structure secretsInterface (σ : Type) where
  Get : String → σ → (Secret × GoError) × σ

/-- `Client`, with the getters that the modelled functions use; a getter gives
the interface of a namespace. -/
structure Client (σ : Type) where
  serviceAccountsGetter : String → serviceAccountInterface σ
  secretsGetter : String → secretsInterface σ

/-- The state of the cluster and the calls made so far, oldest first. -/
structure Cluster (σ : Type) where
  state : σ
  calls : List ApiCall

/-- `Client.GetServiceAccounts`, ranging over the annotations of a service
account at site 6. `annotations[key]` of a key that the map does not hold is the
empty string. -/
def GetServiceAccounts {σ : Type} (c : Client σ) (ro : RangeOrder) (ns : String)
    (annotations : GoMap String) (w : Cluster σ) : (Slice × GoError) × Cluster σ :=
  let r := (c.serviceAccountsGetter ns).List w.state
  let w : Cluster σ := ⟨r.2, w.calls ++ [.serviceAccountsList ns]⟩
  match r.1 with
  | (_, some err) => ((none, some err), w)
  | (serviceAccountsList, none) =>
    ((serviceAccountsList.foldl
      (fun serviceAccountNames serviceAccount =>
        if annotations.entries.length = 0 then
          Slice.append serviceAccountNames serviceAccount.Name
        else
          (ro.visit 6 serviceAccount.Annotations.entries).foldl
            (fun serviceAccountNames entry =>
              if (annotations.get? entry.1).getD "" ≠ entry.2 then serviceAccountNames
              else Slice.append serviceAccountNames serviceAccount.Name)
            serviceAccountNames)
      none, none), w)

/-- `Client.getServiceAccount`. The budget `retries` is a natural number: the
only caller passes 5, and the budget is decreased only when `retries < 1` was
found false. The wait before a retry calls nothing. Beside an error the Go code
returns a nil account; no caller reads the account then. -/
def getServiceAccount {σ : Type} (c : Client σ) (ns name : String) :
    Nat → Cluster σ → (ServiceAccount × GoError) × Cluster σ
  | retries, w =>
    let r := (c.serviceAccountsGetter ns).Get name w.state
    let w : Cluster σ := ⟨r.2, w.calls ++ [.serviceAccountsGet ns name]⟩
    match r.1 with
    | (serviceAccount, some err) => ((serviceAccount, some err), w)
    | (serviceAccount, none) =>
      if serviceAccount.Secrets.length = 0 then
        match retries with
        | 0 => ((serviceAccount, some "number of retries exceeded"), w)
        | retries + 1 => getServiceAccount c ns name retries w
      else ((serviceAccount, none), w)

/-- `Client.GetServiceAccountToken`. The index expression
`serviceAccount.Secrets[0]` panics on an account without secrets;
`getServiceAccount` returns no such account without an error. -/
def GetServiceAccountToken {σ : Type} (c : Client σ)
    (serviceAccountNamespace serviceAccountName : String) (w : Cluster σ) :
    (List UInt8 × GoError) × Cluster σ :=
  match getServiceAccount c serviceAccountNamespace serviceAccountName 5 w with
  | ((_, some err), w) => (([], some err), w)
  | ((serviceAccount, none), w) =>
    match serviceAccount.Secrets with
    | [] => (([], some "panic: runtime error: index out of range [0] with length 0"), w)
    | first :: _ =>
      let r := (c.secretsGetter serviceAccountNamespace).Get first w.state
      let w : Cluster σ := ⟨r.2, w.calls ++ [.secretsGet serviceAccountNamespace first]⟩
      match r.1 with
      | (_, some err) => (([], some err), w)
      | (secret, none) =>
        match secret.Data.get? "token" with
        | some token => ((token, none), w)
        | none => (([], some (secret.Name ++ " secret does not have data.token field")), w)

/-- The number of annotations of a service account for which `GetServiceAccounts`
appends its name: those whose value is what the filter gives for their key, the
empty string when the filter does not hold the key. -/
def matchingAnnotations (annotations : GoMap String) (serviceAccount : ServiceAccount) : Nat :=
  serviceAccount.Annotations.entries.countP
    (fun entry => (annotations.get? entry.1).getD "" = entry.2)

/-- The names that `GetServiceAccounts` returns for a listing. -/
def listedNames (annotations : GoMap String) (items : List ServiceAccount) : List String :=
  items.flatMap (fun serviceAccount =>
    if annotations.entries.length = 0 then [serviceAccount.Name]
    else List.replicate (matchingAnnotations annotations serviceAccount) serviceAccount.Name)

/-- The account carries every annotation of the filter, with the same value. -/
def ServiceAccount.carries (serviceAccount : ServiceAccount) (filter : GoMap String) : Bool :=
  filter.entries.all (fun p => serviceAccount.Annotations.get? p.1 = some p.2)

/-- A cluster for worked examples: the namespace lists the accounts it is given,
every lookup of an account finds it without secrets, and no secret is found. -/
def exampleClient (items : List ServiceAccount) : Client Unit where
  serviceAccountsGetter := fun _ =>
    { Get := fun name s => ((⟨name, GoMap.empty, []⟩, none), s)
      List := fun s => ((items, none), s) }
  secretsGetter := fun _ => { Get := fun name s => ((⟨name, GoMap.empty⟩, some "not found"), s) }

/-- Two service accounts: `default`, which is not managed and has an annotation
with an empty value, and `vault`, which is managed and has the same annotation. -/
def exampleServiceAccounts : List ServiceAccount :=
  [⟨"default", ⟨[("description", "")], by decide⟩, []⟩,
   ⟨"vault", ⟨[("vak-managed", "true"), ("description", "")], by decide⟩, []⟩]

end K8s

/-! ## Facts about `GoMap` -/

namespace GoMap

variable {V : Type}

theorem get?_empty (k : String) : (empty : GoMap V).get? k = none := rfl

theorem contains_empty (k : String) : (empty : GoMap V).contains k = false := rfl

theorem find_set_entries (l : List (String × V)) (k x : String) (v : V) :
    (((l.filter (fun p => p.1 ≠ k)) ++ [(k, v)]).find? (fun p => p.1 = x)).map Prod.snd
      = if x = k then some v else (l.find? (fun p => p.1 = x)).map Prod.snd := by
  induction l with
  | nil =>
    by_cases h : x = k
    · subst h; simp
    · have h2 : ¬ k = x := fun e => h e.symm
      simp [h, h2]
  | cons p l ih =>
    by_cases hp : p.1 = k
    · have hf : List.filter (fun p => decide (p.1 ≠ k)) (p :: l)
          = List.filter (fun p => decide (p.1 ≠ k)) l := by
        simp [List.filter_cons, hp]
      rw [hf, ih]
      by_cases h : x = k
      · simp [h]
      · have h2 : ¬ p.1 = x := fun e => h (e ▸ hp ▸ rfl)
        simp [h, List.find?_cons, h2]
    · have hf : List.filter (fun p => decide (p.1 ≠ k)) (p :: l)
          = p :: List.filter (fun p => decide (p.1 ≠ k)) l := by
        simp [List.filter_cons, hp]
      rw [hf, List.cons_append]
      by_cases hx : p.1 = x
      · have h : ¬ x = k := fun e => hp (hx ▸ e)
        simp [List.find?_cons, hx, h]
      · simp only [List.find?_cons, hx, decide_False]
        exact ih

theorem get?_set (m : GoMap V) (k x : String) (v : V) :
    (m.set k v).get? x = if x = k then some v else m.get? x :=
  find_set_entries m.entries k x v

theorem contains_set (m : GoMap V) (k x : String) (v : V) :
    (m.set k v).contains x = (decide (x = k) || m.contains x) := by
  unfold contains
  rw [get?_set]
  by_cases h : x = k <;> simp [h]

theorem get?_eq_some_iff (m : GoMap V) (k : String) (v : V) :
    m.get? k = some v ↔ (k, v) ∈ m.entries := by
  obtain ⟨l, hl⟩ := m
  unfold get?
  simp only
  induction l with
  | nil => simp
  | cons p l ih =>
    have hl2 : (l.map Prod.fst).Nodup := (List.nodup_cons.mp hl).2
    have hp : p.1 ∉ l.map Prod.fst := (List.nodup_cons.mp hl).1
    by_cases h : p.1 = k
    · simp only [List.find?_cons, h, decide_True, Option.map_some', Option.some.injEq,
        List.mem_cons]
      constructor
      · intro e; left; rw [← e, ← h]
      · rintro (e | e)
        · rw [← e]
        · exact absurd (List.mem_map_of_mem Prod.fst e) (h ▸ hp)
    · simp only [List.find?_cons, h, decide_False, List.mem_cons]
      rw [ih hl2]
      constructor
      · intro e; right; exact e
      · rintro (e | e)
        · exact absurd (by rw [← e]) h
        · exact e

theorem contains_iff (m : GoMap V) (k : String) : m.contains k = true ↔ k ∈ m.keys := by
  unfold contains keys
  rw [Option.isSome_iff_exists]
  simp only [get?_eq_some_iff, List.mem_map]
  constructor
  · rintro ⟨v, hv⟩; exact ⟨(k, v), hv, rfl⟩
  · rintro ⟨⟨k2, v⟩, hv, rfl⟩; exact ⟨v, hv⟩

theorem get?_eq_none_iff (m : GoMap V) (k : String) : m.get? k = none ↔ k ∉ m.keys := by
  rw [← contains_iff]
  unfold contains
  cases m.get? k <;> simp

end GoMap

/-! ## `StringSliceToSet` -/

theorem firstOccurrences_congr (l : List String) (s1 s2 : List String)
    (h : ∀ y, y ∈ s1 ↔ y ∈ s2) : firstOccurrences s1 l = firstOccurrences s2 l := by
  induction l generalizing s1 s2 with
  | nil => rfl
  | cons x xs ih =>
    by_cases hx : x ∈ s1
    · have hx2 : x ∈ s2 := (h x).mp hx
      simp only [firstOccurrences, hx, hx2, if_true]
      exact ih s1 s2 h
    · have hx2 : x ∉ s2 := fun e => hx ((h x).mpr e)
      simp only [firstOccurrences, hx, hx2, if_false]
      rw [ih (x :: s1) (x :: s2)]
      intro y
      simp [h y]

theorem foldl_StringSliceToSet (l : List String) (out : Slice) (set : GoMap Unit)
    (h : ∀ x, set.contains x = true ↔ x ∈ out.elems) :
    ((l.foldl
      (fun (acc : Slice × GoMap Unit) v =>
        ((if acc.2.contains v then acc.1 else acc.1.append v), acc.2.set v ()))
      (out, set)).1).elems = out.elems ++ firstOccurrences out.elems l ∧
    (((l.foldl
      (fun (acc : Slice × GoMap Unit) v =>
        ((if acc.2.contains v then acc.1 else acc.1.append v), acc.2.set v ()))
      (out, set)).1) = none ↔ out = none ∧ l = []) := by
  induction l generalizing out set with
  | nil => simp [firstOccurrences]
  | cons x xs ih =>
    rw [List.foldl_cons]
    by_cases hx : set.contains x = true
    · have hm : x ∈ out.elems := (h x).mp hx
      have h2 : ∀ y, (set.set x ()).contains y = true ↔ y ∈ out.elems := by
        intro y
        rw [GoMap.contains_set]
        by_cases e : y = x
        · subst e; simp [hm]
        · simp [e, h y]
      have := ih out (set.set x ()) h2
      simp only [hx, if_true]
      refine ⟨by rw [this.1]; simp [firstOccurrences, hm], ?_⟩
      rw [this.2]
      constructor
      · rintro ⟨rfl, _⟩; simp [Slice.elems] at hm
      · rintro ⟨_, h3⟩; simp at h3
    · have hm : x ∉ out.elems := fun e => hx ((h x).mpr e)
      have h2 : ∀ y, (set.set x ()).contains y = true ↔ y ∈ (out.append x).elems := by
        intro y
        rw [GoMap.contains_set]
        by_cases e : y = x
        · subst e; simp [Slice.append, Slice.elems]
        · simp [e, h y, Slice.append, Slice.elems]
      have := ih (out.append x) (set.set x ()) h2
      simp only [hx, Bool.false_eq_true, if_false]
      refine ⟨?_, ?_⟩
      · rw [this.1]
        have e1 : (Slice.append out x).elems = out.elems ++ [x] := rfl
        rw [e1]
        simp only [firstOccurrences, hm, if_false, List.append_assoc, List.singleton_append]
        rw [firstOccurrences_congr xs (out.elems ++ [x]) (x :: out.elems)]
        intro y
        simp [or_comm]
      · rw [this.2]
        simp [Slice.append]

theorem mem_firstOccurrences (l seen : List String) (y : String) :
    y ∈ firstOccurrences seen l ↔ y ∈ l ∧ y ∉ seen := by
  induction l generalizing seen with
  | nil => simp [firstOccurrences]
  | cons x xs ih =>
    by_cases hx : x ∈ seen
    · simp only [firstOccurrences, hx, if_true, ih, List.mem_cons]
      constructor
      · rintro ⟨h1, h2⟩; exact ⟨Or.inr h1, h2⟩
      · rintro ⟨h1 | h1, h2⟩
        · exact absurd (h1 ▸ hx) h2
        · exact ⟨h1, h2⟩
    · simp only [firstOccurrences, hx, if_false, List.mem_cons, ih, not_or]
      constructor
      · rintro (h1 | ⟨h1, h2, h3⟩)
        · exact ⟨Or.inl h1, h1 ▸ hx⟩
        · exact ⟨Or.inr h1, h3⟩
      · rintro ⟨h1 | h1, h2⟩
        · exact Or.inl h1
        · by_cases e : y = x
          · exact Or.inl e
          · exact Or.inr ⟨h1, e, h2⟩

theorem nodup_firstOccurrences (l seen : List String) : (firstOccurrences seen l).Nodup := by
  induction l generalizing seen with
  | nil => simp [firstOccurrences]
  | cons x xs ih =>
    by_cases hx : x ∈ seen
    · simp only [firstOccurrences, hx, if_true]; exact ih seen
    · simp only [firstOccurrences, hx, if_false, List.nodup_cons]
      refine ⟨?_, ih _⟩
      rw [mem_firstOccurrences]
      simp

theorem pairwise_firstOccurrences (l seen : List String) :
    (firstOccurrences seen l).Pairwise (fun x y => l.indexOf x < l.indexOf y) := by
  induction l generalizing seen with
  | nil => simp [firstOccurrences]
  | cons x xs ih =>
    have shift : ∀ s, (∀ y ∈ firstOccurrences s xs, y ≠ x) →
        (firstOccurrences s xs).Pairwise
          (fun a b => (x :: xs).indexOf a < (x :: xs).indexOf b) := by
      intro s hs
      refine (ih s).imp_of_mem ?_
      intro a b ha hb hab
      rw [List.indexOf_cons_ne _ (hs a ha).symm, List.indexOf_cons_ne _ (hs b hb).symm]
      exact Nat.succ_lt_succ hab
    by_cases hx : x ∈ seen
    · simp only [firstOccurrences, hx, if_true]
      apply shift
      intro y hy e
      rw [mem_firstOccurrences] at hy
      exact hy.2 (e ▸ hx)
    · simp only [firstOccurrences, hx, if_false, List.pairwise_cons]
      have hne : ∀ y ∈ firstOccurrences (x :: seen) xs, y ≠ x := by
        intro y hy e
        rw [mem_firstOccurrences] at hy
        exact hy.2 (by simp [e])
      refine ⟨?_, shift _ hne⟩
      intro y hy
      rw [List.indexOf_cons_self, List.indexOf_cons_ne _ (hne y hy).symm]
      exact Nat.succ_pos _

theorem StringSliceToSet_elems (input : Slice) :
    (StringSliceToSet input).elems = firstOccurrences [] input.elems := by
  have := (foldl_StringSliceToSet input.elems none GoMap.empty
    (by intro x; simp [GoMap.contains_empty, Slice.elems])).1
  simpa [StringSliceToSet, Slice.elems] using this

theorem StringSliceToSet_eq_none (input : Slice) :
    StringSliceToSet input = none ↔ input.elems = [] := by
  have := (foldl_StringSliceToSet input.elems none GoMap.empty
    (by intro x; simp [GoMap.contains_empty, Slice.elems])).2
  simpa [StringSliceToSet] using this

theorem mem_StringSliceToSet (input : Slice) (x : String) :
    x ∈ (StringSliceToSet input).elems ↔ x ∈ input.elems := by
  rw [StringSliceToSet_elems, mem_firstOccurrences]
  simp

theorem StringSliceContains_iff (s : Slice) (x : String) :
    StringSliceContains s x = true ↔ x ∈ s.elems := by
  simp [StringSliceContains]

theorem StringSliceContains_wildcard : StringSliceContains (some ["*"]) "*" = true := by
  decide

theorem StringSliceContains_StringSliceToSet (s : Slice) (x : String) :
    StringSliceContains (StringSliceToSet s) x = StringSliceContains s x := by
  rw [Bool.eq_iff_iff, StringSliceContains_iff, StringSliceContains_iff, mem_StringSliceToSet]

/-! ## `NewRole` -/

theorem NewRole_of_decoded (unmarshal : String → Role × GoError) (rawRole : String) (role : Role)
    (h : unmarshal rawRole = (role, none)) :
    NewRole unmarshal rawRole =
      match role.sanitize.validate with
      | some err => (Role.zero, some err)
      | none => (role.sanitize, none) := by
  simp [NewRole, h]

theorem sanitize_eq (role : Role) :
    role.sanitize =
      { BoundServiceAccountNames :=
          if StringSliceContains role.BoundServiceAccountNames "*" then some ["*"]
          else StringSliceToSet role.BoundServiceAccountNames
        BoundServiceAccountNamespaces :=
          if StringSliceContains role.BoundServiceAccountNamespaces "*" then some ["*"]
          else StringSliceToSet role.BoundServiceAccountNamespaces
        TokenPolicies := role.TokenPolicies
        TokenTTL := role.TokenTTL } := by
  by_cases h1 : StringSliceContains role.BoundServiceAccountNamespaces "*" = true <;>
  by_cases h2 : StringSliceContains role.BoundServiceAccountNames "*" = true <;>
  simp [Role.sanitize, StringSliceContains_StringSliceToSet, h1, h2]

theorem validate_sanitize (role : Role) :
    role.sanitize.validate =
      if StringSliceContains role.BoundServiceAccountNamespaces "*" &&
          StringSliceContains role.BoundServiceAccountNames "*" then
        some "vault role cannot contain * in both bound service account namespaces and names"
      else none := by
  rw [sanitize_eq]
  unfold Role.validate
  by_cases h1 : StringSliceContains role.BoundServiceAccountNamespaces "*" = true <;>
  by_cases h2 : StringSliceContains role.BoundServiceAccountNames "*" = true <;>
  simp [h1, h2, StringSliceContains_StringSliceToSet, StringSliceContains_wildcard]

theorem NewRole_of_wildcards (unmarshal : String → Role × GoError) (rawRole : String)
    (role : Role) (h : unmarshal rawRole = (role, none)) :
    (("*" ∈ role.BoundServiceAccountNames.elems ∧
        "*" ∈ role.BoundServiceAccountNamespaces.elems) →
      NewRole unmarshal rawRole = (Role.zero,
        some "vault role cannot contain * in both bound service account namespaces and names")) ∧
    (¬ ("*" ∈ role.BoundServiceAccountNames.elems ∧
        "*" ∈ role.BoundServiceAccountNamespaces.elems) →
      NewRole unmarshal rawRole = (role.sanitize, none)) := by
  rw [NewRole_of_decoded unmarshal rawRole role h, validate_sanitize]
  simp only [← StringSliceContains_iff]
  constructor
  · rintro ⟨h1, h2⟩
    simp [h1, h2]
  · intro h3
    have : (StringSliceContains role.BoundServiceAccountNamespaces "*" &&
        StringSliceContains role.BoundServiceAccountNames "*") = false := by
      rw [Bool.and_eq_false_iff]
      by_cases h1 : StringSliceContains role.BoundServiceAccountNamespaces "*" = true
      · right
        by_cases h2 : StringSliceContains role.BoundServiceAccountNames "*" = true
        · exact absurd ⟨h2, h1⟩ h3
        · simpa using h2
      · left; simpa using h1
    simp [this]

/-- C7: when the raw role decodes, `NewRole` returns the validation error (and
the zero role) if both `bound_service_account_names` and
`bound_service_account_namespaces` contain `"*"`, wherever it stands and
whatever else the lists hold; if at most one of them contains `"*"` it returns
the sanitized role and no error. -/
theorem NewRole_wildcard_in_both_lists_is_rejected
    (unmarshal : String → Role × GoError) (rawRole : String) (role : Role)
    (h : unmarshal rawRole = (role, none)) :
    (("*" ∈ role.BoundServiceAccountNames.elems ∧
        "*" ∈ role.BoundServiceAccountNamespaces.elems) →
      NewRole unmarshal rawRole = (Role.zero,
        some "vault role cannot contain * in both bound service account namespaces and names")) ∧
    (¬ ("*" ∈ role.BoundServiceAccountNames.elems ∧
        "*" ∈ role.BoundServiceAccountNamespaces.elems) →
      NewRole unmarshal rawRole = (role.sanitize, none)) :=
  NewRole_of_wildcards unmarshal rawRole role h

/-- Witness for C7: names `["default", "*"]` and namespaces `["*"]` are rejected. -/
theorem NewRole_wildcard_in_both_lists_is_rejected_witness :
    NewRole (fun _ => (⟨some ["default", "*"], some ["*"], some ["test"], 0⟩, none)) "raw"
      = (Role.zero,
        some "vault role cannot contain * in both bound service account namespaces and names") :=
  (NewRole_wildcard_in_both_lists_is_rejected
    (fun _ => (⟨some ["default", "*"], some ["*"], some ["test"], 0⟩, none)) "raw"
    ⟨some ["default", "*"], some ["*"], some ["test"], 0⟩ rfl).1 ⟨by decide, by decide⟩

/-- C8: when the raw role decodes and exactly one of the two bound-identity
lists contains `"*"`, `NewRole` succeeds, that list of the returned role is
exactly `["*"]`, and the other list is `StringSliceToSet` of the input list: it
is duplicate-free and holds exactly the entries of the input list. Policies and
TTL are returned as decoded. -/
theorem NewRole_wildcard_in_one_list_collapses_it
    (unmarshal : String → Role × GoError) (rawRole : String) (role : Role)
    (h : unmarshal rawRole = (role, none)) :
    (("*" ∈ role.BoundServiceAccountNames.elems ∧
        "*" ∉ role.BoundServiceAccountNamespaces.elems) →
      NewRole unmarshal rawRole =
        ({ BoundServiceAccountNames := some ["*"]
           BoundServiceAccountNamespaces := StringSliceToSet role.BoundServiceAccountNamespaces
           TokenPolicies := role.TokenPolicies
           TokenTTL := role.TokenTTL }, none)) ∧
    (("*" ∉ role.BoundServiceAccountNames.elems ∧
        "*" ∈ role.BoundServiceAccountNamespaces.elems) →
      NewRole unmarshal rawRole =
        ({ BoundServiceAccountNames := StringSliceToSet role.BoundServiceAccountNames
           BoundServiceAccountNamespaces := some ["*"]
           TokenPolicies := role.TokenPolicies
           TokenTTL := role.TokenTTL }, none)) ∧
    (∀ input : Slice, (StringSliceToSet input).elems.Nodup ∧
      ∀ x, x ∈ (StringSliceToSet input).elems ↔ x ∈ input.elems) := by
  refine ⟨?_, ?_, ?_⟩
  · rintro ⟨h1, h2⟩
    rw [(NewRole_of_wildcards unmarshal rawRole role h).2
      (fun hh => h2 hh.2), sanitize_eq]
    rw [← StringSliceContains_iff] at h1 h2
    simp [h1, h2]
  · rintro ⟨h1, h2⟩
    rw [(NewRole_of_wildcards unmarshal rawRole role h).2
      (fun hh => h1 hh.1), sanitize_eq]
    rw [← StringSliceContains_iff] at h1 h2
    simp [h1, h2]
  · intro input
    refine ⟨?_, mem_StringSliceToSet input⟩
    rw [StringSliceToSet_elems]
    exact nodup_firstOccurrences _ _

/-- Witness for C8: namespaces `["kube-system", "default", "*"]` collapse to
`["*"]`, names `["default", "default"]` lose the duplicate. -/
theorem NewRole_wildcard_in_one_list_collapses_it_witness :
    NewRole (fun _ => (⟨some ["default", "default"], some ["kube-system", "default", "*"],
        some ["test"], 0⟩, none)) "raw"
      = (⟨some ["default"], some ["*"], some ["test"], 0⟩, none) :=
  (NewRole_wildcard_in_one_list_collapses_it
    (fun _ => (⟨some ["default", "default"], some ["kube-system", "default", "*"],
        some ["test"], 0⟩, none)) "raw"
    ⟨some ["default", "default"], some ["kube-system", "default", "*"], some ["test"], 0⟩
    rfl).2.1 ⟨by decide, by decide⟩

/-- C9: `StringSliceToSet(in)` holds no element twice, holds exactly the elements
of `in`, and lists them in the order of their first occurrence in `in` (the
function only reads `in`); it is nil exactly when `in` has no element. `NewRole`
applies it to both bound-identity lists: a decoded role without wildcard comes
back with each of the two lists replaced by its `StringSliceToSet`. -/
theorem StringSliceToSet_keeps_first_occurrences (input : Slice) :
    (StringSliceToSet input).elems.Nodup ∧
    (∀ x, x ∈ (StringSliceToSet input).elems ↔ x ∈ input.elems) ∧
    (StringSliceToSet input).elems.Pairwise
      (fun x y => input.elems.indexOf x < input.elems.indexOf y) ∧
    (StringSliceToSet input = none ↔ input.elems = []) ∧
    (∀ (unmarshal : String → Role × GoError) (rawRole : String) (role : Role),
      unmarshal rawRole = (role, none) →
      "*" ∉ role.BoundServiceAccountNames.elems →
      "*" ∉ role.BoundServiceAccountNamespaces.elems →
      NewRole unmarshal rawRole =
        ({ BoundServiceAccountNames := StringSliceToSet role.BoundServiceAccountNames
           BoundServiceAccountNamespaces := StringSliceToSet role.BoundServiceAccountNamespaces
           TokenPolicies := role.TokenPolicies
           TokenTTL := role.TokenTTL }, none)) := by
  refine ⟨?_, mem_StringSliceToSet input, ?_, StringSliceToSet_eq_none input, ?_⟩
  · rw [StringSliceToSet_elems]
    exact nodup_firstOccurrences _ _
  · rw [StringSliceToSet_elems]
    exact pairwise_firstOccurrences _ _
  · intro unmarshal rawRole role h h1 h2
    rw [(NewRole_of_wildcards unmarshal rawRole role h).2
      (fun hh => h1 hh.1), sanitize_eq]
    rw [← StringSliceContains_iff] at h1 h2
    simp [h1, h2]

/-- Witness for C9: the role of the repository's duplicate-removal test. -/
theorem StringSliceToSet_keeps_first_occurrences_witness :
    NewRole (fun _ => (⟨some ["default", "vault-agent-injector", "default"],
        some ["kube-system", "kube-system", "default"], some ["test"], 0⟩, none)) "raw"
      = (⟨StringSliceToSet (some ["default", "vault-agent-injector", "default"]),
          StringSliceToSet (some ["kube-system", "kube-system", "default"]),
          some ["test"], 0⟩, none) :=
  (StringSliceToSet_keeps_first_occurrences none).2.2.2.2
    (fun _ => (⟨some ["default", "vault-agent-injector", "default"],
        some ["kube-system", "kube-system", "default"], some ["test"], 0⟩, none)) "raw"
    ⟨some ["default", "vault-agent-injector", "default"],
      some ["kube-system", "kube-system", "default"], some ["test"], 0⟩
    rfl (by decide) (by decide)

/-! ## `Role.Equal` -/

instance stringDataLe_isTotal : IsTotal String (fun a b : String => a.data ≤ b.data) :=
  ⟨fun a b => by
    have := le_total a b
    rwa [String.le_iff_toList_le, String.le_iff_toList_le] at this⟩

instance stringDataLe_isTrans : IsTrans String (fun a b : String => a.data ≤ b.data) :=
  ⟨fun a b c h1 h2 => by
    have h1 : a ≤ b := String.le_iff_toList_le.mpr h1
    have h2 : b ≤ c := String.le_iff_toList_le.mpr h2
    exact String.le_iff_toList_le.mp (le_trans h1 h2)⟩

instance stringDataLe_isAntisymm : IsAntisymm String (fun a b : String => a.data ≤ b.data) :=
  ⟨fun a b h1 h2 => by
    have h1 : a ≤ b := String.le_iff_toList_le.mpr h1
    have h2 : b ≤ a := String.le_iff_toList_le.mpr h2
    exact le_antisymm h1 h2⟩

theorem insertionSort_eq_of_perm (l l' : List String) (h : l.Perm l') :
    List.insertionSort (fun a b : String => a.data ≤ b.data) l
      = List.insertionSort (fun a b : String => a.data ≤ b.data) l' :=
  List.eq_of_perm_of_sorted
    (((List.perm_insertionSort _ l).trans h).trans (List.perm_insertionSort _ l').symm)
    (List.sorted_insertionSort _ l) (List.sorted_insertionSort _ l')

theorem sortStrings_eq_of_permuted (s t : Slice) (h : s.Permuted t) :
    sortStrings s = sortStrings t := by
  cases s <;> cases t <;> simp only [Slice.Permuted] at h
  · rfl
  · simp only [sortStrings, Option.map_some']
    rw [insertionSort_eq_of_perm _ _ h]

theorem sortLists_eq_of_permuted (a a' : Role)
    (hnames : a'.BoundServiceAccountNames.Permuted a.BoundServiceAccountNames)
    (hnamespaces : a'.BoundServiceAccountNamespaces.Permuted a.BoundServiceAccountNamespaces)
    (hpolicies : a'.TokenPolicies.Permuted a.TokenPolicies)
    (httl : a'.TokenTTL = a.TokenTTL) : a'.sortLists = a.sortLists := by
  unfold Role.sortLists
  rw [sortStrings_eq_of_permuted _ _ hnames, sortStrings_eq_of_permuted _ _ hnamespaces,
    sortStrings_eq_of_permuted _ _ hpolicies, httl]

/-- C10: `Role.Equal` is reflexive (so the roles parsed from the same raw input
twice are `Equal`), and its result does not change when the receiver or the
argument is replaced by a role whose three lists hold the same elements in
another order. -/
theorem Role_Equal_reflexive_and_order_independent (a b a' : Role)
    (hnames : a'.BoundServiceAccountNames.Permuted a.BoundServiceAccountNames)
    (hnamespaces : a'.BoundServiceAccountNamespaces.Permuted a.BoundServiceAccountNamespaces)
    (hpolicies : a'.TokenPolicies.Permuted a.TokenPolicies)
    (httl : a'.TokenTTL = a.TokenTTL) :
    (a.Equal a).1 = true ∧
    (∀ (unmarshal : String → Role × GoError) (rawRole : String),
      ((NewRole unmarshal rawRole).1.Equal (NewRole unmarshal rawRole).1).1 = true) ∧
    (a'.Equal b).1 = (a.Equal b).1 ∧
    (b.Equal a').1 = (b.Equal a).1 := by
  have e := sortLists_eq_of_permuted a a' hnames hnamespaces hpolicies httl
  refine ⟨by simp [Role.Equal], fun _ _ => by simp [Role.Equal], ?_, ?_⟩
  · simp only [Role.Equal, e]
  · simp only [Role.Equal, e]

/-- Witness for C10: the two roles of the repository's reordering test. -/
theorem Role_Equal_reflexive_and_order_independent_witness :
    ((⟨some ["vault-injector", "default"], some ["test", "kube-system"],
        some ["default", "test"], 1800⟩ : Role).Equal
      ⟨some ["default", "vault-injector"], some ["kube-system", "test"],
        some ["test", "default"], 1800⟩).1
    = ((⟨some ["default", "vault-injector"], some ["kube-system", "test"],
        some ["test", "default"], 1800⟩ : Role).Equal
      ⟨some ["default", "vault-injector"], some ["kube-system", "test"],
        some ["test", "default"], 1800⟩).1 :=
  (Role_Equal_reflexive_and_order_independent
    ⟨some ["default", "vault-injector"], some ["kube-system", "test"],
      some ["test", "default"], 1800⟩
    ⟨some ["default", "vault-injector"], some ["kube-system", "test"],
      some ["test", "default"], 1800⟩
    ⟨some ["vault-injector", "default"], some ["test", "kube-system"],
      some ["default", "test"], 1800⟩
    (List.Perm.swap _ _ _) (List.Perm.swap _ _ _) (List.Perm.swap _ _ _) rfl).2.2.1

/-! ## Traces of the reconciliation engine -/

section Traces

variable {σ : Type}

theorem calls_append (t1 t2 : List Event) : calls (t1 ++ t2) = calls t1 ++ calls t2 := by
  simp [calls]

theorem calls_cons (e : Event) (t : List Event) : calls (e :: t) = e.call :: calls t := rfl

theorem calls_nil : calls [] = [] := rfl

theorem calls_flatten (segs : List (List Event)) :
    calls segs.flatten = (segs.map calls).flatten := by
  induction segs with
  | nil => rfl
  | cons x xs ih => simp [calls_append, ih]

/-- A loop whose every round appends a segment of shape `P b` appends the
concatenation of such segments, one per element. -/
theorem foldl_trace {β : Type} (P : β → List Event → Prop) (step : Run σ → β → Run σ)
    (hstep : ∀ w b, ∃ seg, (step w b).trace = w.trace ++ seg ∧ P b seg) :
    ∀ (l : List β) (w : Run σ), ∃ segs : List (List Event),
      (l.foldl step w).trace = w.trace ++ segs.flatten ∧ List.Forall₂ P l segs := by
  intro l
  induction l with
  | nil => intro w; exact ⟨[], by simp, List.Forall₂.nil⟩
  | cons b l ih =>
    intro w
    obtain ⟨seg, h1, h2⟩ := hstep w b
    obtain ⟨segs, h3, h4⟩ := ih (step w b)
    refine ⟨seg :: segs, ?_, List.Forall₂.cons h2 h4⟩
    rw [List.foldl_cons, h3, h1]
    simp

/-- A loop whose round for `b` appends a segment with calls `c b` appends a
segment with calls `l.flatMap c`. -/
theorem foldl_calls {β : Type} (c : β → List Call) (step : Run σ → β → Run σ)
    (hstep : ∀ w b, ∃ seg, (step w b).trace = w.trace ++ seg ∧ calls seg = c b)
    (l : List β) (w : Run σ) :
    ∃ seg, (l.foldl step w).trace = w.trace ++ seg ∧ calls seg = l.flatMap c := by
  obtain ⟨segs, h1, h2⟩ := foldl_trace (fun b seg => calls seg = c b) step hstep l w
  refine ⟨segs.flatten, h1, ?_⟩
  rw [calls_flatten]
  clear h1
  induction h2 with
  | nil => rfl
  | cons h _ ih => simp [h, ih]

theorem record_trace {α : Type} (w : Run σ) (c : Call) (reply : α → Reply) (op : σ → α × σ) :
    (w.record c reply op).2.trace = w.trace ++ [⟨c, reply (op w.state).1⟩] := rfl

theorem ListRoles_trace (a : Auth σ) (w : Run σ) :
    (a.ListRoles w).2.trace
      = w.trace ++ [⟨.ListRoles, .names (a.ListRoles w).1.1 (a.ListRoles w).1.2⟩] := rfl

theorem GetNamespaces_trace (a : Auth σ) (w : Run σ) :
    (a.GetNamespaces w).2.trace
      = w.trace ++ [⟨.GetNamespaces, .names (a.GetNamespaces w).1.1 (a.GetNamespaces w).1.2⟩] :=
  rfl

theorem GetServiceAccounts_trace (a : Auth σ) (ns : String) (ann : GoMap String) (w : Run σ) :
    (a.GetServiceAccounts ns ann w).2.trace
      = w.trace ++ [⟨.GetServiceAccounts ns ann,
          .names (a.GetServiceAccounts ns ann w).1.1 (a.GetServiceAccounts ns ann w).1.2⟩] :=
  rfl

theorem GetConfigMapData_trace (a : Auth σ) (ns name : String) (w : Run σ) :
    (a.GetConfigMapData ns name w).2.trace
      = w.trace ++ [⟨.GetConfigMapData ns name,
          .data (a.GetConfigMapData ns name w).1.1 (a.GetConfigMapData ns name w).1.2⟩] :=
  rfl

theorem deleteVaultRoles_trace (a : Auth σ) (D : GoMap Role) (w : Run σ) :
    ∃ seg, (a.deleteVaultRoles D w).trace = w.trace ++ seg ∧ IsDeleteVaultRoles D seg := by
  unfold Auth.deleteVaultRoles
  simp only
  by_cases herr : (a.ListRoles w).1.2.isSome = true
  · refine ⟨[⟨.ListRoles, .names (a.ListRoles w).1.1 (a.ListRoles w).1.2⟩], ?_, ?_⟩
    · simp only [herr, if_true]; rfl
    · exact ⟨_, _, [], rfl, by simp [herr, calls]⟩
  · simp only [herr, Bool.false_eq_true, if_false]
    obtain ⟨seg, h1, h2⟩ := foldl_calls
      (fun r => if D.contains r then [] else [Call.DeleteRole r])
      (fun w r => if D.contains r then w else (a.DeleteRole r w).2)
      (by
        intro w r
        by_cases h : D.contains r = true
        · exact ⟨[], by simp [h], by simp [h, calls]⟩
        · exact ⟨[⟨.DeleteRole r, .error (a.vaultClient.DeleteRole r w.state).1⟩],
            by simp only [h, Bool.false_eq_true, if_false]; rfl, by simp [h, calls]⟩)
      (a.ListRoles w).1.1 (a.ListRoles w).2
    refine ⟨⟨.ListRoles, .names (a.ListRoles w).1.1 (a.ListRoles w).1.2⟩ :: seg, ?_, ?_⟩
    · rw [h1, ListRoles_trace, List.append_assoc, List.singleton_append]
    · refine ⟨_, _, seg, rfl, ?_⟩
      rw [h2]
      simp only [herr, Bool.false_eq_true, if_false]
      generalize (a.ListRoles w).1.1 = l
      induction l with
      | nil => rfl
      | cons x xs ih =>
        by_cases h : D.contains x = true <;> simp [List.flatMap_cons, List.filter_cons, h, ih]

theorem flatMap_singleton_map {α β : Type} (l : List α) (f : α → β) :
    l.flatMap (fun x => [f x]) = l.map f := by
  induction l with
  | nil => rfl
  | cons x xs ih => simp [List.flatMap_cons, ih]

theorem createVaultRoles_trace (a : Auth σ) (ro : RangeOrder) (D : GoMap Role) (w : Run σ) :
    ∃ seg, (a.createVaultRoles ro D w).trace = w.trace ++ seg ∧ IsCreateVaultRoles ro D seg := by
  unfold Auth.createVaultRoles IsCreateVaultRoles
  obtain ⟨seg, h1, h2⟩ := foldl_calls
    (fun entry : String × Role => [Call.CreateRole entry.1 entry.2])
    (fun w entry => (a.CreateRole entry.1 entry.2 w).2)
    (fun w entry => ⟨[⟨.CreateRole entry.1 entry.2,
      .error (a.vaultClient.CreateRole entry.1 entry.2 w.state).1⟩], rfl, rfl⟩)
    (ro.visit 4 D.entries) w
  exact ⟨seg, h1, by rw [h2, flatMap_singleton_map]⟩

theorem createServiceAccounts_trace_exact (a : Auth σ) (ro : RangeOrder)
    (R : GoMap (GoMap Unit)) (w : Run σ) :
    ∃ creates, (a.createServiceAccounts ro R w).trace
        = w.trace ++ ⟨.GetNamespaces, .names (a.GetNamespaces w).1.1 (a.GetNamespaces w).1.2⟩
          :: creates ∧
      calls creates = createServiceAccountCalls ro R (a.GetNamespaces w).1.1 := by
  unfold Auth.createServiceAccounts
  simp only
  obtain ⟨seg, h1, h2⟩ := foldl_calls
    (fun ns => (ro.visit 3 ((R.get? ns).getD GoMap.empty).entries).map
      (fun entry => Call.CreateServiceAccount ns entry.1 serviceAccountAnnotations))
    (fun w ns =>
      (ro.visit 3 ((R.get? ns).getD GoMap.empty).entries).foldl
        (fun w entry => (a.CreateServiceAccount ns entry.1 serviceAccountAnnotations w).2) w)
    (by
      intro w ns
      obtain ⟨seg, h1, h2⟩ := foldl_calls
        (fun entry : String × Unit =>
          [Call.CreateServiceAccount ns entry.1 serviceAccountAnnotations])
        (fun w entry => (a.CreateServiceAccount ns entry.1 serviceAccountAnnotations w).2)
        (fun w entry => ⟨[⟨.CreateServiceAccount ns entry.1 serviceAccountAnnotations,
          .error (a.k8sClient.CreateServiceAccount ns entry.1 serviceAccountAnnotations
            w.state).1⟩], rfl, rfl⟩)
        (ro.visit 3 ((R.get? ns).getD GoMap.empty).entries) w
      exact ⟨seg, h1, by rw [h2, flatMap_singleton_map]⟩)
    (a.GetNamespaces w).1.1 (a.GetNamespaces w).2
  refine ⟨seg, ?_, h2⟩
  rw [h1, GetNamespaces_trace, List.append_assoc, List.singleton_append]

theorem createServiceAccounts_trace (a : Auth σ) (ro : RangeOrder) (R : GoMap (GoMap Unit))
    (w : Run σ) :
    ∃ seg, (a.createServiceAccounts ro R w).trace = w.trace ++ seg ∧
      IsCreateServiceAccounts ro R seg := by
  obtain ⟨creates, h1, h2⟩ := createServiceAccounts_trace_exact a ro R w
  exact ⟨_, h1, _, _, creates, rfl, h2⟩

theorem sweep_trace (a : Auth σ) (R : GoMap (GoMap Unit)) (ann : GoMap String) (w : Run σ)
    (ns : String) :
    ∃ seg,
      (let r := a.GetServiceAccounts ns ann w
        if r.1.2.isSome then r.2
        else
          r.1.1.foldl
            (fun w k8sServiceAccount =>
              match R.get? ns with
              | none => (a.DeleteServiceAccount ns k8sServiceAccount w).2
              | some serviceAccountsSet =>
                if serviceAccountsSet.contains k8sServiceAccount then w
                else (a.DeleteServiceAccount ns k8sServiceAccount w).2)
            r.2).trace = w.trace ++ seg ∧ IsSweep R ann ns seg := by
  simp only
  by_cases herr : (a.GetServiceAccounts ns ann w).1.2.isSome = true
  · refine ⟨[⟨.GetServiceAccounts ns ann, .names (a.GetServiceAccounts ns ann w).1.1
      (a.GetServiceAccounts ns ann w).1.2⟩], ?_, ?_⟩
    · simp only [herr, if_true]; rfl
    · exact ⟨_, _, [], rfl, by simp [sweepCalls, herr, calls]⟩
  · simp only [herr, Bool.false_eq_true, if_false]
    obtain ⟨seg, h1, h2⟩ := foldl_calls
      (fun sa => if isRequired R ns sa then [] else [Call.DeleteServiceAccount ns sa])
      (fun w k8sServiceAccount =>
        match R.get? ns with
        | none => (a.DeleteServiceAccount ns k8sServiceAccount w).2
        | some serviceAccountsSet =>
          if serviceAccountsSet.contains k8sServiceAccount then w
          else (a.DeleteServiceAccount ns k8sServiceAccount w).2)
      (by
        intro w sa
        unfold isRequired
        cases hR : R.get? ns with
        | none =>
          exact ⟨[⟨.DeleteServiceAccount ns sa,
            .error (a.k8sClient.DeleteServiceAccount ns sa w.state).1⟩], rfl, by simp [calls]⟩
        | some set =>
          by_cases h : set.contains sa = true
          · exact ⟨[], by simp [h], by simp [h, calls]⟩
          · exact ⟨[⟨.DeleteServiceAccount ns sa,
              .error (a.k8sClient.DeleteServiceAccount ns sa w.state).1⟩],
              by simp only [h, Bool.false_eq_true, if_false]; rfl, by simp [h, calls]⟩)
      (a.GetServiceAccounts ns ann w).1.1 (a.GetServiceAccounts ns ann w).2
    refine ⟨⟨.GetServiceAccounts ns ann, .names (a.GetServiceAccounts ns ann w).1.1
      (a.GetServiceAccounts ns ann w).1.2⟩ :: seg, ?_, ?_⟩
    · rw [h1, GetServiceAccounts_trace, List.append_assoc, List.singleton_append]
    · refine ⟨_, _, seg, rfl, ?_⟩
      rw [h2]
      simp only [sweepCalls, herr, Bool.false_eq_true, if_false]
      generalize (a.GetServiceAccounts ns ann w).1.1 = l
      induction l with
      | nil => rfl
      | cons x xs ih =>
        by_cases h : isRequired R ns x = true <;>
          simp [List.flatMap_cons, List.filter_cons, h, ih]

theorem deleteServiceAccounts_trace (a : Auth σ) (R : GoMap (GoMap Unit)) (ann : GoMap String)
    (w : Run σ) :
    ∃ seg, (a.deleteServiceAccounts R ann w).trace = w.trace ++ seg ∧
      IsDeleteServiceAccounts R ann seg := by
  unfold Auth.deleteServiceAccounts
  simp only
  by_cases herr : (a.GetNamespaces w).1.2.isSome = true
  · refine ⟨[⟨.GetNamespaces, .names (a.GetNamespaces w).1.1 (a.GetNamespaces w).1.2⟩], ?_, ?_⟩
    · simp only [herr, if_true]; rfl
    · refine ⟨_, _, [], rfl, fun _ => rfl, fun h => ?_⟩
      rw [h] at herr
      simp at herr
  · simp only [herr, Bool.false_eq_true, if_false]
    obtain ⟨segs, h1, h2⟩ := foldl_trace (IsSweep R ann) _ (fun w ns => sweep_trace a R ann w ns)
      (a.GetNamespaces w).1.1 (a.GetNamespaces w).2
    refine ⟨⟨.GetNamespaces, .names (a.GetNamespaces w).1.1 (a.GetNamespaces w).1.2⟩
      :: segs.flatten, ?_, ?_⟩
    · rw [h1, GetNamespaces_trace, List.append_assoc, List.singleton_append]
    · exact ⟨_, _, segs, rfl, fun h => absurd h herr, fun _ => h2⟩

/-- The shape of the trace of one reconciliation pass. -/
theorem pass_trace (a : Auth σ) (ro : RangeOrder) (unmarshal : String → Role × GoError)
    (s : σ) :
    ∃ (data : GoMap String) (err : GoError) (rest : List Event),
      a.pass ro unmarshal s
        = ⟨.GetConfigMapData vaultAuthConfigNamespace vaultAuthConfigMap, .data data err⟩ :: rest ∧
      (data, err) = (a.k8sClient.GetConfigMapData vaultAuthConfigNamespace vaultAuthConfigMap s).1 ∧
      (err.isSome = true → rest = []) ∧
      (err = none → ∃ s1 s2 s3 s4, rest = s1 ++ (s2 ++ (s3 ++ s4)) ∧
        IsDeleteServiceAccounts
          (getServiceAccountsSetByNamespace ro (newVaultRoles ro unmarshal data))
          serviceAccountAnnotations s1 ∧
        IsDeleteVaultRoles (newVaultRoles ro unmarshal data) s2 ∧
        IsCreateServiceAccounts ro
          (getServiceAccountsSetByNamespace ro (newVaultRoles ro unmarshal data)) s3 ∧
        IsCreateVaultRoles ro (newVaultRoles ro unmarshal data) s4) := by
  unfold Auth.pass Auth.initServiceAccounts
  simp only
  generalize hr : a.GetConfigMapData vaultAuthConfigNamespace vaultAuthConfigMap ⟨s, []⟩ = r
  have hrt : r.2.trace = [⟨.GetConfigMapData vaultAuthConfigNamespace vaultAuthConfigMap,
      .data r.1.1 r.1.2⟩] := by rw [← hr]; rfl
  have hrv : r.1 = (a.k8sClient.GetConfigMapData vaultAuthConfigNamespace vaultAuthConfigMap s).1 := by
    rw [← hr]; rfl
  by_cases herr : r.1.2.isSome = true
  · refine ⟨r.1.1, r.1.2, [], ?_, hrv, fun _ => rfl, fun h => ?_⟩
    · simp only [herr, if_true]; exact hrt
    · rw [h] at herr; simp at herr
  · simp only [herr, Bool.false_eq_true, if_false]
    obtain ⟨s1, h1, p1⟩ := deleteServiceAccounts_trace a
      (getServiceAccountsSetByNamespace ro (newVaultRoles ro unmarshal r.1.1))
      serviceAccountAnnotations r.2
    obtain ⟨s2, h2, p2⟩ := deleteVaultRoles_trace a (newVaultRoles ro unmarshal r.1.1)
      (a.deleteServiceAccounts
        (getServiceAccountsSetByNamespace ro (newVaultRoles ro unmarshal r.1.1))
        serviceAccountAnnotations r.2)
    obtain ⟨s3, h3, p3⟩ := createServiceAccounts_trace a ro
      (getServiceAccountsSetByNamespace ro (newVaultRoles ro unmarshal r.1.1))
      (a.deleteVaultRoles (newVaultRoles ro unmarshal r.1.1)
        (a.deleteServiceAccounts
          (getServiceAccountsSetByNamespace ro (newVaultRoles ro unmarshal r.1.1))
          serviceAccountAnnotations r.2))
    obtain ⟨s4, h4, p4⟩ := createVaultRoles_trace a ro (newVaultRoles ro unmarshal r.1.1)
      (a.createServiceAccounts ro
        (getServiceAccountsSetByNamespace ro (newVaultRoles ro unmarshal r.1.1))
        (a.deleteVaultRoles (newVaultRoles ro unmarshal r.1.1)
          (a.deleteServiceAccounts
            (getServiceAccountsSetByNamespace ro (newVaultRoles ro unmarshal r.1.1))
            serviceAccountAnnotations r.2)))
    refine ⟨r.1.1, r.1.2, s1 ++ (s2 ++ (s3 ++ s4)), ?_, hrv, fun h => absurd h herr,
      fun _ => ⟨s1, s2, s3, s4, rfl, p1, p2, p3, p4⟩⟩
    rw [h4, h3, h2, h1, hrt]
    simp

theorem mem_calls_of_mem {e : Event} {t : List Event} (h : e ∈ t) : e.call ∈ calls t :=
  List.mem_map_of_mem Event.call h

theorem methods_sweep {R : GoMap (GoMap Unit)} {ann : GoMap String} {ns : String}
    {seg : List Event} (h : IsSweep R ann ns seg) : ∀ c ∈ calls seg, c.method = 6 ∨ c.method = 7 := by
  obtain ⟨listed, err, dels, rfl, hd⟩ := h
  intro c hc
  rw [calls_cons, List.mem_cons] at hc
  rcases hc with rfl | hc
  · left; rfl
  · right
    rw [hd] at hc
    unfold sweepCalls at hc
    split at hc
    · simp at hc
    · obtain ⟨sa, _, rfl⟩ := List.mem_map.mp hc
      rfl

theorem methods_sweeps {R : GoMap (GoMap Unit)} {ann : GoMap String} {namespaces : List String}
    {sweeps : List (List Event)} (h : List.Forall₂ (IsSweep R ann) namespaces sweeps) :
    ∀ c ∈ calls sweeps.flatten, c.method = 6 ∨ c.method = 7 := by
  induction h with
  | nil => intro c hc; simp [calls] at hc
  | cons h1 _ ih =>
    intro c hc
    rw [List.flatten_cons, calls_append, List.mem_append] at hc
    rcases hc with hc | hc
    · exact methods_sweep h1 c hc
    · exact ih c hc

theorem methods_deleteServiceAccounts {R : GoMap (GoMap Unit)} {ann : GoMap String}
    {seg : List Event} (h : IsDeleteServiceAccounts R ann seg) :
    ∀ c ∈ calls seg, c.method = 4 ∨ c.method = 6 ∨ c.method = 7 := by
  obtain ⟨namespaces, err, sweeps, rfl, h1, h2⟩ := h
  intro c hc
  rw [calls_cons, List.mem_cons] at hc
  rcases hc with rfl | hc
  · left; rfl
  · right
    cases err with
    | some e => rw [h1 rfl] at hc; simp [calls] at hc
    | none => exact methods_sweeps (h2 rfl) c hc

theorem methods_deleteVaultRoles {D : GoMap Role} {seg : List Event}
    (h : IsDeleteVaultRoles D seg) : ∀ c ∈ calls seg, c.method = 1 ∨ c.method = 2 := by
  obtain ⟨listed, err, dels, rfl, hd⟩ := h
  intro c hc
  rw [calls_cons, List.mem_cons] at hc
  rcases hc with rfl | hc
  · left; rfl
  · right
    rw [hd] at hc
    split at hc
    · simp at hc
    · obtain ⟨r, _, rfl⟩ := List.mem_map.mp hc
      rfl

theorem methods_createServiceAccountCalls (ro : RangeOrder) (R : GoMap (GoMap Unit))
    (namespaces : List String) : ∀ c ∈ createServiceAccountCalls ro R namespaces, c.method = 8 := by
  intro c hc
  unfold createServiceAccountCalls at hc
  obtain ⟨ns, _, hc⟩ := List.mem_flatMap.mp hc
  obtain ⟨entry, _, rfl⟩ := List.mem_map.mp hc
  rfl

theorem methods_createServiceAccounts {ro : RangeOrder} {R : GoMap (GoMap Unit)}
    {seg : List Event} (h : IsCreateServiceAccounts ro R seg) :
    ∀ c ∈ calls seg, c.method = 4 ∨ c.method = 8 := by
  obtain ⟨namespaces, err, creates, rfl, hd⟩ := h
  intro c hc
  rw [calls_cons, List.mem_cons] at hc
  rcases hc with rfl | hc
  · left; rfl
  · right
    rw [hd] at hc
    unfold createServiceAccountCalls at hc
    obtain ⟨ns, _, hc⟩ := List.mem_flatMap.mp hc
    obtain ⟨entry, _, rfl⟩ := List.mem_map.mp hc
    rfl

theorem methods_createVaultRoles {ro : RangeOrder} {D : GoMap Role} {seg : List Event}
    (h : IsCreateVaultRoles ro D seg) : ∀ c ∈ calls seg, c.method = 3 := by
  intro c hc
  rw [h] at hc
  obtain ⟨entry, _, rfl⟩ := List.mem_map.mp hc
  rfl

theorem count_eq_zero_of_method {t : List Call} {c : Call}
    (h : ∀ c' ∈ t, c'.method ≠ c.method) : t.count c = 0 :=
  List.count_eq_zero_of_not_mem (fun hc => h c hc rfl)

end Traces

/-! ## Service accounts -/

section ServiceAccounts

variable {σ : Type}

theorem isRequired_iff (R : GoMap (GoMap Unit)) (ns sa : String) :
    isRequired R ns sa = true ↔ ∃ set, R.get? ns = some set ∧ sa ∈ set.keys := by
  unfold isRequired
  cases h : R.get? ns with
  | none => simp
  | some set => simp [GoMap.contains_iff]

theorem isRequired_eq_false_iff (R : GoMap (GoMap Unit)) (ns sa : String) :
    isRequired R ns sa = false ↔ (ns ∉ R.keys ∨ ∃ set, R.get? ns = some set ∧ sa ∉ set.keys) := by
  unfold isRequired
  cases h : R.get? ns with
  | none => simp [(GoMap.get?_eq_none_iff R ns).mp h]
  | some set =>
    have hk : ns ∈ R.keys := by
      rw [← GoMap.contains_iff]; simp [GoMap.contains, h]
    simp only [Option.some.injEq, exists_eq_left', hk, not_true_eq_false, false_or]
    rw [← GoMap.contains_iff]
    simp

theorem isRequired_eq_contains (R : GoMap (GoMap Unit)) (ns sa : String) :
    isRequired R ns sa = ((R.get? ns).getD GoMap.empty).contains sa := by
  unfold isRequired
  cases R.get? ns <;> rfl

theorem count_keys (set : GoMap Unit) (sa : String) :
    set.keys.count sa = if set.contains sa then 1 else 0 := by
  by_cases h : set.contains sa = true
  · simp only [h, if_true]
    exact List.count_eq_one_of_mem set.nodupKeys ((GoMap.contains_iff set sa).mp h)
  · simp only [h, Bool.false_eq_true, if_false]
    exact List.count_eq_zero_of_not_mem (fun hm => h ((GoMap.contains_iff set sa).mpr hm))

theorem count_create_entries (ro : RangeOrder) (set : GoMap Unit) (x ns sa : String)
    (ann : GoMap String) :
    ((ro.visit 3 set.entries).map
      (fun entry => Call.CreateServiceAccount x entry.1 serviceAccountAnnotations)).count
        (.CreateServiceAccount ns sa ann)
      = if x = ns ∧ ann = serviceAccountAnnotations ∧ set.contains sa = true then 1 else 0 := by
  rw [((ro.perm 3 set.entries).map _).count_eq]
  by_cases hx : x = ns ∧ ann = serviceAccountAnnotations
  · obtain ⟨rfl, rfl⟩ := hx
    have e : set.entries.map
        (fun entry => Call.CreateServiceAccount x entry.1 serviceAccountAnnotations)
        = set.keys.map (fun k => Call.CreateServiceAccount x k serviceAccountAnnotations) := by
      simp [GoMap.keys]
    rw [e, List.count_map_of_injective set.keys
      (fun k => Call.CreateServiceAccount x k serviceAccountAnnotations)
      (by intro k1 k2 h; cases h; rfl) sa, count_keys]
    simp
  · have : ¬ (x = ns ∧ ann = serviceAccountAnnotations ∧ set.contains sa = true) :=
      fun h => hx ⟨h.1, h.2.1⟩
    rw [if_neg this]
    apply List.count_eq_zero_of_not_mem
    intro hm
    obtain ⟨entry, _, he⟩ := List.mem_map.mp hm
    cases he
    exact hx ⟨rfl, rfl⟩

theorem count_createServiceAccountCalls (ro : RangeOrder) (R : GoMap (GoMap Unit))
    (namespaces : List String) (ns sa : String) (ann : GoMap String) :
    (createServiceAccountCalls ro R namespaces).count (.CreateServiceAccount ns sa ann)
      = if ann = serviceAccountAnnotations ∧ isRequired R ns sa = true
        then namespaces.count ns else 0 := by
  unfold createServiceAccountCalls
  induction namespaces with
  | nil => simp
  | cons x xs ih =>
    rw [List.flatMap_cons, List.count_append, ih, count_create_entries, List.count_cons]
    by_cases h1 : ann = serviceAccountAnnotations
    · by_cases h2 : isRequired R ns sa = true
      · by_cases h3 : x = ns
        · subst h3
          rw [isRequired_eq_contains] at h2
          simp [h1, h2, isRequired_eq_contains, Nat.add_comm]
        · simp [h1, h2, h3]
      · by_cases h3 : x = ns
        · subst h3
          rw [isRequired_eq_contains] at h2
          simp [h1, h2, isRequired_eq_contains]
        · simp [h1, h2, h3]
    · simp [h1]

/-- C3: for every requirement `R`, if the `GetNamespaces` call of
`createServiceAccounts` returned a duplicate-free list (with or without an
error), then `CreateServiceAccount(ns, sa, annotations)` is issued exactly once
when `annotations` is `{vak-managed: true}`, `ns` is in the returned list and
`sa` is in `R[ns]`, and not at all for any other triple; nothing about the
collaborator state (such as `sa` existing already) enters. -/
theorem createServiceAccounts_creates_each_required_account_once (a : Auth σ) (ro : RangeOrder)
    (R : GoMap (GoMap Unit)) (s : σ) (namespaces : List String) (err : GoError)
    (hlist : ⟨.GetNamespaces, .names namespaces err⟩ ∈ (a.createServiceAccounts ro R ⟨s, []⟩).trace)
    (hnodup : namespaces.Nodup) (ns sa : String) (annotations : GoMap String) :
    (calls (a.createServiceAccounts ro R ⟨s, []⟩).trace).count
        (.CreateServiceAccount ns sa annotations)
      = (if annotations = serviceAccountAnnotations ∧ ns ∈ namespaces ∧
            ∃ set, R.get? ns = some set ∧ sa ∈ set.keys
        then 1 else 0) := by
  obtain ⟨seg, h1, h2⟩ := createServiceAccounts_trace a ro R ⟨s, []⟩
  obtain ⟨namespaces', err', creates, rfl, hc⟩ := h2
  rw [h1] at hlist ⊢
  simp only [List.nil_append, List.mem_cons] at hlist ⊢
  have hn : namespaces' = namespaces := by
    rcases hlist with h | h
    · cases h; rfl
    · have := methods_createServiceAccountCalls ro R namespaces' _ (hc ▸ mem_calls_of_mem h)
      simp [Call.method] at this
  subst hn
  rw [calls_cons, List.count_cons, hc, count_createServiceAccountCalls]
  simp only [← isRequired_iff]
  by_cases h1 : annotations = serviceAccountAnnotations
  · by_cases h2 : isRequired R ns sa = true
    · by_cases h3 : ns ∈ namespaces'
      · simp [h1, h2, h3, List.count_eq_one_of_mem hnodup h3]
      · simp [h1, h2, h3, List.count_eq_zero_of_not_mem h3]
    · simp [h1, h2]
  · simp [h1]

set_option maxRecDepth 100000 in
/-- Witness for C3: with the namespaces and the requirement of the first case of
`TestAuth_initServiceAccounts`, `default` in `kube-system` is created once. -/
theorem createServiceAccounts_creates_each_required_account_once_witness :
    (calls (exampleAuth.createServiceAccounts RangeOrder.stored exampleRequirement
        ⟨(), []⟩).trace).count
        (.CreateServiceAccount "kube-system" "default" serviceAccountAnnotations) = 1 :=
  (createServiceAccounts_creates_each_required_account_once exampleAuth RangeOrder.stored
    exampleRequirement () ["kube-system", "test", "default"] none (by decide) (by decide)
    "kube-system" "default" serviceAccountAnnotations).trans (by decide)

theorem mem_sweepCalls (R : GoMap (GoMap Unit)) (x ns sa : String) (listed : List String)
    (err : GoError) :
    Call.DeleteServiceAccount ns sa ∈ sweepCalls R x listed err
      ↔ err = none ∧ x = ns ∧ sa ∈ listed ∧ isRequired R ns sa = false := by
  unfold sweepCalls
  cases err with
  | some e => simp
  | none =>
    simp only [Option.isSome_none, Bool.false_eq_true, if_false, List.mem_map, List.mem_filter,
      true_and]
    constructor
    · rintro ⟨sa', ⟨h1, h2⟩, h3⟩
      cases h3
      exact ⟨rfl, h1, by simpa using h2⟩
    · rintro ⟨rfl, h1, h2⟩
      exact ⟨sa, ⟨h1, by simp [h2]⟩, rfl⟩

theorem methods_sweepCalls (R : GoMap (GoMap Unit)) (x : String) (listed : List String)
    (err : GoError) : ∀ c ∈ sweepCalls R x listed err, c.method = 7 := by
  intro c hc
  unfold sweepCalls at hc
  split at hc
  · simp at hc
  · obtain ⟨sa, _, rfl⟩ := List.mem_map.mp hc
    rfl

theorem sweep_delete_iff {R : GoMap (GoMap Unit)} {ann : GoMap String} {x : String}
    {seg : List Event} (h : IsSweep R ann x seg) (ns sa : String) :
    Call.DeleteServiceAccount ns sa ∈ calls seg ↔
      (∃ listed, ⟨.GetServiceAccounts ns ann, .names listed none⟩ ∈ seg ∧ sa ∈ listed) ∧
        isRequired R ns sa = false := by
  obtain ⟨listed, err, dels, rfl, hd⟩ := h
  have hlisted : (∃ l, (⟨.GetServiceAccounts ns ann, .names l none⟩ : Event) ∈
      (⟨.GetServiceAccounts x ann, .names listed err⟩ : Event) :: dels ∧ sa ∈ l)
      ↔ err = none ∧ x = ns ∧ sa ∈ listed := by
    constructor
    · rintro ⟨l, hl, hsa⟩
      rcases List.mem_cons.mp hl with h | h
      · cases h; exact ⟨rfl, rfl, hsa⟩
      · have := methods_sweepCalls R x listed err _ (hd ▸ mem_calls_of_mem h)
        simp [Call.method] at this
    · rintro ⟨rfl, rfl, hsa⟩
      exact ⟨listed, List.mem_cons_self _ _, hsa⟩
  rw [hlisted, calls_cons, List.mem_cons, hd, mem_sweepCalls]
  constructor
  · rintro (h | ⟨h1, h2, h3, h4⟩)
    · cases h
    · exact ⟨⟨h1, h2, h3⟩, h4⟩
  · rintro ⟨⟨h1, h2, h3⟩, h4⟩
    exact Or.inr ⟨h1, h2, h3, h4⟩

theorem sweeps_delete_iff {R : GoMap (GoMap Unit)} {ann : GoMap String}
    {namespaces : List String} {sweeps : List (List Event)}
    (h : List.Forall₂ (IsSweep R ann) namespaces sweeps) (ns sa : String) :
    Call.DeleteServiceAccount ns sa ∈ calls sweeps.flatten ↔
      (∃ listed, ⟨.GetServiceAccounts ns ann, .names listed none⟩ ∈ sweeps.flatten ∧
        sa ∈ listed) ∧ isRequired R ns sa = false := by
  induction h with
  | nil => simp [calls]
  | cons h1 _ ih =>
    rw [List.flatten_cons, calls_append, List.mem_append, ih, sweep_delete_iff h1]
    simp only [List.mem_append]
    constructor
    · rintro (⟨⟨l, h2, h3⟩, h4⟩ | ⟨⟨l, h2, h3⟩, h4⟩)
      · exact ⟨⟨l, Or.inl h2, h3⟩, h4⟩
      · exact ⟨⟨l, Or.inr h2, h3⟩, h4⟩
    · rintro ⟨⟨l, h2 | h2, h3⟩, h4⟩
      · exact Or.inl ⟨⟨l, h2, h3⟩, h4⟩
      · exact Or.inr ⟨⟨l, h2, h3⟩, h4⟩

theorem deleteServiceAccounts_delete_iff {R : GoMap (GoMap Unit)} {ann : GoMap String}
    {seg : List Event} (h : IsDeleteServiceAccounts R ann seg) (ns sa : String) :
    Call.DeleteServiceAccount ns sa ∈ calls seg ↔
      (∃ listed, ⟨.GetServiceAccounts ns ann, .names listed none⟩ ∈ seg ∧ sa ∈ listed) ∧
        isRequired R ns sa = false := by
  obtain ⟨namespaces, err, sweeps, rfl, h1, h2⟩ := h
  have hhead : ∀ l, ((⟨.GetServiceAccounts ns ann, .names l none⟩ : Event) ∈
      (⟨.GetNamespaces, .names namespaces err⟩ : Event) :: sweeps.flatten)
      ↔ (⟨.GetServiceAccounts ns ann, .names l none⟩ : Event) ∈ sweeps.flatten := by
    intro l
    rw [List.mem_cons]
    constructor
    · rintro (h | h)
      · cases h
      · exact h
    · exact Or.inr
  simp only [hhead, calls_cons, List.mem_cons]
  cases err with
  | some e => rw [h1 rfl]; simp [calls]
  | none =>
    rw [← sweeps_delete_iff (h2 rfl)]
    constructor
    · rintro (h | h)
      · cases h
      · exact h
    · exact Or.inr

/-- C2: `deleteServiceAccounts` issues `DeleteServiceAccount(ns, sa)` exactly when
a `GetServiceAccounts(ns, {vak-managed: true})` call of the run returned `sa`
without error and `ns` is not a key of the requirement `R` or `sa` is not in
`R[ns]`; a service account that is required in its namespace is never deleted. -/
theorem deleteServiceAccounts_deletes_exactly_the_unrequired (a : Auth σ)
    (R : GoMap (GoMap Unit)) (s : σ) (ns sa : String) :
    (Call.DeleteServiceAccount ns sa ∈
        calls (a.deleteServiceAccounts R serviceAccountAnnotations ⟨s, []⟩).trace ↔
      (∃ listed, ⟨.GetServiceAccounts ns serviceAccountAnnotations, .names listed none⟩ ∈
          (a.deleteServiceAccounts R serviceAccountAnnotations ⟨s, []⟩).trace ∧ sa ∈ listed) ∧
        (ns ∉ R.keys ∨ ∃ set, R.get? ns = some set ∧ sa ∉ set.keys)) ∧
    ((∃ set, R.get? ns = some set ∧ sa ∈ set.keys) →
      Call.DeleteServiceAccount ns sa ∉
        calls (a.deleteServiceAccounts R serviceAccountAnnotations ⟨s, []⟩).trace) := by
  obtain ⟨seg, h1, h2⟩ := deleteServiceAccounts_trace a R serviceAccountAnnotations ⟨s, []⟩
  rw [h1]
  simp only [List.nil_append]
  have key := deleteServiceAccounts_delete_iff h2 ns sa
  rw [isRequired_eq_false_iff] at key
  refine ⟨key, fun hreq hdel => ?_⟩
  have h3 := (key.mp hdel).2
  rw [← isRequired_eq_false_iff] at h3
  rw [← isRequired_iff, h3] at hreq
  cases hreq

set_option maxRecDepth 100000 in
/-- Witness for C2: `vault-agent-injector` is required in `kube-system` by the
requirement of the first case of `TestAuth_initServiceAccounts` and is not
deleted there. -/
theorem deleteServiceAccounts_deletes_exactly_the_unrequired_witness :
    Call.DeleteServiceAccount "kube-system" "vault-agent-injector" ∉
      calls (exampleAuth.deleteServiceAccounts exampleRequirement serviceAccountAnnotations
        ⟨(), []⟩).trace :=
  (deleteServiceAccounts_deletes_exactly_the_unrequired exampleAuth exampleRequirement ()
    "kube-system" "vault-agent-injector").2
    ((isRequired_iff exampleRequirement "kube-system" "vault-agent-injector").mp (by decide))

end ServiceAccounts

/-! ## One reconciliation pass -/

section Pass

variable {σ : Type}

theorem count_pass_of_method {R : GoMap (GoMap Unit)} {ann : GoMap String} {D : GoMap Role}
    {ro : RangeOrder} {s1 s2 s3 s4 : List Event}
    (h1 : IsDeleteServiceAccounts R ann s1) (h2 : IsDeleteVaultRoles D s2)
    (h3 : IsCreateServiceAccounts ro R s3) (h4 : IsCreateVaultRoles ro D s4)
    (e0 : Event) (he0 : e0.call.method = 5) (c : Call) :
    (c.method = 1 ∨ c.method = 2 →
      (calls (e0 :: (s1 ++ (s2 ++ (s3 ++ s4))))).count c = (calls s2).count c) ∧
    (c.method = 3 →
      (calls (e0 :: (s1 ++ (s2 ++ (s3 ++ s4))))).count c = (calls s4).count c) ∧
    (c.method = 6 ∨ c.method = 7 →
      (calls (e0 :: (s1 ++ (s2 ++ (s3 ++ s4))))).count c = (calls s1).count c) ∧
    (c.method = 8 →
      (calls (e0 :: (s1 ++ (s2 ++ (s3 ++ s4))))).count c = (calls s3).count c) := by
  have m1 := methods_deleteServiceAccounts h1
  have m2 := methods_deleteVaultRoles h2
  have m3 := methods_createServiceAccounts h3
  have m4 := methods_createVaultRoles h4
  have hne : ∀ (hc : c.method ≠ 5), (e0.call == c) = false := by
    intro hc
    rw [beq_eq_false_iff_ne]
    intro e
    exact hc (e ▸ he0)
  have z1 : c.method ≠ 4 → c.method ≠ 6 → c.method ≠ 7 → (calls s1).count c = 0 :=
    fun a1 a2 a3 => List.count_eq_zero_of_not_mem (fun hc => by
      rcases m1 c hc with h | h | h
      · exact a1 h
      · exact a2 h
      · exact a3 h)
  have z2 : c.method ≠ 1 → c.method ≠ 2 → (calls s2).count c = 0 :=
    fun a1 a2 => List.count_eq_zero_of_not_mem (fun hc => by
      rcases m2 c hc with h | h
      · exact a1 h
      · exact a2 h)
  have z3 : c.method ≠ 4 → c.method ≠ 8 → (calls s3).count c = 0 :=
    fun a1 a2 => List.count_eq_zero_of_not_mem (fun hc => by
      rcases m3 c hc with h | h
      · exact a1 h
      · exact a2 h)
  have z4 : c.method ≠ 3 → (calls s4).count c = 0 :=
    fun a1 => List.count_eq_zero_of_not_mem (fun hc => a1 (m4 c hc))
  simp only [calls_cons, calls_append, List.count_cons, List.count_append]
  refine ⟨fun h => ?_, fun h => ?_, fun h => ?_, fun h => ?_⟩
  · rw [hne (by omega), z1 (by omega) (by omega) (by omega), z3 (by omega) (by omega),
      z4 (by omega)]
    simp
  · rw [hne (by omega), z1 (by omega) (by omega) (by omega), z3 (by omega) (by omega),
      z2 (by omega) (by omega)]
    simp
  · rw [hne (by omega), z2 (by omega) (by omega), z3 (by omega) (by omega), z4 (by omega)]
    simp
  · rw [hne (by omega), z1 (by omega) (by omega) (by omega), z2 (by omega) (by omega),
      z4 (by omega)]
    simp

theorem mem_pass_of_method {R : GoMap (GoMap Unit)} {ann : GoMap String} {D : GoMap Role}
    {ro : RangeOrder} {s1 s2 s3 s4 : List Event}
    (h1 : IsDeleteServiceAccounts R ann s1) (h2 : IsDeleteVaultRoles D s2)
    (h3 : IsCreateServiceAccounts ro R s3) (h4 : IsCreateVaultRoles ro D s4)
    (e0 : Event) (he0 : e0.call.method = 5) (e : Event)
    (he : e ∈ e0 :: (s1 ++ (s2 ++ (s3 ++ s4)))) :
    (e.call.method = 1 ∨ e.call.method = 2 → e ∈ s2) ∧
    (e.call.method = 5 → e = e0) ∧
    (e.call.method = 6 ∨ e.call.method = 7 → e ∈ s1) := by
  have m1 := fun h => methods_deleteServiceAccounts h1 e.call (mem_calls_of_mem h)
  have m2 := fun h => methods_deleteVaultRoles h2 e.call (mem_calls_of_mem h)
  have m3 := fun h => methods_createServiceAccounts h3 e.call (mem_calls_of_mem h)
  have m4 := fun h => methods_createVaultRoles h4 e.call (mem_calls_of_mem h)
  simp only [List.mem_cons, List.mem_append] at he
  refine ⟨fun h => ?_, fun h => ?_, fun h => ?_⟩
  · rcases he with rfl | he | he | he | he
    · omega
    · have := m1 he; omega
    · exact he
    · have := m3 he; omega
    · have := m4 he; omega
  · rcases he with rfl | he | he | he | he
    · rfl
    · have := m1 he; omega
    · have := m2 he; omega
    · have := m3 he; omega
    · have := m4 he; omega
  · rcases he with rfl | he | he | he | he
    · omega
    · exact he
    · have := m2 he; omega
    · have := m3 he; omega
    · have := m4 he; omega

theorem count_deleteRole_of_listing {D : GoMap Role} {seg : List Event}
    (h : IsDeleteVaultRoles D seg) (listed : List String) (err : GoError)
    (hl : ⟨.ListRoles, .names listed err⟩ ∈ seg) (r : String) :
    (calls seg).count (.DeleteRole r)
      = if err.isSome = true ∨ D.contains r = true then 0 else listed.count r := by
  obtain ⟨listed', err', dels, rfl, hd⟩ := h
  have hmd : ∀ c ∈ calls dels, c.method = 2 := by
    intro c hc
    rw [hd] at hc
    split at hc
    · simp at hc
    · obtain ⟨r, _, rfl⟩ := List.mem_map.mp hc
      rfl
  have he : listed' = listed ∧ err' = err := by
    rcases List.mem_cons.mp hl with h | h
    · cases h; exact ⟨rfl, rfl⟩
    · have := hmd _ (mem_calls_of_mem h)
      simp [Call.method] at this
  obtain ⟨rfl, rfl⟩ := he
  rw [calls_cons, List.count_cons, hd]
  have hne : ((Call.ListRoles) == Call.DeleteRole r) = false := by
    rw [beq_eq_false_iff_ne]; intro h; cases h
  simp only [hne, Bool.false_eq_true, if_false, Nat.add_zero]
  by_cases herr : err'.isSome = true
  · simp [herr]
  · simp only [herr, Bool.false_eq_true, if_false, false_or]
    by_cases hD : D.contains r = true
    · simp only [hD, if_true]
      apply List.count_eq_zero_of_not_mem
      intro hm
      obtain ⟨r', hr', e⟩ := List.mem_map.mp hm
      cases e
      simp [hD] at hr'
    · simp only [hD, Bool.false_eq_true, if_false]
      rw [List.count_map_of_injective _ Call.DeleteRole (by intro x y h; cases h; rfl) r]
      exact List.count_filter (by simp [hD])

theorem count_entries {V : Type} [DecidableEq V] (m : GoMap V) (k : String) (v : V) :
    @List.count (String × V) instBEqOfDecidableEq (k, v) m.entries
      = if m.get? k = some v then 1 else 0 := by
  have hnd : m.entries.Nodup := List.Nodup.of_map _ m.nodupKeys
  rw [List.count_eq_of_nodup hnd]
  simp only [← GoMap.get?_eq_some_iff]

theorem count_createRole_calls (ro : RangeOrder) (D : GoMap Role) (r : String) (role : Role) :
    ((ro.visit 4 D.entries).map (fun entry => Call.CreateRole entry.1 entry.2)).count
        (.CreateRole r role)
      = if D.get? r = some role then 1 else 0 := by
  rw [((ro.perm 4 D.entries).map _).count_eq, ← count_entries]
  exact List.count_map_of_injective D.entries (fun entry => Call.CreateRole entry.1 entry.2)
    (by rintro ⟨x1, x2⟩ ⟨y1, y2⟩ h; cases h; rfl) (r, role)

theorem count_createRole {ro : RangeOrder} {D : GoMap Role} {seg : List Event}
    (h : IsCreateVaultRoles ro D seg) (r : String) (role : Role) :
    (calls seg).count (.CreateRole r role) = if D.get? r = some role then 1 else 0 := by
  rw [h, count_createRole_calls]

/-- C1: in one pass of `initServiceAccounts` whose `GetConfigMapData` call
returned `data` and whose `ListRoles` call returned the list `O`, both without
error, with `D = newVaultRoles(data)`: `DeleteRole(r)` is issued once per
occurrence of `r` in `O` when `r` is not a key of `D` and never when `r` is a key
of `D`; `CreateRole(r, role)` is issued exactly once when `D[r] = role` and never
otherwise. -/
theorem initServiceAccounts_roles_deleted_and_created (a : Auth σ) (ro : RangeOrder)
    (unmarshal : String → Role × GoError) (s : σ) (data : GoMap String) (O : List String)
    (hdata : ⟨.GetConfigMapData vaultAuthConfigNamespace vaultAuthConfigMap, .data data none⟩
      ∈ a.pass ro unmarshal s)
    (hlist : ⟨.ListRoles, .names O none⟩ ∈ a.pass ro unmarshal s) :
    (∀ r, (calls (a.pass ro unmarshal s)).count (.DeleteRole r)
      = if (newVaultRoles ro unmarshal data).contains r then 0 else O.count r) ∧
    (∀ r, Call.DeleteRole r ∈ calls (a.pass ro unmarshal s)
      ↔ r ∈ O ∧ r ∉ (newVaultRoles ro unmarshal data).keys) ∧
    (∀ r role, (calls (a.pass ro unmarshal s)).count (.CreateRole r role)
      = if (newVaultRoles ro unmarshal data).get? r = some role then 1 else 0) := by
  obtain ⟨data', err', rest, hp, _, h1, h2⟩ := pass_trace a ro unmarshal s
  rw [hp] at hdata hlist ⊢
  have hcfg : data' = data ∧ err' = none := by
    cases err' with
    | some e =>
      rw [h1 rfl] at hdata
      simp at hdata
    | none =>
      obtain ⟨s1, s2, s3, s4, rfl, p1, p2, p3, p4⟩ := h2 rfl
      have := (mem_pass_of_method p1 p2 p3 p4
        ⟨.GetConfigMapData vaultAuthConfigNamespace vaultAuthConfigMap, .data data' none⟩ rfl _ hdata).2.1 rfl
      cases this
      exact ⟨rfl, rfl⟩
  obtain ⟨rfl, rfl⟩ := hcfg
  obtain ⟨s1, s2, s3, s4, rfl, p1, p2, p3, p4⟩ := h2 rfl
  have hl2 := (mem_pass_of_method p1 p2 p3 p4
    ⟨.GetConfigMapData vaultAuthConfigNamespace vaultAuthConfigMap, .data data' none⟩ rfl _ hlist).1 (Or.inl rfl)
  have hcount : ∀ r, (calls ((⟨.GetConfigMapData vaultAuthConfigNamespace vaultAuthConfigMap,
      .data data' none⟩ : Event) :: (s1 ++ (s2 ++ (s3 ++ s4))))).count (.DeleteRole r)
      = if (newVaultRoles ro unmarshal data').contains r then 0 else O.count r := by
    intro r
    rw [(count_pass_of_method p1 p2 p3 p4
      ⟨.GetConfigMapData vaultAuthConfigNamespace vaultAuthConfigMap, .data data' none⟩ rfl (.DeleteRole r)).1 (Or.inr rfl),
      count_deleteRole_of_listing p2 O none hl2 r]
    simp
  refine ⟨hcount, ?_, ?_⟩
  · intro r
    rw [← List.count_pos_iff, hcount r, ← GoMap.contains_iff]
    by_cases hD : (newVaultRoles ro unmarshal data').contains r = true
    · simp [hD]
    · simp only [hD, Bool.false_eq_true, if_false, not_false_eq_true, and_true]
      exact List.count_pos_iff
  · intro r role
    rw [(count_pass_of_method p1 p2 p3 p4
      ⟨.GetConfigMapData vaultAuthConfigNamespace vaultAuthConfigMap, .data data' none⟩ rfl (.CreateRole r role)).2.1 rfl,
      count_createRole p4 r role]

set_option maxRecDepth 100000 in
/-- Witness for C1: the first case of `TestAuth_initServiceAccounts`, where the
store lists `role1` and `role3`. -/
theorem initServiceAccounts_roles_deleted_and_created_witness :
    Call.DeleteRole "role3" ∈ calls (exampleAuth.pass RangeOrder.stored exampleUnmarshal ())
      ↔ "role3" ∈ ["role1", "role3"] ∧
        "role3" ∉ (newVaultRoles RangeOrder.stored exampleUnmarshal exampleConfigMapData).keys :=
  (initServiceAccounts_roles_deleted_and_created exampleAuth RangeOrder.stored exampleUnmarshal ()
    exampleConfigMapData ["role1", "role3"] (by decide) (by decide)).2.1 "role3"

/-- C6: a pass never deletes on the basis of a failed observation. If
`GetConfigMapData` returns an error, the pass consists of that call alone. If the
first `GetNamespaces` call of the pass, the one `deleteServiceAccounts` makes,
returned an error, the pass issues no `DeleteServiceAccount`. If the `ListRoles`
call returned an error, the pass issues no `DeleteRole`. -/
theorem initServiceAccounts_no_delete_after_failed_observation (a : Auth σ) (ro : RangeOrder)
    (unmarshal : String → Role × GoError) (s : σ) :
    (∀ data err,
      (a.k8sClient.GetConfigMapData vaultAuthConfigNamespace vaultAuthConfigMap s).1
        = (data, some err) →
      a.pass ro unmarshal s
        = [⟨.GetConfigMapData vaultAuthConfigNamespace vaultAuthConfigMap,
            .data data (some err)⟩]) ∧
    (∀ namespaces err,
      (a.pass ro unmarshal s).find? (fun e => e.call = .GetNamespaces)
        = some ⟨.GetNamespaces, .names namespaces (some err)⟩ →
      ∀ ns sa, Call.DeleteServiceAccount ns sa ∉ calls (a.pass ro unmarshal s)) ∧
    (∀ listed err, ⟨.ListRoles, .names listed (some err)⟩ ∈ a.pass ro unmarshal s →
      ∀ r, Call.DeleteRole r ∉ calls (a.pass ro unmarshal s)) := by
  obtain ⟨data', err', rest, hp, hv, h1, h2⟩ := pass_trace a ro unmarshal s
  rw [hp]
  refine ⟨?_, ?_, ?_⟩
  · intro data err h
    rw [h] at hv
    cases hv
    rw [h1 rfl]
  · intro namespaces err hfind ns sa hdel
    cases err' with
    | some e =>
      rw [h1 rfl] at hfind
      simp [List.find?_cons] at hfind
    | none =>
      obtain ⟨s1, s2, s3, s4, rfl, p1, p2, p3, p4⟩ := h2 rfl
      have hc := (count_pass_of_method p1 p2 p3 p4
        ⟨.GetConfigMapData vaultAuthConfigNamespace vaultAuthConfigMap, .data data' none⟩ rfl
        (.DeleteServiceAccount ns sa)).2.2.1 (Or.inr rfl)
      have hpos := List.count_pos_iff.mpr hdel
      rw [hc] at hpos
      have hmem := List.count_pos_iff.mp hpos
      obtain ⟨namespaces', err1, sweeps, rfl, q1, q2⟩ := p1
      simp only [List.find?_cons, List.cons_append, decide_True, decide_False] at hfind
      have he : err1 = some err := by
        have : (⟨.GetNamespaces, .names namespaces' err1⟩ : Event)
            = ⟨.GetNamespaces, .names namespaces (some err)⟩ := by
          simpa using hfind
        cases this
        rfl
      subst he
      rw [q1 rfl] at hmem
      simp [calls] at hmem
  · intro listed err hl r hdel
    cases err' with
    | some e =>
      rw [h1 rfl] at hl
      simp at hl
    | none =>
      obtain ⟨s1, s2, s3, s4, rfl, p1, p2, p3, p4⟩ := h2 rfl
      have hl2 := (mem_pass_of_method p1 p2 p3 p4
        ⟨.GetConfigMapData vaultAuthConfigNamespace vaultAuthConfigMap, .data data' none⟩ rfl _ hl).1 (Or.inl rfl)
      have hpos := List.count_pos_iff.mpr hdel
      rw [(count_pass_of_method p1 p2 p3 p4
      ⟨.GetConfigMapData vaultAuthConfigNamespace vaultAuthConfigMap, .data data' none⟩ rfl (.DeleteRole r)).1 (Or.inr rfl),
        count_deleteRole_of_listing p2 listed (some err) hl2 r] at hpos
      simp at hpos

set_option maxRecDepth 100000 in
/-- Witness for C6: with a failing `ListRoles`, `role3` is not deleted. -/
theorem initServiceAccounts_no_delete_after_failed_observation_witness :
    Call.DeleteRole "role3" ∉
      calls (exampleAuthListRolesFails.pass RangeOrder.stored exampleUnmarshal ()) :=
  (initServiceAccounts_no_delete_after_failed_observation exampleAuthListRolesFails
    RangeOrder.stored exampleUnmarshal ()).2.2 [] "failed to list roles" (by decide) "role3"

end Pass

/-! ## Per-item failures -/

section Failures

variable {σ : Type}

theorem observations_append (t1 t2 : List Event) :
    observations (t1 ++ t2) = observations t1 ++ observations t2 := by
  simp [observations]

theorem observations_eq_nil {t : List Event}
    (h : ∀ c ∈ calls t, c.method = 2 ∨ c.method = 3 ∨ c.method = 7 ∨ c.method = 8) :
    observations t = [] := by
  unfold observations
  rw [List.filter_eq_nil_iff]
  intro e he
  have := h e.call (mem_calls_of_mem he)
  unfold isObservation
  rcases this with h | h | h | h <;> simp [h]

theorem sweep_summary {R : GoMap (GoMap Unit)} {ann : GoMap String} {ns : String}
    {seg : List Event} (h : IsSweep R ann ns seg) :
    ∃ e : Event, e.call.method = 6 ∧ observations seg = [e] ∧ calls seg = sweepExpand R e := by
  obtain ⟨listed, err, dels, rfl, hd⟩ := h
  refine ⟨⟨.GetServiceAccounts ns ann, .names listed err⟩, rfl, ?_, ?_⟩
  · have : observations dels = [] := observations_eq_nil (fun c hc =>
      Or.inr (Or.inr (Or.inl (methods_sweepCalls R ns listed err c (hd ▸ hc)))))
    simp only [observations] at this
    simp [observations, List.filter_cons, isObservation, Call.method, this]
  · rw [calls_cons, hd]
    rfl

theorem sweeps_summary {R : GoMap (GoMap Unit)} {ann : GoMap String} {namespaces : List String}
    {sweeps : List (List Event)} (h : List.Forall₂ (IsSweep R ann) namespaces sweeps) :
    ∃ sas : List Event, (∀ e ∈ sas, e.call.method = 6) ∧ observations sweeps.flatten = sas ∧
      calls sweeps.flatten = sas.flatMap (sweepExpand R) := by
  induction h with
  | nil => exact ⟨[], by simp, rfl, rfl⟩
  | cons h1 _ ih =>
    obtain ⟨e, he, ho, hc⟩ := sweep_summary h1
    obtain ⟨sas, hs, hos, hcs⟩ := ih
    refine ⟨e :: sas, ?_, ?_, ?_⟩
    · intro x hx
      rcases List.mem_cons.mp hx with rfl | hx
      · exact he
      · exact hs x hx
    · rw [List.flatten_cons, observations_append, ho, hos]
      rfl
    · rw [List.flatten_cons, calls_append, hc, hcs, List.flatMap_cons]

theorem deleteServiceAccounts_summary {R : GoMap (GoMap Unit)} {ann : GoMap String}
    {seg : List Event} (h : IsDeleteServiceAccounts R ann seg) :
    ∃ (gn : Event) (sas : List Event), gn.call = .GetNamespaces ∧
      (∀ e ∈ sas, e.call.method = 6) ∧
      observations seg = gn :: sas ∧
      calls seg = .GetNamespaces :: sas.flatMap (sweepExpand R) := by
  obtain ⟨namespaces, err, sweeps, rfl, h1, h2⟩ := h
  cases err with
  | some e =>
    rw [h1 rfl]
    exact ⟨_, [], rfl, by simp, rfl, rfl⟩
  | none =>
    obtain ⟨sas, hs, hos, hcs⟩ := sweeps_summary (h2 rfl)
    refine ⟨⟨.GetNamespaces, .names namespaces none⟩, sas, rfl, hs, ?_, ?_⟩
    · rw [← hos]
      simp [observations, List.filter_cons, isObservation, Call.method]
    · rw [calls_cons, hcs]

theorem deleteVaultRoles_summary {D : GoMap Role} {seg : List Event}
    (h : IsDeleteVaultRoles D seg) :
    ∃ (listed : List String) (err : GoError),
      observations seg = [⟨.ListRoles, .names listed err⟩] ∧
      calls seg = .ListRoles :: (if err.isSome then []
        else (listed.filter (fun r => !D.contains r)).map Call.DeleteRole) := by
  have hm := methods_deleteVaultRoles h
  obtain ⟨listed, err, dels, rfl, hd⟩ := h
  refine ⟨listed, err, ?_, by rw [calls_cons, hd]⟩
  have : observations dels = [] := observations_eq_nil (fun c hc => by
    rw [hd] at hc
    split at hc
    · simp at hc
    · obtain ⟨r, _, rfl⟩ := List.mem_map.mp hc
      exact Or.inl rfl)
  simp only [observations] at this
  simp [observations, List.filter_cons, isObservation, Call.method, this]

theorem createServiceAccounts_summary {ro : RangeOrder} {R : GoMap (GoMap Unit)}
    {seg : List Event} (h : IsCreateServiceAccounts ro R seg) :
    ∃ (namespaces : List String) (err : GoError),
      observations seg = [⟨.GetNamespaces, .names namespaces err⟩] ∧
      calls seg = .GetNamespaces :: createServiceAccountCalls ro R namespaces := by
  obtain ⟨namespaces, err, creates, rfl, hd⟩ := h
  refine ⟨namespaces, err, ?_, by rw [calls_cons, hd]⟩
  have : observations creates = [] := observations_eq_nil (fun c hc =>
    Or.inr (Or.inr (Or.inr (methods_createServiceAccountCalls ro R namespaces c (hd ▸ hc)))))
  simp only [observations] at this
  simp [observations, List.filter_cons, isObservation, Call.method, this]

theorem createVaultRoles_summary {ro : RangeOrder} {D : GoMap Role} {seg : List Event}
    (h : IsCreateVaultRoles ro D seg) : observations seg = [] :=
  observations_eq_nil (fun c hc => Or.inr (Or.inl (methods_createVaultRoles h c hc)))

/-- The observations of a pass and the calls they determine. -/
theorem pass_summary (a : Auth σ) (ro : RangeOrder) (unmarshal : String → Role × GoError)
    (s : σ) :
    ∃ (data : GoMap String) (err : GoError),
      (err.isSome = true →
        observations (a.pass ro unmarshal s)
          = [⟨.GetConfigMapData vaultAuthConfigNamespace vaultAuthConfigMap, .data data err⟩] ∧
        calls (a.pass ro unmarshal s)
          = [.GetConfigMapData vaultAuthConfigNamespace vaultAuthConfigMap]) ∧
      (err = none → ∃ (gn : Event) (sas : List Event) (listed : List String) (lerr : GoError)
          (namespaces : List String) (nerr : GoError),
        gn.call = .GetNamespaces ∧
        observations (a.pass ro unmarshal s)
          = ⟨.GetConfigMapData vaultAuthConfigNamespace vaultAuthConfigMap, .data data none⟩
            :: gn :: (sas ++ [⟨.ListRoles, .names listed lerr⟩,
                ⟨.GetNamespaces, .names namespaces nerr⟩]) ∧
        calls (a.pass ro unmarshal s)
          = .GetConfigMapData vaultAuthConfigNamespace vaultAuthConfigMap
            :: ((.GetNamespaces :: sas.flatMap (sweepExpand
                  (getServiceAccountsSetByNamespace ro (newVaultRoles ro unmarshal data))))
              ++ ((.ListRoles :: (if lerr.isSome then []
                    else (listed.filter
                      (fun r => !(newVaultRoles ro unmarshal data).contains r)).map
                        Call.DeleteRole))
              ++ ((.GetNamespaces :: createServiceAccountCalls ro
                    (getServiceAccountsSetByNamespace ro (newVaultRoles ro unmarshal data))
                    namespaces)
              ++ (ro.visit 4 (newVaultRoles ro unmarshal data).entries).map
                    (fun entry => Call.CreateRole entry.1 entry.2))))) := by
  obtain ⟨data, err, rest, hp, _, h1, h2⟩ := pass_trace a ro unmarshal s
  refine ⟨data, err, ?_, ?_⟩
  · intro h
    rw [hp, h1 h]
    exact ⟨rfl, rfl⟩
  · rintro rfl
    obtain ⟨s1, s2, s3, s4, rfl, p1, p2, p3, p4⟩ := h2 rfl
    obtain ⟨gn, sas, hgn, _, o1, c1⟩ := deleteServiceAccounts_summary p1
    obtain ⟨listed, lerr, o2, c2⟩ := deleteVaultRoles_summary p2
    obtain ⟨namespaces, nerr, o3, c3⟩ := createServiceAccounts_summary p3
    have o4 := createVaultRoles_summary p4
    refine ⟨gn, sas, listed, lerr, namespaces, nerr, hgn, ?_, ?_⟩
    · rw [hp]
      have : observations ((⟨.GetConfigMapData vaultAuthConfigNamespace vaultAuthConfigMap,
          .data data none⟩ : Event) :: (s1 ++ (s2 ++ (s3 ++ s4))))
          = ⟨.GetConfigMapData vaultAuthConfigNamespace vaultAuthConfigMap, .data data none⟩
            :: observations (s1 ++ (s2 ++ (s3 ++ s4))) := by
        simp [observations, List.filter_cons, isObservation, Call.method]
      rw [this, observations_append, observations_append, observations_append, o1, o2, o3, o4]
      simp
    · rw [hp, calls_cons, calls_append, calls_append, calls_append, c1, c2, c3, p4]

/-- C5: per-item failures never abort a pass. Two passes over the same range
order and decoder, run against any two collaborator pairs in any two states,
that receive the same replies to their `GetConfigMapData`, `GetNamespaces`,
`GetServiceAccounts` and `ListRoles` calls issue the same sequence of calls, hence
the same `DeleteServiceAccount`, `DeleteRole`, `CreateServiceAccount` and
`CreateRole` calls, whatever the individual create and delete calls return. -/
theorem initServiceAccounts_calls_do_not_depend_on_item_failures {σ₁ σ₂ : Type}
    (a₁ : Auth σ₁) (a₂ : Auth σ₂) (ro : RangeOrder) (unmarshal : String → Role × GoError)
    (s₁ : σ₁) (s₂ : σ₂)
    (h : observations (a₁.pass ro unmarshal s₁) = observations (a₂.pass ro unmarshal s₂)) :
    calls (a₁.pass ro unmarshal s₁) = calls (a₂.pass ro unmarshal s₂) := by
  obtain ⟨data1, err1, f1, g1⟩ := pass_summary a₁ ro unmarshal s₁
  obtain ⟨data2, err2, f2, g2⟩ := pass_summary a₂ ro unmarshal s₂
  cases err1 with
  | some e1 =>
    obtain ⟨o1, c1⟩ := f1 rfl
    cases err2 with
    | some e2 =>
      obtain ⟨o2, c2⟩ := f2 rfl
      rw [c1, c2]
    | none =>
      obtain ⟨gn, sas, listed, lerr, namespaces, nerr, _, o2, _⟩ := g2 rfl
      rw [o1, o2] at h
      simp at h
  | none =>
    obtain ⟨gn, sas, listed, lerr, namespaces, nerr, _, o1, c1⟩ := g1 rfl
    cases err2 with
    | some e2 =>
      obtain ⟨o2, c2⟩ := f2 rfl
      rw [o1, o2] at h
      simp at h
    | none =>
      obtain ⟨gn', sas', listed', lerr', namespaces', nerr', _, o2, c2⟩ := g2 rfl
      rw [o1, o2] at h
      have hd : data1 = data2 := by
        have := (List.cons.inj h).1
        cases this
        rfl
      have ht := (List.cons.inj (List.cons.inj h).2).2
      obtain ⟨hs, hl⟩ := List.append_inj' ht rfl
      subst hd
      subst hs
      have e1 := (List.cons.inj hl).1
      have e2 := (List.cons.inj (List.cons.inj hl).2).1
      cases e1
      cases e2
      rw [c1, c2]

set_option maxRecDepth 100000 in
/-- Witness for C5: the collaborators of the first case of
`TestAuth_initServiceAccounts`, once with every create and delete succeeding and
once with every one of them failing. -/
theorem initServiceAccounts_calls_do_not_depend_on_item_failures_witness :
    calls (exampleAuth.pass RangeOrder.stored exampleUnmarshal ())
      = calls (exampleAuthFailing.pass RangeOrder.stored exampleUnmarshal ()) :=
  initServiceAccounts_calls_do_not_depend_on_item_failures exampleAuth exampleAuthFailing
    RangeOrder.stored exampleUnmarshal () () (by decide)

end Failures

/-! ## The desired roles and the requirement do not depend on the range order -/

section RangeOrderFree

theorem find_of_perm {V : Type} (m : GoMap V) (l : List (String × V)) (h : l.Perm m.entries)
    (k : String) : (l.find? (fun p => p.1 = k)).map Prod.snd = m.get? k := by
  have hnd : (l.map Prod.fst).Nodup := (h.map Prod.fst).nodup_iff.mpr m.nodupKeys
  have e : (l.find? (fun p => p.1 = k)).map Prod.snd = (GoMap.mk l hnd).get? k := rfl
  rw [e]
  apply Option.ext
  intro v
  rw [Option.mem_def, Option.mem_def, GoMap.get?_eq_some_iff, GoMap.get?_eq_some_iff]
  exact h.mem_iff

theorem foldl_newVaultRoles (unmarshal : String → Role × GoError) (l : List (String × String))
    (hnd : (l.map Prod.fst).Nodup) (acc : GoMap Role) (k : String) :
    (l.foldl
      (fun roles entry =>
        match NewRole unmarshal entry.2 with
        | (_, some _) => roles
        | (role, none) => roles.set entry.1 role) acc).get? k
      = match ((l.find? (fun p => p.1 = k)).map Prod.snd).bind (acceptedRole unmarshal) with
        | some role => some role
        | none => acc.get? k := by
  induction l generalizing acc with
  | nil => rfl
  | cons p l ih =>
    have hnd' : (l.map Prod.fst).Nodup := (List.nodup_cons.mp hnd).2
    have hp : p.1 ∉ l.map Prod.fst := (List.nodup_cons.mp hnd).1
    rw [List.foldl_cons, ih hnd']
    by_cases hk : p.1 = k
    · have hnone : l.find? (fun q => decide (q.1 = k)) = none := by
        rw [List.find?_eq_none]
        intro q hq hqk
        exact hp (List.mem_map.mpr ⟨q, hq, by rw [hk]; simpa using hqk⟩)
      simp only [hnone, List.find?_cons, hk, decide_True, Option.map_none', Option.map_some',
        Option.none_bind, Option.some_bind]
      unfold acceptedRole
      rcases hN : NewRole unmarshal p.2 with ⟨role, _ | err⟩
      · simp [GoMap.get?_set, hk]
      · simp
    · have hstep : (match NewRole unmarshal p.2 with
          | (_, some _) => acc
          | (role, none) => acc.set p.1 role).get? k = acc.get? k := by
        rcases hN : NewRole unmarshal p.2 with ⟨role, _ | err⟩
        · simp only
          rw [GoMap.get?_set, if_neg (fun e => hk e.symm)]
        · rfl
      simp only [List.find?_cons, hk, decide_False, hstep]

/-- `newVaultRoles` keeps exactly the entries that `NewRole` accepts, whatever
the range order. -/
theorem newVaultRoles_get? (ro : RangeOrder) (unmarshal : String → Role × GoError)
    (data : GoMap String) (k : String) :
    (newVaultRoles ro unmarshal data).get? k = (data.get? k).bind (acceptedRole unmarshal) := by
  unfold newVaultRoles
  rw [foldl_newVaultRoles unmarshal _
    (((ro.perm 1 data.entries).map Prod.fst).nodup_iff.mpr data.nodupKeys),
    find_of_perm data _ (ro.perm 1 data.entries)]
  cases (data.get? k).bind (acceptedRole unmarshal) <;> rfl

theorem isRequired_set (M : GoMap (GoMap Unit)) (ns0 ns sa : String) (set : GoMap Unit) :
    isRequired (M.set ns0 set) ns sa
      = if ns = ns0 then set.contains sa else isRequired M ns sa := by
  unfold isRequired
  rw [GoMap.get?_set]
  by_cases h : ns = ns0 <;> simp [h]

theorem isRequired_of_not_contains (M : GoMap (GoMap Unit)) (ns sa : String)
    (h : M.contains ns = false) : isRequired M ns sa = false := by
  unfold isRequired
  unfold GoMap.contains at h
  cases hM : M.get? ns with
  | none => rfl
  | some set => rw [hM] at h; cases h

theorem foldl_names (ns0 : String) (names : List String) (M : GoMap (GoMap Unit))
    (ns sa : String) :
    (isRequired (names.foldl
      (fun serviceAccountsByNamespace serviceAccount =>
        serviceAccountsByNamespace.set ns0
          (((serviceAccountsByNamespace.get? ns0).getD GoMap.empty).set serviceAccount ()))
      M) ns sa = true ↔ isRequired M ns sa = true ∨ (ns = ns0 ∧ sa ∈ names)) ∧
    ((names.foldl
      (fun serviceAccountsByNamespace serviceAccount =>
        serviceAccountsByNamespace.set ns0
          (((serviceAccountsByNamespace.get? ns0).getD GoMap.empty).set serviceAccount ()))
      M).contains ns = true ↔ M.contains ns = true ∨ (ns = ns0 ∧ names ≠ [])) := by
  induction names generalizing M with
  | nil => simp
  | cons x xs ih =>
    rw [List.foldl_cons]
    obtain ⟨h1, h2⟩ := ih (M.set ns0 (((M.get? ns0).getD GoMap.empty).set x ()))
    constructor
    · rw [h1, isRequired_set]
      by_cases e : ns = ns0
      · subst e
        simp only [if_true, GoMap.contains_set, true_and, List.mem_cons, Bool.or_eq_true,
          decide_eq_true_eq, ← isRequired_eq_contains]
        constructor
        · rintro ((h | h) | h)
          · exact Or.inr (Or.inl h)
          · exact Or.inl h
          · exact Or.inr (Or.inr h)
        · rintro (h | h | h)
          · exact Or.inl (Or.inr h)
          · exact Or.inl (Or.inl h)
          · exact Or.inr h
      · simp [e]
    · rw [h2, GoMap.contains_set]
      by_cases e : ns = ns0
      · simp [e]
      · simp [e]

theorem foldl_namespaces (names namespaces : List String) (M : GoMap (GoMap Unit))
    (ns sa : String) :
    (isRequired (namespaces.foldl
      (fun serviceAccountsByNamespace ns =>
        let serviceAccountsByNamespace :=
          if serviceAccountsByNamespace.contains ns then serviceAccountsByNamespace
          else serviceAccountsByNamespace.set ns GoMap.empty
        names.foldl
          (fun serviceAccountsByNamespace serviceAccount =>
            serviceAccountsByNamespace.set ns
              (((serviceAccountsByNamespace.get? ns).getD GoMap.empty).set serviceAccount ()))
          serviceAccountsByNamespace)
      M) ns sa = true ↔ isRequired M ns sa = true ∨ (ns ∈ namespaces ∧ sa ∈ names)) ∧
    ((namespaces.foldl
      (fun serviceAccountsByNamespace ns =>
        let serviceAccountsByNamespace :=
          if serviceAccountsByNamespace.contains ns then serviceAccountsByNamespace
          else serviceAccountsByNamespace.set ns GoMap.empty
        names.foldl
          (fun serviceAccountsByNamespace serviceAccount =>
            serviceAccountsByNamespace.set ns
              (((serviceAccountsByNamespace.get? ns).getD GoMap.empty).set serviceAccount ()))
          serviceAccountsByNamespace)
      M).contains ns = true ↔ M.contains ns = true ∨ ns ∈ namespaces) := by
  induction namespaces generalizing M with
  | nil => simp
  | cons x xs ih =>
    rw [List.foldl_cons]
    simp only
    generalize hM1 : (if M.contains x = true then M else M.set x GoMap.empty) = M1
    have r1 : ∀ n s, isRequired M1 n s = isRequired M n s := by
      intro n s
      rw [← hM1]
      by_cases hc : M.contains x = true
      · simp [hc]
      · simp only [hc, Bool.false_eq_true, if_false]
        rw [isRequired_set]
        by_cases e : n = x
        · subst e
          rw [if_pos rfl, isRequired_of_not_contains M n s (by simpa using hc)]
          rfl
        · rw [if_neg e]
    have c1 : ∀ n, (M1.contains n = true ↔ M.contains n = true ∨ n = x) := by
      intro n
      rw [← hM1]
      by_cases hc : M.contains x = true
      · simp only [hc, if_true]
        constructor
        · exact Or.inl
        · rintro (h | h)
          · exact h
          · rw [h]; exact hc
      · simp only [hc, Bool.false_eq_true, if_false, GoMap.contains_set, Bool.or_eq_true,
          decide_eq_true_eq]
        exact or_comm
    obtain ⟨h1, h2⟩ := ih (names.foldl
      (fun serviceAccountsByNamespace serviceAccount =>
        serviceAccountsByNamespace.set x
          (((serviceAccountsByNamespace.get? x).getD GoMap.empty).set serviceAccount ())) M1)
    obtain ⟨g1, g2⟩ := foldl_names x names M1 ns sa
    rw [h1, h2, g1, g2, r1, c1]
    constructor
    · simp only [List.mem_cons]
      constructor
      · rintro ((h | ⟨h, h'⟩) | ⟨h, h'⟩)
        · exact Or.inl h
        · exact Or.inr ⟨Or.inl h, h'⟩
        · exact Or.inr ⟨Or.inr h, h'⟩
      · rintro (h | ⟨h | h, h'⟩)
        · exact Or.inl (Or.inl h)
        · exact Or.inl (Or.inr ⟨h, h'⟩)
        · exact Or.inr ⟨h, h'⟩
    · simp only [List.mem_cons]
      constructor
      · rintro (((h | h) | ⟨h, _⟩) | h)
        · exact Or.inl h
        · exact Or.inr (Or.inl h)
        · exact Or.inr (Or.inl h)
        · exact Or.inr (Or.inr h)
      · rintro (h | h | h)
        · exact Or.inl (Or.inl (Or.inl h))
        · exact Or.inl (Or.inl (Or.inr h))
        · exact Or.inr h

theorem foldl_roles (l : List (String × Role)) (M : GoMap (GoMap Unit)) (ns sa : String) :
    (isRequired (l.foldl
      (fun serviceAccountsByNamespace entry =>
        entry.2.BoundServiceAccountNamespaces.elems.foldl
          (fun serviceAccountsByNamespace ns =>
            let serviceAccountsByNamespace :=
              if serviceAccountsByNamespace.contains ns then serviceAccountsByNamespace
              else serviceAccountsByNamespace.set ns GoMap.empty
            entry.2.BoundServiceAccountNames.elems.foldl
              (fun serviceAccountsByNamespace serviceAccount =>
                serviceAccountsByNamespace.set ns
                  (((serviceAccountsByNamespace.get? ns).getD GoMap.empty).set serviceAccount ()))
              serviceAccountsByNamespace)
          serviceAccountsByNamespace)
      M) ns sa = true ↔ isRequired M ns sa = true ∨
        ∃ p ∈ l, ns ∈ p.2.BoundServiceAccountNamespaces.elems ∧
          sa ∈ p.2.BoundServiceAccountNames.elems) ∧
    ((l.foldl
      (fun serviceAccountsByNamespace entry =>
        entry.2.BoundServiceAccountNamespaces.elems.foldl
          (fun serviceAccountsByNamespace ns =>
            let serviceAccountsByNamespace :=
              if serviceAccountsByNamespace.contains ns then serviceAccountsByNamespace
              else serviceAccountsByNamespace.set ns GoMap.empty
            entry.2.BoundServiceAccountNames.elems.foldl
              (fun serviceAccountsByNamespace serviceAccount =>
                serviceAccountsByNamespace.set ns
                  (((serviceAccountsByNamespace.get? ns).getD GoMap.empty).set serviceAccount ()))
              serviceAccountsByNamespace)
          serviceAccountsByNamespace)
      M).contains ns = true ↔ M.contains ns = true ∨
        ∃ p ∈ l, ns ∈ p.2.BoundServiceAccountNamespaces.elems) := by
  induction l generalizing M with
  | nil => simp
  | cons x xs ih =>
    rw [List.foldl_cons]
    obtain ⟨h1, h2⟩ := ih (x.2.BoundServiceAccountNamespaces.elems.foldl
      (fun serviceAccountsByNamespace ns =>
        let serviceAccountsByNamespace :=
          if serviceAccountsByNamespace.contains ns then serviceAccountsByNamespace
          else serviceAccountsByNamespace.set ns GoMap.empty
        x.2.BoundServiceAccountNames.elems.foldl
          (fun serviceAccountsByNamespace serviceAccount =>
            serviceAccountsByNamespace.set ns
              (((serviceAccountsByNamespace.get? ns).getD GoMap.empty).set serviceAccount ()))
          serviceAccountsByNamespace) M)
    obtain ⟨g1, g2⟩ := foldl_namespaces x.2.BoundServiceAccountNames.elems
      x.2.BoundServiceAccountNamespaces.elems M ns sa
    rw [h1, h2, g1, g2]
    simp only [List.mem_cons, exists_eq_or_imp]
    constructor
    · rw [or_assoc]
    · rw [or_assoc]

/-- The requirement derived from a role set: `sa` is required in `ns` exactly
when some role lists `ns` among its bound namespaces and `sa` among its bound
names; `ns` is a key exactly when some role lists it. The range order plays no
part. -/
theorem getServiceAccountsSetByNamespace_spec (ro : RangeOrder) (v : GoMap Role) (ns sa : String) :
    (isRequired (getServiceAccountsSetByNamespace ro v) ns sa = true ↔
      ∃ p ∈ v.entries, ns ∈ p.2.BoundServiceAccountNamespaces.elems ∧
        sa ∈ p.2.BoundServiceAccountNames.elems) ∧
    ((getServiceAccountsSetByNamespace ro v).contains ns = true ↔
      ∃ p ∈ v.entries, ns ∈ p.2.BoundServiceAccountNamespaces.elems) := by
  unfold getServiceAccountsSetByNamespace
  obtain ⟨h1, h2⟩ := foldl_roles (ro.visit 2 v.entries) GoMap.empty ns sa
  rw [h1, h2]
  have e1 : isRequired (GoMap.empty : GoMap (GoMap Unit)) ns sa = false := rfl
  have e2 : (GoMap.empty : GoMap (GoMap Unit)).contains ns = false := rfl
  simp only [e1, e2, Bool.false_eq_true, false_or, (ro.perm 2 v.entries).mem_iff]
  exact ⟨trivial, trivial⟩

theorem newVaultRoles_contains_congr (ro₁ ro₂ : RangeOrder) (unmarshal : String → Role × GoError)
    (data : GoMap String) (r : String) :
    (newVaultRoles ro₁ unmarshal data).contains r = (newVaultRoles ro₂ unmarshal data).contains r := by
  unfold GoMap.contains
  rw [newVaultRoles_get?, newVaultRoles_get?]

theorem newVaultRoles_mem_congr (ro₁ ro₂ : RangeOrder) (unmarshal : String → Role × GoError)
    (data : GoMap String) (p : String × Role) :
    p ∈ (newVaultRoles ro₁ unmarshal data).entries ↔
      p ∈ (newVaultRoles ro₂ unmarshal data).entries := by
  obtain ⟨k, v⟩ := p
  rw [← GoMap.get?_eq_some_iff, ← GoMap.get?_eq_some_iff, newVaultRoles_get?, newVaultRoles_get?]

theorem requirement_congr (ro₁ ro₂ : RangeOrder) (unmarshal : String → Role × GoError)
    (data : GoMap String) (ns sa : String) :
    isRequired (getServiceAccountsSetByNamespace ro₁ (newVaultRoles ro₁ unmarshal data)) ns sa
      = isRequired (getServiceAccountsSetByNamespace ro₂ (newVaultRoles ro₂ unmarshal data))
          ns sa := by
  rw [Bool.eq_iff_iff, (getServiceAccountsSetByNamespace_spec ro₁ _ ns sa).1,
    (getServiceAccountsSetByNamespace_spec ro₂ _ ns sa).1]
  simp only [newVaultRoles_mem_congr ro₁ ro₂ unmarshal data]

end RangeOrderFree

/-! ## Two consecutive passes over the idealised cluster and store -/

section TwoPasses

theorem World.Shrinks.shrinks_refl (s : World) : s.Shrinks s :=
  ⟨rfl, rfl, fun _ h => h, fun _ h => h⟩

theorem World.Shrinks.shrinks_trans {s1 s2 s3 : World} (h1 : s1.Shrinks s2) (h2 : s2.Shrinks s3) :
    s1.Shrinks s3 :=
  ⟨h2.1.trans h1.1, h2.2.1.trans h1.2.1, fun x hx => h1.2.2.1 x (h2.2.2.1 x hx),
    fun p hp => h1.2.2.2 p (h2.2.2.2 p hp)⟩

theorem World.NamespaceConverged.shrinks {R : GoMap (GoMap Unit)} {ns : String} {s s' : World}
    (h : s.NamespaceConverged R ns) (hs : s.Shrinks s') : s'.NamespaceConverged R ns :=
  fun x hx => h x (hs.2.2.1 x hx)

/-- The deletion loop over the accounts listed for `ns`, on the idealised
cluster: nothing is added, and no listed account of `ns` that is not required
survives. -/
theorem world_delete_listed (R : GoMap (GoMap Unit)) (ns : String) (l : List String)
    (w : Run World) :
    w.state.Shrinks (l.foldl
      (fun w k8sServiceAccount =>
        match R.get? ns with
        | none => (World.auth.DeleteServiceAccount ns k8sServiceAccount w).2
        | some serviceAccountsSet =>
          if serviceAccountsSet.contains k8sServiceAccount then w
          else (World.auth.DeleteServiceAccount ns k8sServiceAccount w).2) w).state ∧
    ∀ x ∈ (l.foldl
      (fun w k8sServiceAccount =>
        match R.get? ns with
        | none => (World.auth.DeleteServiceAccount ns k8sServiceAccount w).2
        | some serviceAccountsSet =>
          if serviceAccountsSet.contains k8sServiceAccount then w
          else (World.auth.DeleteServiceAccount ns k8sServiceAccount w).2) w).state.serviceAccounts,
      x.ns = ns → x.name ∈ l → isRequired R ns x.name = true := by
  induction l generalizing w with
  | nil => exact ⟨World.Shrinks.shrinks_refl _, fun x _ _ h => by simp at h⟩
  | cons sa l ih =>
    rw [List.foldl_cons]
    by_cases hreq : isRequired R ns sa = true
    · have hstep : (match R.get? ns with
          | none => (World.auth.DeleteServiceAccount ns sa w).2
          | some serviceAccountsSet =>
            if serviceAccountsSet.contains sa then w
            else (World.auth.DeleteServiceAccount ns sa w).2) = w := by
        unfold isRequired at hreq
        cases hR : R.get? ns with
        | none => rw [hR] at hreq; simp at hreq
        | some set => rw [hR] at hreq; simp only at hreq; simp [hreq]
      rw [hstep]
      obtain ⟨h1, h2⟩ := ih w
      refine ⟨h1, fun x hx hns hname => ?_⟩
      rcases List.mem_cons.mp hname with e | hname
      · rw [e]; exact hreq
      · exact h2 x hx hns hname
    · have hstep : (match R.get? ns with
          | none => (World.auth.DeleteServiceAccount ns sa w).2
          | some serviceAccountsSet =>
            if serviceAccountsSet.contains sa then w
            else (World.auth.DeleteServiceAccount ns sa w).2)
          = (World.auth.DeleteServiceAccount ns sa w).2 := by
        unfold isRequired at hreq
        cases hR : R.get? ns with
        | none => rfl
        | some set => rw [hR] at hreq; simp only at hreq; simp [hreq]
      rw [hstep]
      obtain ⟨h1, h2⟩ := ih (World.auth.DeleteServiceAccount ns sa w).2
      have hdel : w.state.Shrinks (World.auth.DeleteServiceAccount ns sa w).2.state :=
        ⟨rfl, rfl, fun x hx => (List.mem_filter.mp hx).1, fun _ h => h⟩
      refine ⟨hdel.shrinks_trans h1, fun x hx hns hname => ?_⟩
      rcases List.mem_cons.mp hname with e | hname
      · have hx1 := h1.2.2.1 x hx
        have : x ∈ w.state.serviceAccounts.filter
            (fun y => !(decide (y.ns = ns) && decide (y.name = sa))) := hx1
        rw [List.mem_filter] at this
        simp [hns, e] at this
      · exact h2 x hx hns hname

/-- The deletion loop changes nothing when every listed account is required. -/
theorem delete_listed_of_required {σ : Type} (a : Auth σ) (R : GoMap (GoMap Unit)) (ns : String)
    (l : List String) (w : Run σ) (h : ∀ sa ∈ l, isRequired R ns sa = true) :
    l.foldl
      (fun w k8sServiceAccount =>
        match R.get? ns with
        | none => (a.DeleteServiceAccount ns k8sServiceAccount w).2
        | some serviceAccountsSet =>
          if serviceAccountsSet.contains k8sServiceAccount then w
          else (a.DeleteServiceAccount ns k8sServiceAccount w).2) w = w := by
  induction l with
  | nil => rfl
  | cons sa l ih =>
    rw [List.foldl_cons]
    have hreq := h sa (List.mem_cons_self _ _)
    have hstep : (match R.get? ns with
        | none => (a.DeleteServiceAccount ns sa w).2
        | some serviceAccountsSet =>
          if serviceAccountsSet.contains sa then w
          else (a.DeleteServiceAccount ns sa w).2) = w := by
      unfold isRequired at hreq
      cases hR : R.get? ns with
      | none => rw [hR] at hreq; simp at hreq
      | some set => rw [hR] at hreq; simp only at hreq; simp [hreq]
    rw [hstep]
    exact ih (fun sa' hsa' => h sa' (List.mem_cons_of_mem _ hsa'))

theorem NoDelete.append {t : List Event} (h : NoDelete t) {seg : List Event}
    (hs : ∀ c ∈ calls seg, c.method ≠ 2 ∧ c.method ≠ 7) : NoDelete (t ++ seg) := by
  intro c hc
  rw [calls_append, List.mem_append] at hc
  rcases hc with hc | hc
  · exact h c hc
  · exact hs c hc

/-- One namespace of `deleteServiceAccounts` on the idealised cluster. -/
theorem world_sweep (R : GoMap (GoMap Unit)) (ns : String) (w : Run World) :
    w.state.Shrinks
      (let r := World.auth.GetServiceAccounts ns serviceAccountAnnotations w
        if r.1.2.isSome then r.2
        else
          r.1.1.foldl
            (fun w k8sServiceAccount =>
              match R.get? ns with
              | none => (World.auth.DeleteServiceAccount ns k8sServiceAccount w).2
              | some serviceAccountsSet =>
                if serviceAccountsSet.contains k8sServiceAccount then w
                else (World.auth.DeleteServiceAccount ns k8sServiceAccount w).2)
            r.2).state ∧
    World.NamespaceConverged R ns
      (let r := World.auth.GetServiceAccounts ns serviceAccountAnnotations w
        if r.1.2.isSome then r.2
        else
          r.1.1.foldl
            (fun w k8sServiceAccount =>
              match R.get? ns with
              | none => (World.auth.DeleteServiceAccount ns k8sServiceAccount w).2
              | some serviceAccountsSet =>
                if serviceAccountsSet.contains k8sServiceAccount then w
                else (World.auth.DeleteServiceAccount ns k8sServiceAccount w).2)
            r.2).state ∧
    (w.state.NamespaceConverged R ns → NoDelete w.trace →
      (let r := World.auth.GetServiceAccounts ns serviceAccountAnnotations w
        if r.1.2.isSome then r.2
        else
          r.1.1.foldl
            (fun w k8sServiceAccount =>
              match R.get? ns with
              | none => (World.auth.DeleteServiceAccount ns k8sServiceAccount w).2
              | some serviceAccountsSet =>
                if serviceAccountsSet.contains k8sServiceAccount then w
                else (World.auth.DeleteServiceAccount ns k8sServiceAccount w).2)
            r.2).state = w.state ∧
      NoDelete
        (let r := World.auth.GetServiceAccounts ns serviceAccountAnnotations w
          if r.1.2.isSome then r.2
          else
            r.1.1.foldl
              (fun w k8sServiceAccount =>
                match R.get? ns with
                | none => (World.auth.DeleteServiceAccount ns k8sServiceAccount w).2
                | some serviceAccountsSet =>
                  if serviceAccountsSet.contains k8sServiceAccount then w
                  else (World.auth.DeleteServiceAccount ns k8sServiceAccount w).2)
              r.2).trace) := by
  have herr : (World.auth.GetServiceAccounts ns serviceAccountAnnotations w).1.2.isSome = false :=
    rfl
  have hstate : (World.auth.GetServiceAccounts ns serviceAccountAnnotations w).2.state = w.state :=
    rfl
  have hlisted : (World.auth.GetServiceAccounts ns serviceAccountAnnotations w).1.1
      = (w.state.serviceAccounts.filter
          (fun sa => sa.ns = ns && sa.carries serviceAccountAnnotations)).map
          ServiceAccount.name := rfl
  simp only [herr, Bool.false_eq_true, if_false]
  obtain ⟨h1, h2⟩ := world_delete_listed R ns
    (World.auth.GetServiceAccounts ns serviceAccountAnnotations w).1.1
    (World.auth.GetServiceAccounts ns serviceAccountAnnotations w).2
  rw [hstate] at h1
  refine ⟨h1, ?_, ?_⟩
  · intro x hx hns hc
    apply h2 x hx hns
    rw [hlisted, List.mem_map]
    exact ⟨x, List.mem_filter.mpr ⟨h1.2.2.1 x hx, by simp [hns, hc]⟩, rfl⟩
  · intro hconv hnd
    have hall : ∀ sa ∈ (World.auth.GetServiceAccounts ns serviceAccountAnnotations w).1.1,
        isRequired R ns sa = true := by
      intro sa hsa
      rw [hlisted, List.mem_map] at hsa
      obtain ⟨x, hx, rfl⟩ := hsa
      rw [List.mem_filter] at hx
      have hx2 : x.ns = ns ∧ x.carries serviceAccountAnnotations = true := by
        simpa using hx.2
      exact hconv x hx.1 hx2.1 hx2.2
    rw [delete_listed_of_required World.auth R ns _ _ hall]
    refine ⟨hstate, ?_⟩
    rw [GetServiceAccounts_trace]
    exact hnd.append (fun c hc => by
      simp only [calls, List.map_cons, List.map_nil, List.mem_singleton] at hc
      subst hc
      exact ⟨by simp [Call.method], by simp [Call.method]⟩)

theorem deleteServiceAccounts_eq_sweeps {σ : Type} (a : Auth σ) (R : GoMap (GoMap Unit))
    (ann : GoMap String) (w : Run σ) :
    a.deleteServiceAccounts R ann w =
      if (a.GetNamespaces w).1.2.isSome then (a.GetNamespaces w).2
      else (a.GetNamespaces w).1.1.foldl (a.sweep R ann) (a.GetNamespaces w).2 := rfl

theorem world_sweeps (R : GoMap (GoMap Unit)) (namespaces : List String) (w : Run World) :
    w.state.Shrinks
      (namespaces.foldl (World.auth.sweep R serviceAccountAnnotations) w).state ∧
    (∀ ns ∈ namespaces, World.NamespaceConverged R ns
      (namespaces.foldl (World.auth.sweep R serviceAccountAnnotations) w).state) ∧
    ((∀ ns ∈ namespaces, w.state.NamespaceConverged R ns) → NoDelete w.trace →
      (namespaces.foldl (World.auth.sweep R serviceAccountAnnotations) w).state = w.state ∧
      NoDelete (namespaces.foldl (World.auth.sweep R serviceAccountAnnotations) w).trace) := by
  induction namespaces generalizing w with
  | nil => exact ⟨World.Shrinks.shrinks_refl _, fun _ h => by simp at h, fun _ h => ⟨rfl, h⟩⟩
  | cons ns l ih =>
    rw [List.foldl_cons]
    have hs : w.state.Shrinks (World.auth.sweep R serviceAccountAnnotations w ns).state ∧
        World.NamespaceConverged R ns (World.auth.sweep R serviceAccountAnnotations w ns).state ∧
        (w.state.NamespaceConverged R ns → NoDelete w.trace →
          (World.auth.sweep R serviceAccountAnnotations w ns).state = w.state ∧
          NoDelete (World.auth.sweep R serviceAccountAnnotations w ns).trace) :=
      world_sweep R ns w
    obtain ⟨a1, a2, a3⟩ := hs
    obtain ⟨b1, b2, b3⟩ := ih (World.auth.sweep R serviceAccountAnnotations w ns)
    refine ⟨a1.shrinks_trans b1, ?_, ?_⟩
    · intro ns' hns'
      rcases List.mem_cons.mp hns' with rfl | h
      · exact a2.shrinks b1
      · exact b2 ns' h
    · intro hconv hnd
      obtain ⟨c1, c2⟩ := a3 (hconv ns (List.mem_cons_self _ _)) hnd
      have hconv' : ∀ ns' ∈ l,
          (World.auth.sweep R serviceAccountAnnotations w ns).state.NamespaceConverged R ns' := by
        intro ns' h
        rw [c1]
        exact hconv ns' (List.mem_cons_of_mem _ h)
      obtain ⟨d1, d2⟩ := b3 hconv' c2
      exact ⟨d1.trans c1, d2⟩

/-- `deleteServiceAccounts` on the idealised cluster: nothing is added, afterwards
every managed account of every cluster namespace is required, and if that held
before, nothing is deleted. -/
theorem world_deleteServiceAccounts (R : GoMap (GoMap Unit)) (w : Run World) :
    w.state.Shrinks (World.auth.deleteServiceAccounts R serviceAccountAnnotations w).state ∧
    (∀ ns ∈ w.state.namespaces, World.NamespaceConverged R ns
      (World.auth.deleteServiceAccounts R serviceAccountAnnotations w).state) ∧
    ((∀ ns ∈ w.state.namespaces, w.state.NamespaceConverged R ns) → NoDelete w.trace →
      (World.auth.deleteServiceAccounts R serviceAccountAnnotations w).state = w.state ∧
      NoDelete (World.auth.deleteServiceAccounts R serviceAccountAnnotations w).trace) := by
  rw [deleteServiceAccounts_eq_sweeps]
  have herr : (World.auth.GetNamespaces w).1.2.isSome = false := rfl
  have hstate : (World.auth.GetNamespaces w).2.state = w.state := rfl
  have hlisted : (World.auth.GetNamespaces w).1.1 = w.state.namespaces := rfl
  simp only [herr, Bool.false_eq_true, if_false]
  obtain ⟨h1, h2, h3⟩ := world_sweeps R (World.auth.GetNamespaces w).1.1
    (World.auth.GetNamespaces w).2
  rw [hstate] at h1 h3
  rw [hlisted] at h2 h3 ⊢
  refine ⟨h1, h2, fun hconv hnd => h3 hconv ?_⟩
  rw [GetNamespaces_trace]
  exact hnd.append (fun c hc => by
    simp only [calls, List.map_cons, List.map_nil, List.mem_singleton] at hc
    subst hc
    exact ⟨by simp [Call.method], by simp [Call.method]⟩)

/-- The deletion loop over the listed roles, on the idealised store: nothing is
added, and no listed role that is not desired survives. -/
theorem world_delete_roles (D : GoMap Role) (l : List String) (w : Run World) :
    w.state.Shrinks (l.foldl
      (fun w vaultRoleInVault =>
        if D.contains vaultRoleInVault then w
        else (World.auth.DeleteRole vaultRoleInVault w).2) w).state ∧
    ∀ p ∈ (l.foldl
      (fun w vaultRoleInVault =>
        if D.contains vaultRoleInVault then w
        else (World.auth.DeleteRole vaultRoleInVault w).2) w).state.roles,
      p.1 ∈ l → D.contains p.1 = true := by
  induction l generalizing w with
  | nil => exact ⟨World.Shrinks.shrinks_refl _, fun x _ h => by simp at h⟩
  | cons r l ih =>
    rw [List.foldl_cons]
    by_cases hD : D.contains r = true
    · simp only [hD, if_true]
      obtain ⟨h1, h2⟩ := ih w
      refine ⟨h1, fun p hp hname => ?_⟩
      rcases List.mem_cons.mp hname with e | hname
      · rw [e]; exact hD
      · exact h2 p hp hname
    · simp only [hD, Bool.false_eq_true, if_false]
      obtain ⟨h1, h2⟩ := ih (World.auth.DeleteRole r w).2
      have hdel : w.state.Shrinks (World.auth.DeleteRole r w).2.state :=
        ⟨rfl, rfl, fun _ h => h, fun x hx => (List.mem_filter.mp hx).1⟩
      refine ⟨hdel.shrinks_trans h1, fun p hp hname => ?_⟩
      rcases List.mem_cons.mp hname with e | hname
      · have hp1 := h1.2.2.2 p hp
        have : p ∈ w.state.roles.filter (fun q => decide (q.1 ≠ r)) := hp1
        rw [List.mem_filter] at this
        simp [e] at this
      · exact h2 p hp hname

/-- The role deletion loop changes nothing when every listed role is desired. -/
theorem delete_roles_of_desired {σ : Type} (a : Auth σ) (D : GoMap Role) (l : List String)
    (w : Run σ) (h : ∀ r ∈ l, D.contains r = true) :
    l.foldl
      (fun w vaultRoleInVault =>
        if D.contains vaultRoleInVault then w
        else (a.DeleteRole vaultRoleInVault w).2) w = w := by
  induction l with
  | nil => rfl
  | cons r l ih =>
    rw [List.foldl_cons]
    simp only [h r (List.mem_cons_self _ _), if_true]
    exact ih (fun r' hr' => h r' (List.mem_cons_of_mem _ hr'))

/-- `deleteVaultRoles` on the idealised store: nothing is added, afterwards every
role of the store is desired, and if that held before, nothing is deleted. -/
theorem world_deleteVaultRoles (D : GoMap Role) (w : Run World) :
    w.state.Shrinks (World.auth.deleteVaultRoles D w).state ∧
    (∀ p ∈ (World.auth.deleteVaultRoles D w).state.roles, D.contains p.1 = true) ∧
    ((∀ p ∈ w.state.roles, D.contains p.1 = true) → NoDelete w.trace →
      (World.auth.deleteVaultRoles D w).state = w.state ∧
      NoDelete (World.auth.deleteVaultRoles D w).trace) := by
  unfold Auth.deleteVaultRoles
  have herr : (World.auth.ListRoles w).1.2.isSome = false := rfl
  have hstate : (World.auth.ListRoles w).2.state = w.state := rfl
  have hlisted : (World.auth.ListRoles w).1.1 = w.state.roles.map Prod.fst := rfl
  simp only [herr, Bool.false_eq_true, if_false]
  obtain ⟨h1, h2⟩ := world_delete_roles D (World.auth.ListRoles w).1.1 (World.auth.ListRoles w).2
  rw [hstate] at h1
  refine ⟨h1, ?_, ?_⟩
  · intro p hp
    apply h2 p hp
    rw [hlisted]
    exact List.mem_map_of_mem Prod.fst (h1.2.2.2 p hp)
  · intro hconv hnd
    have hall : ∀ r ∈ (World.auth.ListRoles w).1.1, D.contains r = true := by
      intro r hr
      rw [hlisted, List.mem_map] at hr
      obtain ⟨p, hp, rfl⟩ := hr
      exact hconv p hp
    rw [delete_roles_of_desired World.auth D _ _ hall]
    refine ⟨hstate, ?_⟩
    rw [ListRoles_trace]
    exact hnd.append (fun c hc => by
      simp only [calls, List.map_cons, List.map_nil, List.mem_singleton] at hc
      subst hc
      exact ⟨by simp [Call.method], by simp [Call.method]⟩)

theorem World.GrowsWithin.grows_refl (R : GoMap (GoMap Unit)) (D : GoMap Role) (s : World) :
    World.GrowsWithin R D s s :=
  ⟨rfl, rfl, fun _ h => Or.inl h, fun _ h => Or.inl h⟩

theorem World.GrowsWithin.grows_trans {R : GoMap (GoMap Unit)} {D : GoMap Role} {s1 s2 s3 : World}
    (h1 : World.GrowsWithin R D s1 s2) (h2 : World.GrowsWithin R D s2 s3) :
    World.GrowsWithin R D s1 s3 :=
  ⟨h2.1.trans h1.1, h2.2.1.trans h1.2.1,
    fun x hx => (h2.2.2.1 x hx).elim (fun h => h1.2.2.1 x h) Or.inr,
    fun p hp => (h2.2.2.2 p hp).elim (fun h => h1.2.2.2 p h) Or.inr⟩

theorem World.Converged.growsWithin {R : GoMap (GoMap Unit)} {D : GoMap Role} {s s' : World}
    (h : s.Converged R D) (hg : World.GrowsWithin R D s s') : s'.Converged R D := by
  refine ⟨fun ns hns x hx hxns hc => ?_, fun p hp => ?_⟩
  · rcases hg.2.2.1 x hx with h1 | h1
    · exact h.1 ns (hg.2.1 ▸ hns) x h1 hxns hc
    · rw [← hxns]; exact h1
  · rcases hg.2.2.2 p hp with h1 | h1
    · exact h.2 p h1
    · exact h1

theorem foldl_growsWithin {β : Type} (R : GoMap (GoMap Unit)) (D : GoMap Role)
    (step : Run World → β → Run World) (l : List β)
    (hstep : ∀ w, ∀ b ∈ l, World.GrowsWithin R D w.state (step w b).state) (w : Run World) :
    World.GrowsWithin R D w.state (l.foldl step w).state := by
  induction l generalizing w with
  | nil => exact World.GrowsWithin.grows_refl R D _
  | cons b l ih =>
    rw [List.foldl_cons]
    exact (hstep w b (List.mem_cons_self _ _)).grows_trans
      (ih (fun w' b' hb' => hstep w' b' (List.mem_cons_of_mem _ hb')) (step w b))

theorem world_CreateServiceAccount (R : GoMap (GoMap Unit)) (D : GoMap Role) (ns sa : String)
    (ann : GoMap String) (h : isRequired R ns sa = true) (w : Run World) :
    World.GrowsWithin R D w.state (World.auth.CreateServiceAccount ns sa ann w).2.state := by
  show World.GrowsWithin R D w.state
    (if w.state.serviceAccounts.any (fun x => x.ns = ns && x.name = sa) then w.state
      else { w.state with serviceAccounts := w.state.serviceAccounts ++ [⟨ns, sa, ann⟩] })
  split
  · exact World.GrowsWithin.grows_refl R D _
  · refine ⟨rfl, rfl, fun x hx => ?_, fun _ hp => Or.inl hp⟩
    rcases List.mem_append.mp hx with hx | hx
    · exact Or.inl hx
    · simp only [List.mem_singleton] at hx
      subst hx
      exact Or.inr h

theorem world_CreateRole (R : GoMap (GoMap Unit)) (D : GoMap Role) (name : String) (role : Role)
    (h : D.contains name = true) (w : Run World) :
    World.GrowsWithin R D w.state (World.auth.CreateRole name role w).2.state := by
  refine ⟨rfl, rfl, fun _ hx => Or.inl hx, fun p hp => ?_⟩
  have hp : p ∈ w.state.roles.filter (fun q => decide (q.1 ≠ name)) ++ [(name, role)] := hp
  rcases List.mem_append.mp hp with hp | hp
  · exact Or.inl (List.mem_filter.mp hp).1
  · simp only [List.mem_singleton] at hp
    subst hp
    exact Or.inr h

/-- `createServiceAccounts` on the idealised cluster adds required accounts only. -/
theorem world_createServiceAccounts (ro : RangeOrder) (R : GoMap (GoMap Unit)) (D : GoMap Role)
    (w : Run World) :
    World.GrowsWithin R D w.state (World.auth.createServiceAccounts ro R w).state := by
  unfold Auth.createServiceAccounts
  simp only
  have hstate : (World.auth.GetNamespaces w).2.state = w.state := rfl
  rw [← hstate]
  apply foldl_growsWithin
  intro w1 ns _
  apply foldl_growsWithin
  intro w2 entry hentry
  apply world_CreateServiceAccount
  rw [isRequired_eq_contains, GoMap.contains_iff]
  exact List.mem_map_of_mem Prod.fst ((ro.perm 3 _).mem_iff.mp hentry)

/-- `createVaultRoles` on the idealised store adds desired roles only. -/
theorem world_createVaultRoles (ro : RangeOrder) (R : GoMap (GoMap Unit)) (D : GoMap Role)
    (w : Run World) :
    World.GrowsWithin R D w.state (World.auth.createVaultRoles ro D w).state := by
  unfold Auth.createVaultRoles
  apply foldl_growsWithin
  intro w1 entry hentry
  apply world_CreateRole
  rw [GoMap.contains_iff]
  exact List.mem_map_of_mem Prod.fst ((ro.perm 4 _).mem_iff.mp hentry)

/-- The state one pass leaves on the idealised cluster and store is converged. -/
theorem world_afterPass_converged (ro : RangeOrder) (unmarshal : String → Role × GoError)
    (s : World) :
    (World.afterPass ro unmarshal s).configMap = s.configMap ∧
    (World.afterPass ro unmarshal s).namespaces = s.namespaces ∧
    (World.afterPass ro unmarshal s).Converged
      (getServiceAccountsSetByNamespace ro (newVaultRoles ro unmarshal s.configMap))
      (newVaultRoles ro unmarshal s.configMap) := by
  unfold World.afterPass Auth.initServiceAccounts
  have herr : (World.auth.GetConfigMapData vaultAuthConfigNamespace vaultAuthConfigMap
      ⟨s, []⟩).1.2.isSome = false := rfl
  have hdata : (World.auth.GetConfigMapData vaultAuthConfigNamespace vaultAuthConfigMap
      ⟨s, []⟩).1.1 = s.configMap := rfl
  simp only [herr, Bool.false_eq_true, if_false, hdata]
  generalize hw0 : (World.auth.GetConfigMapData vaultAuthConfigNamespace vaultAuthConfigMap
      ⟨s, []⟩).2 = w0
  have hs0 : w0.state = s := by rw [← hw0]; rfl
  generalize newVaultRoles ro unmarshal s.configMap = D
  generalize getServiceAccountsSetByNamespace ro D = R
  obtain ⟨a1, a2, _⟩ := world_deleteServiceAccounts R w0
  obtain ⟨b1, b2, _⟩ := world_deleteVaultRoles D
    (World.auth.deleteServiceAccounts R serviceAccountAnnotations w0)
  have c1 := world_createServiceAccounts ro R D
    (World.auth.deleteVaultRoles D
      (World.auth.deleteServiceAccounts R serviceAccountAnnotations w0))
  have d1 := world_createVaultRoles ro R D
    (World.auth.createServiceAccounts ro R
      (World.auth.deleteVaultRoles D
        (World.auth.deleteServiceAccounts R serviceAccountAnnotations w0)))
  have hsh := a1.shrinks_trans b1
  have hgr := c1.grows_trans d1
  rw [hs0] at hsh a2
  have hconv : (World.auth.deleteVaultRoles D
      (World.auth.deleteServiceAccounts R serviceAccountAnnotations w0)).state.Converged R D := by
    refine ⟨fun ns hns => ?_, b2⟩
    rw [hsh.2.1] at hns
    exact (a2 ns hns).shrinks b1
  exact ⟨hgr.1.trans hsh.1, hgr.2.1.trans hsh.2.1, hconv.growsWithin hgr⟩

/-- A pass over a converged state of the idealised cluster and store: before the
creations only observations are made, then the creations follow. -/
theorem world_pass_of_converged (ro : RangeOrder) (unmarshal : String → Role × GoError)
    (s : World)
    (h : s.Converged
      (getServiceAccountsSetByNamespace ro (newVaultRoles ro unmarshal s.configMap))
      (newVaultRoles ro unmarshal s.configMap)) :
    ∃ pre : List Call, (∀ c ∈ pre, c.isCreateOrDelete = false) ∧
      calls (World.auth.pass ro unmarshal s)
        = pre ++ (.GetNamespaces :: createServiceAccountCalls ro
            (getServiceAccountsSetByNamespace ro (newVaultRoles ro unmarshal s.configMap))
            s.namespaces
          ++ (ro.visit 4 (newVaultRoles ro unmarshal s.configMap).entries).map
              (fun entry => Call.CreateRole entry.1 entry.2)) := by
  unfold Auth.pass Auth.initServiceAccounts
  have herr : (World.auth.GetConfigMapData vaultAuthConfigNamespace vaultAuthConfigMap
      ⟨s, []⟩).1.2.isSome = false := rfl
  have hdata : (World.auth.GetConfigMapData vaultAuthConfigNamespace vaultAuthConfigMap
      ⟨s, []⟩).1.1 = s.configMap := rfl
  simp only [herr, Bool.false_eq_true, if_false, hdata]
  generalize hw0 : (World.auth.GetConfigMapData vaultAuthConfigNamespace vaultAuthConfigMap
      ⟨s, []⟩).2 = w0
  have hs0 : w0.state = s := by rw [← hw0]; rfl
  have ht0 : NoDelete w0.trace := by
    rw [← hw0]
    intro c hc
    have hc : c ∈ [Call.GetConfigMapData vaultAuthConfigNamespace vaultAuthConfigMap] := hc
    simp only [List.mem_singleton] at hc
    subst hc
    exact ⟨by simp [Call.method], by simp [Call.method]⟩
  have hm0 : ∀ c ∈ calls w0.trace, c.method = 5 := by
    rw [← hw0]
    intro c hc
    have hc : c ∈ [Call.GetConfigMapData vaultAuthConfigNamespace vaultAuthConfigMap] := hc
    simp only [List.mem_singleton] at hc
    subst hc
    rfl
  revert h
  generalize newVaultRoles ro unmarshal s.configMap = D
  generalize getServiceAccountsSetByNamespace ro D = R
  intro h
  obtain ⟨_, _, a3⟩ := world_deleteServiceAccounts R w0
  obtain ⟨a4, a5⟩ := a3 (by rw [hs0]; exact h.1) ht0
  obtain ⟨segA, a6, a7⟩ := deleteServiceAccounts_trace World.auth R serviceAccountAnnotations w0
  obtain ⟨_, _, b3⟩ := world_deleteVaultRoles D
    (World.auth.deleteServiceAccounts R serviceAccountAnnotations w0)
  obtain ⟨b4, b5⟩ := b3 (by rw [a4, hs0]; exact h.2) a5
  obtain ⟨segB, b6, b7⟩ := deleteVaultRoles_trace World.auth D
    (World.auth.deleteServiceAccounts R serviceAccountAnnotations w0)
  obtain ⟨creates, c1, c2⟩ := createServiceAccounts_trace_exact World.auth ro R
    (World.auth.deleteVaultRoles D
      (World.auth.deleteServiceAccounts R serviceAccountAnnotations w0))
  obtain ⟨segD, d1, d2⟩ := createVaultRoles_trace World.auth ro D
    (World.auth.createServiceAccounts ro R
      (World.auth.deleteVaultRoles D
        (World.auth.deleteServiceAccounts R serviceAccountAnnotations w0)))
  have hns : (World.auth.GetNamespaces (World.auth.deleteVaultRoles D
      (World.auth.deleteServiceAccounts R serviceAccountAnnotations w0))).1.1 = s.namespaces := by
    show (World.auth.deleteVaultRoles D
      (World.auth.deleteServiceAccounts R serviceAccountAnnotations w0)).state.namespaces = _
    rw [b4, a4, hs0]
  rw [hns] at c1 c2
  refine ⟨calls (World.auth.deleteVaultRoles D
      (World.auth.deleteServiceAccounts R serviceAccountAnnotations w0)).trace, ?_, ?_⟩
  · intro c hc
    have hnd := b5 c hc
    rw [b6, a6, calls_append, calls_append, List.mem_append, List.mem_append] at hc
    have hm : c.method = 5 ∨ c.method = 4 ∨ c.method = 6 ∨ c.method = 7 ∨ c.method = 1 ∨
        c.method = 2 := by
      rcases hc with (hc | hc) | hc
      · exact Or.inl (hm0 c hc)
      · rcases methods_deleteServiceAccounts a7 c hc with h | h | h
        · exact Or.inr (Or.inl h)
        · exact Or.inr (Or.inr (Or.inl h))
        · exact Or.inr (Or.inr (Or.inr (Or.inl h)))
      · rcases methods_deleteVaultRoles b7 c hc with h | h
        · exact Or.inr (Or.inr (Or.inr (Or.inr (Or.inl h))))
        · exact Or.inr (Or.inr (Or.inr (Or.inr (Or.inr h))))
    unfold Call.isCreateOrDelete
    rcases hm with h | h | h | h | h | h
    · simp [h]
    · simp [h]
    · simp [h]
    · exact absurd h hnd.2
    · simp [h]
    · exact absurd h hnd.1
  · rw [d1, c1, calls_append, calls_append, calls_cons, c2, d2, List.append_assoc]

set_option maxRecDepth 100000 in
/-- C4, counterexample: on the idealised cluster and store, the pass that follows
a pass over `exampleWorld`, with nothing changed in between, issues six create
operations. -/
theorem second_pass_issues_create_operations :
    (calls (World.auth.pass RangeOrder.stored exampleUnmarshal
        (World.afterPass RangeOrder.stored exampleUnmarshal exampleWorld))).filter
        Call.isCreateOrDelete
      = [.CreateServiceAccount "kube-system" "default" serviceAccountAnnotations,
         .CreateServiceAccount "kube-system" "vault-agent-injector" serviceAccountAnnotations,
         .CreateServiceAccount "default" "vault-agent-injector" serviceAccountAnnotations,
         .CreateServiceAccount "default" "default" serviceAccountAnnotations,
         .CreateRole "role1" ⟨some ["vault-agent-injector", "default"],
           some ["kube-system", "default"], some ["test"], 0⟩,
         .CreateRole "role2" ⟨some ["vault-agent-injector"], some ["kube-system"],
           some ["test", "default"], 0⟩] := by
  decide

theorem World.Converged.congr {R R' : GoMap (GoMap Unit)} {D D' : GoMap Role} {s : World}
    (h : s.Converged R D) (hR : ∀ ns sa, isRequired R ns sa = isRequired R' ns sa)
    (hD : ∀ r, D.contains r = D'.contains r) : s.Converged R' D' :=
  ⟨fun ns hns x hx hxns hc => by rw [← hR]; exact h.1 ns hns x hx hxns hc,
    fun p hp => by rw [← hD]; exact h.2 p hp⟩

/-- C4, amended: on the idealised cluster and store, for every state, decoder and
range orders of the two passes, the pass that follows a pass (nothing else having
changed) issues no `DeleteServiceAccount` and no `DeleteRole`. It issues the
creations again: `CreateRole(r, role)` exactly once for every desired role, and
`CreateServiceAccount(ns, sa, {vak-managed: true})` for every required account `sa`
of `ns`, once per occurrence of `ns` among the cluster namespaces, and no other
`CreateRole` or `CreateServiceAccount`. -/
theorem second_pass_deletes_nothing_and_creates_again (ro₁ ro₂ : RangeOrder)
    (unmarshal : String → Role × GoError) (s : World) :
    (∀ ns sa, Call.DeleteServiceAccount ns sa ∉
      calls (World.auth.pass ro₂ unmarshal (World.afterPass ro₁ unmarshal s))) ∧
    (∀ r, Call.DeleteRole r ∉
      calls (World.auth.pass ro₂ unmarshal (World.afterPass ro₁ unmarshal s))) ∧
    (∀ r role,
      (calls (World.auth.pass ro₂ unmarshal (World.afterPass ro₁ unmarshal s))).count
          (.CreateRole r role)
        = if (newVaultRoles ro₂ unmarshal s.configMap).get? r = some role then 1 else 0) ∧
    (∀ ns sa annotations,
      (calls (World.auth.pass ro₂ unmarshal (World.afterPass ro₁ unmarshal s))).count
          (.CreateServiceAccount ns sa annotations)
        = if annotations = serviceAccountAnnotations ∧
            isRequired (getServiceAccountsSetByNamespace ro₂
              (newVaultRoles ro₂ unmarshal s.configMap)) ns sa = true
          then s.namespaces.count ns else 0) := by
  obtain ⟨hcfg, hns, hconv⟩ := world_afterPass_converged ro₁ unmarshal s
  have hconv := hconv.congr (requirement_congr ro₁ ro₂ unmarshal s.configMap)
    (newVaultRoles_contains_congr ro₁ ro₂ unmarshal s.configMap)
  rw [← hcfg] at hconv
  obtain ⟨pre, hpre, hcalls⟩ := world_pass_of_converged ro₂ unmarshal _ hconv
  rw [hcfg, hns] at hcalls
  rw [hcalls]
  have hpre0 : ∀ c : Call, c.isCreateOrDelete = true → pre.count c = 0 := by
    intro c hc
    apply List.count_eq_zero_of_not_mem
    intro hm
    rw [hpre c hm] at hc
    cases hc
  have hsa : ∀ c : Call, c.method ≠ 8 →
      (createServiceAccountCalls ro₂ (getServiceAccountsSetByNamespace ro₂
        (newVaultRoles ro₂ unmarshal s.configMap)) s.namespaces).count c = 0 := by
    intro c hc
    apply List.count_eq_zero_of_not_mem
    intro hm
    exact hc (methods_createServiceAccountCalls _ _ _ c hm)
  have hro : ∀ c : Call, c.method ≠ 3 →
      ((ro₂.visit 4 (newVaultRoles ro₂ unmarshal s.configMap).entries).map
        (fun entry => Call.CreateRole entry.1 entry.2)).count c = 0 := by
    intro c hc
    apply List.count_eq_zero_of_not_mem
    intro hm
    obtain ⟨entry, _, rfl⟩ := List.mem_map.mp hm
    exact hc rfl
  have hgn : ∀ c : Call, c.method ≠ 4 → (Call.GetNamespaces == c) = false := by
    intro c hc
    rw [beq_eq_false_iff_ne]
    intro e
    exact hc (e ▸ rfl)
  refine ⟨fun ns sa hm => ?_, fun r hm => ?_, fun r role => ?_, fun ns sa annotations => ?_⟩
  · have := List.count_pos_iff.mpr hm
    rw [List.count_append, List.count_append, List.count_cons,
      hpre0 (.DeleteServiceAccount ns sa) rfl,
      hgn _ (by simp [Call.method]), hsa _ (by simp [Call.method]),
      hro _ (by simp [Call.method])] at this
    simp at this
  · have := List.count_pos_iff.mpr hm
    rw [List.count_append, List.count_append, List.count_cons, hpre0 (.DeleteRole r) rfl,
      hgn _ (by simp [Call.method]), hsa _ (by simp [Call.method]),
      hro _ (by simp [Call.method])] at this
    simp at this
  · rw [List.count_append, List.count_append, List.count_cons,
      hpre0 (.CreateRole r role) rfl,
      hgn _ (by simp [Call.method]), hsa _ (by simp [Call.method]), count_createRole_calls]
    simp
  · rw [List.count_append, List.count_append, List.count_cons,
      hpre0 (.CreateServiceAccount ns sa annotations) rfl,
      hgn _ (by simp [Call.method]), hro _ (by simp [Call.method]),
      count_createServiceAccountCalls]
    simp

end TwoPasses


/-! ## `Role.Equal` reports equality only for equal configurations -/

section EqualSound

theorem perm_of_insertionSort_eq (l l' : List String)
    (h : List.insertionSort (fun a b : String => a.data ≤ b.data) l
      = List.insertionSort (fun a b : String => a.data ≤ b.data) l') : l.Perm l' := by
  have h1 := (List.perm_insertionSort (fun a b : String => a.data ≤ b.data) l).symm
  rw [h] at h1
  exact h1.trans (List.perm_insertionSort _ l')

theorem permuted_of_sortStrings_eq (s t : Slice) (h : sortStrings s = sortStrings t) :
    s.Permuted t := by
  cases s <;> cases t <;> simp only [sortStrings, Option.map_some', Option.map_none',
    Option.some.injEq] at h
  · trivial
  · cases h
  · cases h
  · exact perm_of_insertionSort_eq _ _ h

theorem elems_perm_of_permuted (s t : Slice) (h : s.Permuted t) : s.elems.Perm t.elems := by
  cases s <;> cases t <;> simp only [Slice.Permuted] at h
  · exact List.Perm.refl _
  · exact h

/-- C11: if `a.Equal(b)` is true then `a.TokenTTL = b.TokenTTL` and each of the
three lists of `a` holds the same elements with the same multiplicities as the
corresponding list of `b` (and is nil exactly when that one is). -/
theorem Role_Equal_true_only_for_same_configuration (a b : Role)
    (h : (a.Equal b).1 = true) :
    a.TokenTTL = b.TokenTTL ∧
    (a.BoundServiceAccountNames.Permuted b.BoundServiceAccountNames ∧
      ∀ x, a.BoundServiceAccountNames.elems.count x = b.BoundServiceAccountNames.elems.count x) ∧
    (a.BoundServiceAccountNamespaces.Permuted b.BoundServiceAccountNamespaces ∧
      ∀ x, a.BoundServiceAccountNamespaces.elems.count x
        = b.BoundServiceAccountNamespaces.elems.count x) ∧
    (a.TokenPolicies.Permuted b.TokenPolicies ∧
      ∀ x, a.TokenPolicies.elems.count x = b.TokenPolicies.elems.count x) := by
  have e : a.sortLists = b.sortLists := by
    simpa [Role.Equal] using h
  have e1 : sortStrings a.BoundServiceAccountNames = sortStrings b.BoundServiceAccountNames :=
    congrArg Role.BoundServiceAccountNames e
  have e2 : sortStrings a.BoundServiceAccountNamespaces
      = sortStrings b.BoundServiceAccountNamespaces :=
    congrArg Role.BoundServiceAccountNamespaces e
  have e3 : sortStrings a.TokenPolicies = sortStrings b.TokenPolicies :=
    congrArg Role.TokenPolicies e
  have e4 : a.sortLists.TokenTTL = b.sortLists.TokenTTL := congrArg Role.TokenTTL e
  have p1 := permuted_of_sortStrings_eq _ _ e1
  have p2 := permuted_of_sortStrings_eq _ _ e2
  have p3 := permuted_of_sortStrings_eq _ _ e3
  exact ⟨e4, ⟨p1, fun x => (elems_perm_of_permuted _ _ p1).count_eq x⟩,
    ⟨p2, fun x => (elems_perm_of_permuted _ _ p2).count_eq x⟩,
    ⟨p3, fun x => (elems_perm_of_permuted _ _ p3).count_eq x⟩⟩

/-- Witness for C11: the two roles of the repository's reordering test are
`Equal`, so their bound names are reorderings of each other. -/
theorem Role_Equal_true_only_for_same_configuration_witness :
    Slice.Permuted (some ["default", "vault-injector"]) (some ["vault-injector", "default"]) :=
  (Role_Equal_true_only_for_same_configuration
    ⟨some ["default", "vault-injector"], some ["kube-system", "test"],
      some ["test", "default"], 1800⟩
    ⟨some ["vault-injector", "default"], some ["test", "kube-system"],
      some ["default", "test"], 1800⟩ (by decide)).2.1.1

end EqualSound

/-! ## The requirement and the desired roles -/

section Requirement

theorem isRequired_of_get? (R : GoMap (GoMap Unit)) (ns sa : String) (set : GoMap Unit)
    (h : R.get? ns = some set) : (isRequired R ns sa = true ↔ sa ∈ set.keys) := by
  unfold isRequired
  rw [h]
  exact GoMap.contains_iff set sa

/-- C13: for every role set `V` and every range order, the requirement has a key
`ns` exactly when some role of `V` lists `ns` among its bound namespaces, and the
set stored at `ns` holds exactly the bound names of the roles that list `ns`. The
requirement of the empty role set is empty, and `"*"` is a key exactly when some
role lists `"*"`: it is kept as the literal key and makes no other namespace a
key. -/
theorem getServiceAccountsSetByNamespace_is_union_per_namespace (ro : RangeOrder)
    (V : GoMap Role) :
    (∀ ns, ns ∈ (getServiceAccountsSetByNamespace ro V).keys ↔
      ∃ p ∈ V.entries, ns ∈ p.2.BoundServiceAccountNamespaces.elems) ∧
    (∀ ns set, (getServiceAccountsSetByNamespace ro V).get? ns = some set →
      ∀ sa, sa ∈ set.keys ↔
        ∃ p ∈ V.entries, ns ∈ p.2.BoundServiceAccountNamespaces.elems ∧
          sa ∈ p.2.BoundServiceAccountNames.elems) ∧
    (getServiceAccountsSetByNamespace ro (GoMap.empty : GoMap Role)).entries = [] ∧
    ("*" ∈ (getServiceAccountsSetByNamespace ro V).keys ↔
      ∃ p ∈ V.entries, "*" ∈ p.2.BoundServiceAccountNamespaces.elems) := by
  have hkeys : ∀ ns, ns ∈ (getServiceAccountsSetByNamespace ro V).keys ↔
      ∃ p ∈ V.entries, ns ∈ p.2.BoundServiceAccountNamespaces.elems := by
    intro ns
    rw [← GoMap.contains_iff]
    exact (getServiceAccountsSetByNamespace_spec ro V ns "").2
  refine ⟨hkeys, ?_, ?_, hkeys "*"⟩
  · intro ns set hset sa
    rw [← isRequired_of_get? _ ns sa set hset]
    exact (getServiceAccountsSetByNamespace_spec ro V ns sa).1
  · have hempty : ∀ ns, ns ∉ (getServiceAccountsSetByNamespace ro
        (GoMap.empty : GoMap Role)).keys := by
      intro ns hns
      rw [← GoMap.contains_iff,
        (getServiceAccountsSetByNamespace_spec ro GoMap.empty ns "").2] at hns
      obtain ⟨p, hp, _⟩ := hns
      simp [GoMap.empty] at hp
    cases hE : (getServiceAccountsSetByNamespace ro (GoMap.empty : GoMap Role)).entries with
    | nil => rfl
    | cons p l =>
      exact absurd (by simp [GoMap.keys, hE]) (hempty p.1)

set_option maxRecDepth 100000 in
/-- Witness for C13: in the requirement of the first case of
`TestAuth_initServiceAccounts` the set of `kube-system` holds `default`. -/
theorem getServiceAccountsSetByNamespace_is_union_per_namespace_witness :
    "default" ∈ ((exampleRequirement.get? "kube-system").getD GoMap.empty).keys ↔
      ∃ p ∈ (newVaultRoles RangeOrder.stored exampleUnmarshal exampleConfigMapData).entries,
        "kube-system" ∈ p.2.BoundServiceAccountNamespaces.elems ∧
          "default" ∈ p.2.BoundServiceAccountNames.elems :=
  (getServiceAccountsSetByNamespace_is_union_per_namespace RangeOrder.stored
    (newVaultRoles RangeOrder.stored exampleUnmarshal exampleConfigMapData)).2.1
    "kube-system" ((exampleRequirement.get? "kube-system").getD GoMap.empty) (by decide)
    "default"

/-- C14: for every config-map data, decoder and range order, `newVaultRoles` maps
`k` to `role` exactly when the data has an entry `k` whose raw text `NewRole`
accepts with result `role`; its keys are the names of the accepted entries. An
entry that `NewRole` rejects is left out, and adding or replacing such an entry
changes the result at no other name. -/
theorem newVaultRoles_keeps_exactly_the_accepted_entries (ro : RangeOrder)
    (unmarshal : String → Role × GoError) (data : GoMap String) :
    (∀ k role, (newVaultRoles ro unmarshal data).get? k = some role ↔
      ∃ raw, data.get? k = some raw ∧ NewRole unmarshal raw = (role, none)) ∧
    (∀ k, k ∈ (newVaultRoles ro unmarshal data).keys ↔
      ∃ raw, data.get? k = some raw ∧ (NewRole unmarshal raw).2 = none) ∧
    (∀ bad rawBad, (NewRole unmarshal rawBad).2 ≠ none →
      bad ∉ (newVaultRoles ro unmarshal (data.set bad rawBad)).keys ∧
      ∀ k, k ≠ bad →
        (newVaultRoles ro unmarshal (data.set bad rawBad)).get? k
          = (newVaultRoles ro unmarshal data).get? k) := by
  have hacc : ∀ raw role, acceptedRole unmarshal raw = some role ↔
      NewRole unmarshal raw = (role, none) := by
    intro raw role
    unfold acceptedRole
    rcases hN : NewRole unmarshal raw with ⟨r, _ | err⟩
    · simp
    · simp
  have hget : ∀ k role, (newVaultRoles ro unmarshal data).get? k = some role ↔
      ∃ raw, data.get? k = some raw ∧ NewRole unmarshal raw = (role, none) := by
    intro k role
    rw [newVaultRoles_get?]
    cases hd : data.get? k with
    | none => simp
    | some raw => simp [hacc]
  have hkeys : ∀ (d : GoMap String) k, k ∈ (newVaultRoles ro unmarshal d).keys ↔
      ∃ raw, d.get? k = some raw ∧ (NewRole unmarshal raw).2 = none := by
    intro d k
    rw [← GoMap.contains_iff]
    unfold GoMap.contains
    rw [newVaultRoles_get?]
    cases hd : d.get? k with
    | none => simp
    | some raw =>
      simp only [Option.some_bind, Option.some.injEq, exists_eq_left']
      unfold acceptedRole
      rcases hN : NewRole unmarshal raw with ⟨r, _ | err⟩
      · simp
      · simp
  refine ⟨hget, hkeys data, ?_⟩
  intro bad rawBad hbad
  constructor
  · rw [hkeys]
    rintro ⟨raw, h1, h2⟩
    rw [GoMap.get?_set, if_pos rfl] at h1
    cases h1
    exact hbad h2
  · intro k hk
    rw [newVaultRoles_get?, newVaultRoles_get?, GoMap.get?_set, if_neg hk]

/-- Witness for C14: the config map of the repository's test with one valid and
one invalid role: the rejected entry `invalid-role` is not a key. -/
theorem newVaultRoles_keeps_exactly_the_accepted_entries_witness :
    "invalid-role" ∉ (newVaultRoles RangeOrder.stored exampleUnmarshal
      (exampleConfigMapData.set "invalid-role" "not a role")).keys :=
  ((newVaultRoles_keeps_exactly_the_accepted_entries RangeOrder.stored exampleUnmarshal
    exampleConfigMapData).2.2 "invalid-role" "not a role" (by decide)).1

end Requirement

/-! ## The Vault client: one attempt, the retry loop and the login -/

section VaultClient

open Vault

variable {σ : Type}

theorem GoMap.set_set {V : Type} (m : GoMap V) (k : String) (v v2 : V) :
    (m.set k v).set k v2 = m.set k v2 := by
  obtain ⟨l, hl⟩ := m
  simp only [GoMap.set, GoMap.mk.injEq]
  simp [List.filter_append, List.filter_filter]

theorem HeaderSet_HeaderSet (request : Request) (k v v2 : String) :
    (request.HeaderSet k v).HeaderSet k v2 = request.HeaderSet k v2 := by
  simp [Request.HeaderSet, GoMap.set_set]

theorem HeaderSet_URL (request : Request) (k v : String) :
    (request.HeaderSet k v).URL = request.URL := rfl

theorem attempted_URL (s : Session σ) (request : Request) :
    (s.attempted request).URL = request.URL := rfl

theorem attempted_Method (s : Session σ) (request : Request) :
    (s.attempted request).Method = request.Method := rfl

theorem attempted_Header (s : Session σ) (request : Request) :
    (s.attempted request).Header = request.Header.set "X-Vault-Token" s.client.token := rfl

theorem attempted_Body (s : Session σ) (request : Request) :
    (s.attempted request).Body = request.Body.map (fun _ => s.client.config.HttpClient.Unread
      (request.HeaderSet "X-Vault-Token" s.client.token) s.server) := rfl

theorem attempts_attempted (s : Session σ) (request : Request) (log : List Exchange) :
    attempts (s.attempted request) log = attempts request log := rfl

theorem doJsonRequest_HeaderSet {β : Type} (L : Lib) (request : Request)
    (decode : Option (String → β → β × GoError)) (t : β) (handlers : List errorHandler)
    (n : Nat) (s : Session σ) (v : String) :
    doJsonRequest L (request.HeaderSet "X-Vault-Token" v) decode t handlers n s
      = doJsonRequest L request decode t handlers n s := by
  cases n with
  | zero => rfl
  | succ n => simp only [doJsonRequest, HeaderSet_HeaderSet]

theorem doHttpRequest_client {β : Type} (L : Lib) (request : Request)
    (decode : Option (String → β → β × GoError)) (t : β) (s : Session σ) :
    (doHttpRequest L request decode t s).2.2.client = s.client := rfl

theorem doHttpRequest_log {β : Type} (L : Lib) (request : Request)
    (decode : Option (String → β → β × GoError)) (t : β) (s : Session σ) :
    (doHttpRequest L request decode t s).2.2.log
      = s.log ++ [⟨request, (s.client.config.HttpClient.Do request s.server).1,
          (doHttpRequest L request decode t s).1⟩] := rfl

/-- One step of `doJsonRequest` with a positive budget. -/
theorem doJsonRequest_succ {β : Type} (L : Lib) (request : Request)
    (decode : Option (String → β → β × GoError)) (t : β) (handlers : List errorHandler)
    (n : Nat) (s : Session σ) :
    doJsonRequest L request decode t handlers (n + 1) s =
      match doHttpRequest L (request.HeaderSet "X-Vault-Token" s.client.token) decode t s with
      | ((_, some _), t1, s1) => doJsonRequest L (s.attempted request) decode t1 handlers n s1
      | ((some responseErrs, none), t1, s1) =>
        match runErrorHandlers (appRoleLogin L n) responseErrs handlers s1 with
        | ((true, err), s2) => (err, t1, s2)
        | ((false, _), s2) => doJsonRequest L (s.attempted request) decode t1 handlers n s2
      | ((none, none), t1, s1) => (none, t1, s1) := by
  rw [doJsonRequest]
  rfl

theorem runErrorHandlers_plain (login : Session σ → GoError × Session σ)
    (responseErrs : responseErrors) (handlers : List errorHandler) (s : Session σ)
    (hpd : errorHandler.permissionDenied ∉ handlers) :
    runErrorHandlers login responseErrs handlers s
      = ((decide (responseErrs.status = 404)
          && handlers.contains errorHandler.expectedNotFound, none), s) := by
  induction handlers with
  | nil => simp [runErrorHandlers]
  | cons h rest ih =>
    have hrest : errorHandler.permissionDenied ∉ rest := fun hm => hpd (List.mem_cons_of_mem _ hm)
    cases h with
    | permissionDenied => exact absurd (List.mem_cons_self _ _) hpd
    | expectedNotFound =>
      by_cases h404 : responseErrs.status = 404
      · simp [runErrorHandlers, errorHandler.call, expectedNotFoundErrorHandler, h404]
      · simp [runErrorHandlers, errorHandler.call, expectedNotFoundErrorHandler, h404, ih hrest]

theorem doHttpRequest_decodeInto {β : Type} (L : Lib) (request : Request)
    (decode : Option (String → β → β × GoError)) (t : β) (s : Session σ) :
    (doHttpRequest L request decode t s).2.1
      = Exchange.decodeInto decode t ⟨request, (s.client.config.HttpClient.Do request s.server).1,
          (doHttpRequest L request decode t s).1⟩ := by
  unfold doHttpRequest Exchange.decodeInto
  simp only
  rcases hd : (s.client.config.HttpClient.Do request s.server).1 with err | ⟨status, body, rerr⟩
  · cases decode <;> rfl
  · cases rerr with
    | some e => cases decode <;> rfl
    | none =>
      cases decode with
      | none =>
        by_cases h2 : status.tdiv 100 = 2
        · simp [h2]
        · by_cases hb : body.length > 0
          · rcases hu : L.unmarshalErrors body with ⟨errs, _ | e⟩ <;> simp [h2, hb, hu]
          · simp [h2, hb]
      | some u =>
        by_cases h2 : status.tdiv 100 = 2
        · rcases hu : u body t with ⟨v, _ | e⟩ <;> simp [h2, hu]
        · by_cases hb : body.length > 0
          · rcases hu : L.unmarshalErrors body with ⟨errs, _ | e⟩ <;> simp [h2, hb, hu]
          · simp [h2, hb]

theorem doHttpRequest_decoded {β : Type} (L : Lib) (request : Request)
    (decode : Option (String → β → β × GoError)) (t : β) (s : Session σ)
    (h : (doHttpRequest L request decode t s).1 = (none, none)) :
    ∃ status body, (s.client.config.HttpClient.Do request s.server).1
        = .replied ⟨status, (body, none)⟩
      ∧ status.tdiv 100 = 2 ∧ ∀ u, decode = some u → (u body t).2 = none := by
  unfold doHttpRequest at h
  simp only at h
  rcases hd : (s.client.config.HttpClient.Do request s.server).1 with err | ⟨status, body, rerr⟩
  · rw [hd] at h; simp at h
  · rw [hd] at h
    cases rerr with
    | some e => simp at h
    | none =>
      refine ⟨status, body, rfl, ?_⟩
      by_cases h2 : status.tdiv 100 = 2
      · refine ⟨h2, ?_⟩
        intro u hu
        subst hu
        rcases hu2 : u body t with ⟨v, _ | e⟩
        · rfl
        · simp [h2, hu2] at h
      · exfalso
        by_cases hb : body.length > 0
        · rcases hu : L.unmarshalErrors body with ⟨errs, _ | e⟩ <;> simp [h2, hb, hu] at h
        · simp [h2, hb] at h

/-- A run of `doJsonRequest` whose handlers do not log in: it makes at most
`n` exchanges, all with the method and URL of the request, leaves the client as it is, stops at
the first resolved attempt, and fails exactly when no attempt is resolved. -/
theorem doJsonRequest_plain {β : Type} (L : Lib) (request : Request)
    (decode : Option (String → β → β × GoError)) (handlers : List errorHandler)
    (hpd : errorHandler.permissionDenied ∉ handlers) :
    ∀ (n : Nat) (t : β) (s : Session σ),
      ∃ ext : List Exchange,
        (doJsonRequest L request decode t handlers n s).2.2.log = s.log ++ ext
        ∧ (doJsonRequest L request decode t handlers n s).2.2.client = s.client
        ∧ ext.length ≤ n
        ∧ (∀ e ∈ ext, e.request.Method = request.Method ∧ e.request.URL = request.URL)
        ∧ (doJsonRequest L request decode t handlers n s).2.1
            = ext.foldl (Exchange.decodeInto decode) t
        ∧ ((doJsonRequest L request decode t handlers n s).1 = none →
            ∃ pre e, ext = pre ++ [e] ∧ e.resolved handlers = true
              ∧ ∀ x ∈ pre, x.resolved handlers = false)
        ∧ ((doJsonRequest L request decode t handlers n s).1 ≠ none →
            ext.length = n ∧ ∀ x ∈ ext, x.resolved handlers = false)
        ∧ (∀ pre e post, ext = pre ++ e :: post → e.outcome = (none, none) →
            ∃ status body, e.result = .replied ⟨status, (body, none)⟩ ∧ status.tdiv 100 = 2
              ∧ ∀ u, decode = some u →
                (u body (pre.foldl (Exchange.decodeInto decode) t)).2 = none) := by
  intro n
  induction n generalizing request with
  | zero =>
    intro t s
    refine ⟨[], by simp [doJsonRequest], rfl, le_refl _, by simp, rfl, ?_, ?_, ?_⟩
    · intro h; simp [doJsonRequest] at h
    · intro _; simp
    · intro pre e post h; simp at h
  | succ n ih =>
    intro t s
    rw [doJsonRequest_succ]
    have hc := doHttpRequest_client L (request.HeaderSet "X-Vault-Token" s.client.token) decode t s
    have hl := doHttpRequest_log L (request.HeaderSet "X-Vault-Token" s.client.token) decode t s
    have hd := doHttpRequest_decodeInto L (request.HeaderSet "X-Vault-Token" s.client.token)
      decode t s
    generalize hres0 : (s.client.config.HttpClient.Do
      (request.HeaderSet "X-Vault-Token" s.client.token) s.server).1 = result at hl hd
    rcases hr : doHttpRequest L (request.HeaderSet "X-Vault-Token" s.client.token) decode t s
      with ⟨⟨ore, oerr⟩, t1, s1⟩
    rw [hr] at hc hl hd
    simp only at hc hl hd
    have step : ∀ (hun : Exchange.resolved handlers
        ⟨request.HeaderSet "X-Vault-Token" s.client.token, result, (ore, oerr)⟩ = false),
        ∃ ext : List Exchange,
        (doJsonRequest L (s.attempted request) decode t1 handlers n s1).2.2.log = s.log ++ ext
        ∧ (doJsonRequest L (s.attempted request) decode t1 handlers n s1).2.2.client = s.client
        ∧ ext.length ≤ n + 1
        ∧ (∀ e ∈ ext, e.request.Method = request.Method ∧ e.request.URL = request.URL)
        ∧ (doJsonRequest L (s.attempted request) decode t1 handlers n s1).2.1
            = ext.foldl (Exchange.decodeInto decode) t
        ∧ ((doJsonRequest L (s.attempted request) decode t1 handlers n s1).1 = none →
            ∃ pre e, ext = pre ++ [e] ∧ e.resolved handlers = true
              ∧ ∀ x ∈ pre, x.resolved handlers = false)
        ∧ ((doJsonRequest L (s.attempted request) decode t1 handlers n s1).1 ≠ none →
            ext.length = n + 1 ∧ ∀ x ∈ ext, x.resolved handlers = false)
        ∧ (∀ pre e post, ext = pre ++ e :: post → e.outcome = (none, none) →
            ∃ status body, e.result = .replied ⟨status, (body, none)⟩ ∧ status.tdiv 100 = 2
              ∧ ∀ u, decode = some u →
                (u body (pre.foldl (Exchange.decodeInto decode) t)).2 = none) := by
      intro hun
      obtain ⟨ext, h1, h2, h3, h4, h5, h6, h7, h8⟩ := ih (s.attempted request) t1 s1
      refine ⟨⟨request.HeaderSet "X-Vault-Token" s.client.token, result, (ore, oerr)⟩ :: ext,
        ?_, ?_, ?_, ?_, ?_, ?_, ?_, ?_⟩
      · rw [h1, hl]; simp
      · rw [h2, hc]
      · simp; exact h3
      · intro e he
        rcases List.mem_cons.mp he with rfl | he
        · exact ⟨rfl, rfl⟩
        · exact h4 e he
      · rw [h5, List.foldl_cons, ← hd]
      · intro hn
        obtain ⟨pre, e, rfl, he, hpre⟩ := h6 hn
        refine ⟨_ :: pre, e, rfl, he, ?_⟩
        intro x hx
        rcases List.mem_cons.mp hx with rfl | hx
        · exact hun
        · exact hpre x hx
      · intro hn
        obtain ⟨hlen, hall⟩ := h7 hn
        refine ⟨by simp [hlen], ?_⟩
        intro x hx
        rcases List.mem_cons.mp hx with rfl | hx
        · exact hun
        · exact hall x hx
      · intro pre e post hsplit hok
        cases pre with
        | nil =>
          simp only [List.nil_append, List.cons.injEq] at hsplit
          obtain ⟨he, _⟩ := hsplit
          subst he
          simp only at hok
          rw [hok] at hun
          simp [Exchange.resolved] at hun
        | cons p pre =>
          simp only [List.cons_append, List.cons.injEq] at hsplit
          obtain ⟨hp, hrest⟩ := hsplit
          subst hp
          obtain ⟨status, body, g1, g2, g3⟩ := h8 pre e post hrest hok
          refine ⟨status, body, g1, g2, ?_⟩
          intro u hu
          rw [List.foldl_cons, ← hd]
          exact g3 u hu
    have stop : ∀ (hres : Exchange.resolved handlers
        ⟨request.HeaderSet "X-Vault-Token" s.client.token, result, (ore, oerr)⟩ = true),
        ∃ ext : List Exchange,
        s1.log = s.log ++ ext
        ∧ s1.client = s.client
        ∧ ext.length ≤ n + 1
        ∧ (∀ e ∈ ext, e.request.Method = request.Method ∧ e.request.URL = request.URL)
        ∧ t1 = ext.foldl (Exchange.decodeInto decode) t
        ∧ ((none : GoError) = none →
            ∃ pre e, ext = pre ++ [e] ∧ e.resolved handlers = true
              ∧ ∀ x ∈ pre, x.resolved handlers = false)
        ∧ ((none : GoError) ≠ none →
            ext.length = n + 1 ∧ ∀ x ∈ ext, x.resolved handlers = false)
        ∧ (∀ pre e post, ext = pre ++ e :: post → e.outcome = (none, none) →
            ∃ status body, e.result = .replied ⟨status, (body, none)⟩ ∧ status.tdiv 100 = 2
              ∧ ∀ u, decode = some u →
                (u body (pre.foldl (Exchange.decodeInto decode) t)).2 = none) := by
      intro hres
      refine ⟨[⟨request.HeaderSet "X-Vault-Token" s.client.token, result, (ore, oerr)⟩],
        hl, hc, by simp,
        (fun e he => by rw [List.mem_singleton.mp he]; exact ⟨rfl, rfl⟩),
        by simp [hd], ?_, ?_, ?_⟩
      · intro _
        exact ⟨[], _, rfl, hres, by simp⟩
      · intro h; exact absurd rfl h
      · intro pre e post hsplit hok
        cases pre with
        | nil =>
          simp only [List.nil_append, List.cons.injEq] at hsplit
          obtain ⟨he, _⟩ := hsplit
          subst he
          simp only at hok
          have hr2 : (doHttpRequest L (request.HeaderSet "X-Vault-Token" s.client.token)
              decode t s).1 = (none, none) := by rw [hr]; exact hok
          obtain ⟨status, body, g1, g2, g3⟩ := doHttpRequest_decoded L _ decode t s hr2
          exact ⟨status, body, hres0 ▸ g1, g2, g3⟩
        | cons p pre =>
          simp only [List.cons_append, List.cons.injEq] at hsplit
          have := hsplit.2
          simp at this
    cases oerr with
    | some e => cases ore <;> exact step rfl
    | none =>
      cases ore with
      | none => exact stop rfl
      | some re =>
        simp only
        rw [runErrorHandlers_plain _ _ _ _ hpd]
        by_cases hb : (decide (re.status = 404)
            && handlers.contains errorHandler.expectedNotFound) = true
        · rw [hb]
          exact stop hb
        · have hb2 : (decide (re.status = 404)
              && handlers.contains errorHandler.expectedNotFound) = false := by
            simpa using hb
          rw [hb2]
          exact step hb2

theorem newJsonRequest_ok (L : Lib) (c : Client σ) (method path : String)
    (body : Option RequestBody) (request : Request)
    (h : newJsonRequest L c method path body = .ok request) :
    request.Method = method ∧ request.URL = buildVaultUrl c path
      ∧ request.Body = body.map (fun b => (L.marshal b).1) := by
  unfold newJsonRequest at h
  cases body with
  | none =>
    simp only at h
    cases hn : L.newRequest method (buildVaultUrl c path) with
    | some e => rw [hn] at h; simp at h
    | none =>
      rw [hn] at h
      simp only [Except.ok.injEq] at h
      subst h
      exact ⟨rfl, rfl, rfl⟩
  | some b =>
    rcases hm : L.marshal b with ⟨text, _ | e⟩
    · simp only [hm] at h
      cases hn : L.newRequest method (buildVaultUrl c path) with
      | some e => rw [hn] at h; simp at h
      | none =>
        rw [hn] at h
        simp only [Except.ok.injEq] at h
        subst h
        exact ⟨rfl, rfl, by simp [hm]⟩
    · simp [hm] at h

theorem decodeInto_replied {β : Type} (u : String → β → β × GoError) (v : β) (e : Exchange)
    (status : Int) (body : String) (h : e.result = .replied ⟨status, (body, none)⟩)
    (h2 : status.tdiv 100 = 2) : Exchange.decodeInto (some u) v e = (u body v).1 := by
  unfold Exchange.decodeInto
  rw [h]
  simp [h2]

theorem resolved_nil (e : Exchange) : e.resolved [] = true ↔ e.outcome = (none, none) := by
  obtain ⟨request, result, ⟨ore, oerr⟩⟩ := e
  cases ore <;> cases oerr <;> simp [Exchange.resolved]

theorem loginUrl_congr (c c2 : Client σ) (h : c2.config = c.config) :
    loginUrl c2 = loginUrl c := by
  simp [loginUrl, buildVaultUrl, h]

/-- A run of `appRoleLogin`: at most `n` exchanges, all of them posts to the
login URL; a failed login leaves the client as it is, a successful one ends
with the first resolved exchange and stores the token decoded from the answers. -/
theorem appRoleLogin_run (L : Lib) (n : Nat) (s : Session σ) :
    ∃ ext : List Exchange,
      s.Extends (appRoleLogin L n s).2 ext
      ∧ ext.length ≤ n
      ∧ (∀ e ∈ ext, e.request.URL = loginUrl s.client ∧ e.request.Method = "POST")
      ∧ ((appRoleLogin L n s).1 ≠ none →
          (appRoleLogin L n s).2.client = s.client ∧ ∀ x ∈ ext, x.resolved [] = false)
      ∧ ((appRoleLogin L n s).1 = none →
          ∃ pre e status body, ext = pre ++ [e] ∧ e.outcome = (none, none)
            ∧ (∀ x ∈ pre, x.resolved [] = false)
            ∧ e.result = .replied ⟨status, (body, none)⟩ ∧ status.tdiv 100 = 2
            ∧ (L.unmarshalLogin body (pre.foldl (Exchange.decodeInto (some L.unmarshalLogin))
                AppRoleAuth.zero)).2 = none
            ∧ (appRoleLogin L n s).2.client = { s.client with token :=
                (L.unmarshalLogin body (pre.foldl (Exchange.decodeInto (some L.unmarshalLogin))
                  AppRoleAuth.zero)).1.ClientToken }) := by
  unfold appRoleLogin appRoleLoginBody
  simp only
  cases hreq : newJsonRequest L s.client "POST" "auth/approle/login"
      (some (RequestBody.login s.client.config.RoleId s.client.config.SecretId)) with
  | error err =>
    refine ⟨[], ⟨by simp, rfl, rfl⟩, Nat.zero_le _, by simp, ?_, ?_⟩
    · intro _; exact ⟨rfl, by simp⟩
    · intro h; simp at h
  | ok jsonRequest =>
    obtain ⟨hm, hu, _⟩ := newJsonRequest_ok L s.client _ _ _ _ hreq
    obtain ⟨ext, h1, h2, h3, h4, h5, h6, h7, h8⟩ :=
      doJsonRequest_plain L jsonRequest (some L.unmarshalLogin) [] (by simp) n AppRoleAuth.zero s
    simp only
    rcases hr : doJsonRequest L jsonRequest (some L.unmarshalLogin) AppRoleAuth.zero [] n s
      with ⟨err, response, s2⟩
    rw [hr] at h1 h2 h5 h6 h7
    simp only at h1 h2 h5 h6 h7
    have hurl : ∀ e ∈ ext, e.request.URL = loginUrl s.client ∧ e.request.Method = "POST" := by
      intro e he
      exact ⟨(h4 e he).2.trans hu, (h4 e he).1.trans hm⟩
    cases err with
    | some e =>
      refine ⟨ext, ⟨h1, by rw [h2], by rw [h2]⟩, h3, hurl, ?_, ?_⟩
      · intro _; exact ⟨h2, (h7 (by simp)).2⟩
      · intro h; simp at h
    | none =>
      refine ⟨ext, ⟨h1, by simp [h2], by simp [h2]⟩, h3, hurl, ?_, ?_⟩
      · intro h; simp at h
      · intro _
        obtain ⟨pre, e, hsplit, hres, hpre⟩ := h6 rfl
        have hok : e.outcome = (none, none) := (resolved_nil e).mp hres
        obtain ⟨status, body, g1, g2, g3⟩ := h8 pre e [] hsplit hok
        refine ⟨pre, e, status, body, hsplit, hok, hpre, g1, g2, g3 _ rfl, ?_⟩
        simp only
        rw [h2, h5, hsplit, List.foldl_append, List.foldl_cons, List.foldl_nil]
        rw [decodeInto_replied _ _ _ _ _ g1 g2]

theorem Extends_refl (s : Session σ) : s.Extends s [] := ⟨by simp, rfl, rfl⟩

theorem Extends_trans {s s1 s2 : Session σ} {e1 e2 : List Exchange}
    (h1 : s.Extends s1 e1) (h2 : s1.Extends s2 e2) : s.Extends s2 (e1 ++ e2) :=
  ⟨by rw [h2.1, h1.1, List.append_assoc], h2.2.1.trans h1.2.1, h2.2.2.trans h1.2.2⟩

theorem since_of_Extends {s s2 : Session σ} {ext : List Exchange} (h : s.Extends s2 ext) :
    s.since s2 = ext := by
  unfold Session.since
  rw [h.1, List.drop_left]

theorem doHttpRequest_Extends {β : Type} (L : Lib) (request : Request)
    (decode : Option (String → β → β × GoError)) (t : β) (s : Session σ) :
    s.Extends (doHttpRequest L request decode t s).2.2
      [⟨request, (s.client.config.HttpClient.Do request s.server).1,
        (doHttpRequest L request decode t s).1⟩] :=
  ⟨rfl, rfl, rfl⟩

theorem attempts_nil (request : Request) : attempts request [] = 0 := rfl

theorem attempts_append (request : Request) (l1 l2 : List Exchange) :
    attempts request (l1 ++ l2) = attempts request l1 + attempts request l2 := by
  simp [attempts, List.countP_append]

theorem attempts_le_length (request : Request) (l : List Exchange) :
    attempts request l ≤ l.length := List.countP_le_length _

theorem attempts_eq_zero (request : Request) (l : List Exchange)
    (h : ∀ e ∈ l, e.request.URL ≠ request.URL) : attempts request l = 0 := by
  unfold attempts
  rw [List.countP_eq_zero]
  intro e he
  simpa using h e he

/-- What the handlers of one answer do when the login they may trigger has the
budget `n`: every exchange they make goes to the login URL, there are at most
`n` of them for every login handler in the chain, and they end the request only
with an error or for an expected 404. -/
theorem runErrorHandlers_run (L : Lib) (n : Nat) (responseErrs : responseErrors)
    (handlers : List errorHandler) :
    ∀ s : Session σ, ∃ ext : List Exchange,
      s.Extends (runErrorHandlers (appRoleLogin L n) responseErrs handlers s).2 ext
      ∧ (∀ e ∈ ext, e.request.URL = loginUrl s.client)
      ∧ ext.length ≤ handlers.count errorHandler.permissionDenied * n
      ∧ ((runErrorHandlers (appRoleLogin L n) responseErrs handlers s).1.1 = true →
          (runErrorHandlers (appRoleLogin L n) responseErrs handlers s).1.2 ≠ none
          ∨ (responseErrs.status = 404 ∧ errorHandler.expectedNotFound ∈ handlers)) := by
  induction handlers with
  | nil =>
    intro s
    exact ⟨[], Extends_refl s, by simp, by simp, by simp [runErrorHandlers]⟩
  | cons h rest ih =>
    intro s
    cases h with
    | expectedNotFound =>
      by_cases h404 : responseErrs.status = 404
      · refine ⟨[], ?_, by simp, by simp, ?_⟩
        · simp [runErrorHandlers, errorHandler.call, expectedNotFoundErrorHandler, h404,
            Extends_refl]
        · intro _; right; exact ⟨h404, List.mem_cons_self _ _⟩
      · obtain ⟨ext, h1, h2, h3, h4⟩ := ih s
        have e : runErrorHandlers (appRoleLogin L n) responseErrs
            (errorHandler.expectedNotFound :: rest) s
            = runErrorHandlers (appRoleLogin L n) responseErrs rest s := by
          simp [runErrorHandlers, errorHandler.call, expectedNotFoundErrorHandler, h404]
        rw [e]
        refine ⟨ext, h1, h2, ?_, ?_⟩
        · simpa using h3
        · intro hs
          rcases h4 hs with h | ⟨h, _⟩
          · left; exact h
          · exact absurd h h404
    | permissionDenied =>
      by_cases hc : responseErrs.contains "permission denied" = true
      · obtain ⟨ext1, h1, h2, h3, h4, _⟩ := appRoleLogin_run L n s
        rcases hlog : appRoleLogin L n s with ⟨err, s1⟩
        rw [hlog] at h1 h4
        simp only at h1 h4
        cases err with
        | some e =>
          refine ⟨ext1, ?_, fun e he => (h3 e he).1, ?_, ?_⟩
          · simp [runErrorHandlers, errorHandler.call, permissionDeniedErrorHandler, hc, hlog, h1]
          · rw [List.count_cons_self]
            calc ext1.length ≤ n := h2
              _ ≤ (List.count errorHandler.permissionDenied rest + 1) * n :=
                Nat.le_mul_of_pos_left _ (Nat.succ_pos _)
          · intro _; left
            simp [runErrorHandlers, errorHandler.call, permissionDeniedErrorHandler, hc, hlog]
        | none =>
          obtain ⟨ext2, g1, g2, g3, g4⟩ := ih s1
          have e : runErrorHandlers (appRoleLogin L n) responseErrs
              (errorHandler.permissionDenied :: rest) s
              = runErrorHandlers (appRoleLogin L n) responseErrs rest s1 := by
            simp [runErrorHandlers, errorHandler.call, permissionDeniedErrorHandler, hc, hlog]
          rw [e]
          refine ⟨ext1 ++ ext2, Extends_trans h1 g1, ?_, ?_, ?_⟩
          · intro x hx
            rcases List.mem_append.mp hx with hx | hx
            · exact (h3 x hx).1
            · rw [g2 x hx]; exact loginUrl_congr _ _ h1.2.1
          · rw [List.count_cons_self, List.length_append, Nat.add_mul, Nat.one_mul]
            omega
          · intro hs
            rcases g4 hs with h | ⟨h, hm⟩
            · left; exact h
            · right; exact ⟨h, List.mem_cons_of_mem _ hm⟩
      · obtain ⟨ext, h1, h2, h3, h4⟩ := ih s
        have e : runErrorHandlers (appRoleLogin L n) responseErrs
            (errorHandler.permissionDenied :: rest) s
            = runErrorHandlers (appRoleLogin L n) responseErrs rest s := by
          simp [runErrorHandlers, errorHandler.call, permissionDeniedErrorHandler, hc]
        rw [e]
        refine ⟨ext, h1, h2, ?_, ?_⟩
        · rw [List.count_cons_self, Nat.add_mul]
          omega
        · intro hs
          rcases h4 hs with h | ⟨h, hm⟩
          · left; exact h
          · right; exact ⟨h, List.mem_cons_of_mem _ hm⟩

theorem runErrorHandlers_stops_at_404 (login : Session σ → GoError × Session σ)
    (responseErrs : responseErrors) (handlers : List errorHandler) (s : Session σ)
    (h404 : responseErrs.status = 404) (hm : errorHandler.expectedNotFound ∈ handlers) :
    (runErrorHandlers login responseErrs handlers s).1.1 = true := by
  induction handlers generalizing s with
  | nil => simp at hm
  | cons h rest ih =>
    cases h with
    | expectedNotFound =>
      simp [runErrorHandlers, errorHandler.call, expectedNotFoundErrorHandler, h404]
    | permissionDenied =>
      have hm2 : errorHandler.expectedNotFound ∈ rest := by simpa using hm
      unfold runErrorHandlers
      rcases hc : errorHandler.permissionDenied.call login responseErrs s with ⟨⟨stop, err⟩, s1⟩
      simp only
      by_cases hb : (stop || err.isSome) = true
      · simp [hb]
      · simp only [hb]
        exact ih s1 hm2

theorem resolved_of_404 (handlers : List errorHandler) (request : Request) (result : HttpResult)
    (responseErrs : responseErrors) (h404 : responseErrs.status = 404)
    (hm : errorHandler.expectedNotFound ∈ handlers) :
    Exchange.resolved handlers ⟨request, result, (some responseErrs, none)⟩ = true := by
  simp [Exchange.resolved, h404, hm]

/-- A run of `doJsonRequest` with any handlers: what it sends goes to the URL of
the request or to the login URL, the request is attempted at most `n` times,
the run fails when no attempt is resolved, and with at most one login handler
in the chain there are at most `n (n + 1) / 2` exchanges. With a positive
budget the first exchange is the request carrying the token of the client. -/
theorem doJsonRequest_run {β : Type} (L : Lib) (request : Request)
    (decode : Option (String → β → β × GoError)) (handlers : List errorHandler) :
    ∀ (n : Nat) (t : β) (s : Session σ),
      ∃ ext : List Exchange,
        s.Extends (doJsonRequest L request decode t handlers n s).2.2 ext
        ∧ (∀ e ∈ ext, e.request.URL = request.URL ∨ e.request.URL = loginUrl s.client)
        ∧ (request.URL ≠ loginUrl s.client → attempts request ext ≤ n)
        ∧ ((∀ e ∈ ext, e.request.URL = request.URL → e.resolved handlers = false) →
            (doJsonRequest L request decode t handlers n s).1 ≠ none)
        ∧ (handlers.count errorHandler.permissionDenied ≤ 1 → 2 * ext.length ≤ n * (n + 1))
        ∧ (0 < n → ∃ rest, ext =
            ⟨request.HeaderSet "X-Vault-Token" s.client.token,
              (s.client.config.HttpClient.Do
                (request.HeaderSet "X-Vault-Token" s.client.token) s.server).1,
              (doHttpRequest L (request.HeaderSet "X-Vault-Token" s.client.token)
                decode t s).1⟩ :: rest) := by
  intro n
  induction n generalizing request with
  | zero =>
    intro t s
    exact ⟨[], Extends_refl s, by simp, fun _ => Nat.zero_le _, by simp [doJsonRequest],
      by simp, by simp⟩
  | succ n ih =>
    intro t s
    rw [doJsonRequest_succ]
    have hx := doHttpRequest_Extends L (request.HeaderSet "X-Vault-Token" s.client.token)
      decode t s
    generalize (s.client.config.HttpClient.Do (request.HeaderSet "X-Vault-Token" s.client.token)
      s.server).1 = result at hx
    rcases hr : doHttpRequest L (request.HeaderSet "X-Vault-Token" s.client.token) decode t s
      with ⟨⟨ore, oerr⟩, t1, s1⟩
    rw [hr] at hx
    simp only at hx
    -- the run goes on with budget `n` from a session that `mid` exchanges to the login URL led to
    have go : ∀ (s2 : Session σ) (mid : List Exchange), s1.Extends s2 mid →
        (∀ e ∈ mid, e.request.URL = loginUrl s1.client) → mid.length ≤
          handlers.count errorHandler.permissionDenied * n →
        Exchange.resolved handlers
          ⟨request.HeaderSet "X-Vault-Token" s.client.token, result, (ore, oerr)⟩ = false →
        ∃ ext : List Exchange,
        s.Extends (doJsonRequest L (s.attempted request) decode t1 handlers n s2).2.2 ext
        ∧ (∀ e ∈ ext, e.request.URL = request.URL ∨ e.request.URL = loginUrl s.client)
        ∧ (request.URL ≠ loginUrl s.client → attempts request ext ≤ n + 1)
        ∧ ((∀ e ∈ ext, e.request.URL = request.URL → e.resolved handlers = false) →
            (doJsonRequest L (s.attempted request) decode t1 handlers n s2).1 ≠ none)
        ∧ (handlers.count errorHandler.permissionDenied ≤ 1 →
            2 * ext.length ≤ (n + 1) * (n + 1 + 1))
        ∧ (0 < n + 1 → ∃ rest, ext =
            ⟨request.HeaderSet "X-Vault-Token" s.client.token, result, (ore, oerr)⟩ :: rest) := by
      intro s2 mid hmid hurl hlen _
      obtain ⟨ext3, k1, k2, k3, k4, k5, _⟩ := ih (s.attempted request) t1 s2
      have hl1 : loginUrl s1.client = loginUrl s.client := loginUrl_congr _ _ hx.2.1
      have hl2 : loginUrl s2.client = loginUrl s.client :=
        (loginUrl_congr _ _ hmid.2.1).trans hl1
      refine ⟨[⟨request.HeaderSet "X-Vault-Token" s.client.token, result, (ore, oerr)⟩]
        ++ mid ++ ext3, Extends_trans (Extends_trans hx hmid) k1, ?_, ?_, ?_, ?_, ?_⟩
      · intro e he
        rcases List.mem_append.mp he with he | he
        · rcases List.mem_append.mp he with he | he
          · left
            rw [List.mem_singleton.mp he]
            rfl
          · right; rw [hurl e he, hl1]
        · rcases k2 e he with h | h
          · left; exact h
          · right; rw [h, hl2]
      · intro hne
        rw [attempts_append, attempts_append]
        have a1 : attempts request
            [⟨request.HeaderSet "X-Vault-Token" s.client.token, result, (ore, oerr)⟩] ≤ 1 :=
          attempts_le_length _ _
        have a2 : attempts request mid = 0 := by
          apply attempts_eq_zero
          intro e he h
          exact hne (by rw [← h, hurl e he, hl1])
        have a3 : attempts request ext3 ≤ n := k3 (by rw [hl2]; exact hne)
        omega
      · intro hall
        apply k4
        intro e he
        exact hall e (List.mem_append_right _ he)
      · intro hcount
        have b1 := k5 hcount
        have b2 : mid.length ≤ n := by
          calc mid.length ≤ handlers.count errorHandler.permissionDenied * n := hlen
            _ ≤ 1 * n := Nat.mul_le_mul_right _ hcount
            _ = n := Nat.one_mul n
        simp only [List.length_append, List.length_singleton]
        have e1 : (n + 1) * (n + 1 + 1) = n * (n + 1) + 2 * n + 2 := by ring
        omega
      · intro _
        exact ⟨mid ++ ext3, by simp⟩
    -- the run ends after `mid` exchanges to the login URL
    have halt : ∀ (s2 : Session σ) (mid : List Exchange) (err : GoError), s1.Extends s2 mid →
        (∀ e ∈ mid, e.request.URL = loginUrl s1.client) → mid.length ≤
          handlers.count errorHandler.permissionDenied * n →
        (Exchange.resolved handlers
          ⟨request.HeaderSet "X-Vault-Token" s.client.token, result, (ore, oerr)⟩ = false →
          err ≠ none) →
        ∃ ext : List Exchange,
        s.Extends s2 ext
        ∧ (∀ e ∈ ext, e.request.URL = request.URL ∨ e.request.URL = loginUrl s.client)
        ∧ (request.URL ≠ loginUrl s.client → attempts request ext ≤ n + 1)
        ∧ ((∀ e ∈ ext, e.request.URL = request.URL → e.resolved handlers = false) →
            err ≠ none)
        ∧ (handlers.count errorHandler.permissionDenied ≤ 1 →
            2 * ext.length ≤ (n + 1) * (n + 1 + 1))
        ∧ (0 < n + 1 → ∃ rest, ext =
            ⟨request.HeaderSet "X-Vault-Token" s.client.token, result, (ore, oerr)⟩ :: rest) := by
      intro s2 mid err hmid hurl hlen herr
      have hl1 : loginUrl s1.client = loginUrl s.client := loginUrl_congr _ _ hx.2.1
      refine ⟨[⟨request.HeaderSet "X-Vault-Token" s.client.token, result, (ore, oerr)⟩]
        ++ mid, Extends_trans hx hmid, ?_, ?_, ?_, ?_, ?_⟩
      · intro e he
        rcases List.mem_append.mp he with he | he
        · left
          rw [List.mem_singleton.mp he]
          rfl
        · right; rw [hurl e he, hl1]
      · intro hne
        rw [attempts_append]
        have a1 : attempts request
            [⟨request.HeaderSet "X-Vault-Token" s.client.token, result, (ore, oerr)⟩] ≤ 1 :=
          attempts_le_length _ _
        have a2 : attempts request mid = 0 := by
          apply attempts_eq_zero
          intro e he h
          exact hne (by rw [← h, hurl e he, hl1])
        omega
      · intro hall
        apply herr
        exact hall _ (List.mem_append_left _ (List.mem_singleton.mpr rfl)) rfl
      · intro hcount
        have b2 : mid.length ≤ n := by
          calc mid.length ≤ handlers.count errorHandler.permissionDenied * n := hlen
            _ ≤ 1 * n := Nat.mul_le_mul_right _ hcount
            _ = n := Nat.one_mul n
        simp only [List.length_append, List.length_singleton]
        have e1 : (n + 1) * (n + 1 + 1) = n * (n + 1) + 2 * n + 2 := by ring
        omega
      · intro _
        exact ⟨mid, by simp⟩
    cases oerr with
    | some e =>
      cases ore <;>
        exact go s1 [] (Extends_refl s1) (by simp) (by simp) rfl
    | none =>
      cases ore with
      | none =>
        exact halt s1 [] none (Extends_refl s1) (by simp) (by simp)
          (fun h => by simp [Exchange.resolved] at h)
      | some re =>
        simp only
        obtain ⟨mid, m1, m2, m3, m4⟩ := runErrorHandlers_run L n re handlers s1
        rcases hh : runErrorHandlers (appRoleLogin L n) re handlers s1 with ⟨⟨stop, err⟩, s2⟩
        rw [hh] at m1 m4
        simp only at m1 m4
        cases stop with
        | true =>
          refine halt s2 mid err m1 m2 m3 ?_
          intro hun
          rcases m4 rfl with h | ⟨h404, hm⟩
          · exact h
          · rw [resolved_of_404 handlers _ _ re h404 hm] at hun
            exact absurd hun (by simp)
        | false =>
          by_cases hres : Exchange.resolved handlers
              ⟨request.HeaderSet "X-Vault-Token" s.client.token, result, (some re, none)⟩ = true
          · -- a resolved answer among handlers that did not stop: cannot happen
            exfalso
            have h404 : re.status = 404
                ∧ errorHandler.expectedNotFound ∈ handlers := by
              simpa [Exchange.resolved] using hres
            have hstop := runErrorHandlers_stops_at_404 (appRoleLogin L n) re handlers s1
              h404.1 h404.2
            rw [hh] at hstop
            simp at hstop
          · exact go s2 mid m1 m2 m3 (by simpa using hres)

theorem since_self (s : Session σ) : s.since s = [] := by
  simp [Session.since]

/-- The first exchange of a `doJsonRequest` with the budget `httpNumberOfRetries`
is the request with the token of the client; the run extends the log. -/
theorem doJsonRequest_first {β : Type} (L : Lib) (request : Request)
    (decode : Option (String → β → β × GoError)) (t : β) (handlers : List errorHandler)
    (s : Session σ) :
    ∃ first rest,
      s.since (doJsonRequest L request decode t handlers httpNumberOfRetries s).2.2 = first :: rest
      ∧ (doJsonRequest L request decode t handlers httpNumberOfRetries s).2.2.log
          = s.log ++ first :: rest
      ∧ first.request = request.HeaderSet "X-Vault-Token" s.client.token := by
  obtain ⟨ext, h1, _, _, _, _, h6⟩ := doJsonRequest_run L request decode handlers
    httpNumberOfRetries t s
  obtain ⟨rest, hrest⟩ := h6 (by decide)
  refine ⟨⟨request.HeaderSet "X-Vault-Token" s.client.token,
    (s.client.config.HttpClient.Do (request.HeaderSet "X-Vault-Token" s.client.token)
      s.server).1,
    (doHttpRequest L (request.HeaderSet "X-Vault-Token" s.client.token) decode t s).1⟩,
    rest, ?_, ?_, rfl⟩
  · rw [since_of_Extends h1, hrest]
  · rw [h1.1, hrest]

/-- C15: `CreateRole` first reads the stored role, and everything it sends
after the read (`posts`) is decided by the read. Something is sent after the
read if and only if the read succeeded, the stored role is absent or not
`Equal` to `role`, and the library builds the request; what is then sent first
is the POST for `name` with the token of the client, carrying the role. When
the read fails its error is returned, when the stored role is `Equal` to
`role` nil is returned, and in both cases the session is the one the read
left: nothing is written. -/
theorem CreateRole_posts_exactly_when_absent_or_changed (L : Lib) (name : String) (role : Role)
    (s : Session σ) :
    (CreateRole L name role s).2.log
        = (readRole L name s).2.log ++ (readRole L name s).2.since (CreateRole L name role s).2
    ∧ ((readRole L name s).2.since (CreateRole L name role s).2 ≠ [] ↔
        (readRole L name s).1.2 = none
        ∧ (∀ existing, (readRole L name s).1.1 = some existing → (role.Equal existing).1 = false)
        ∧ ∃ jsonRequest, newJsonRequest L (readRole L name s).2.client "POST"
            ("auth/" ++ (readRole L name s).2.client.mount ++ "/role/" ++ name)
            (some (RequestBody.role (match (readRole L name s).1.1 with
              | some existing => (role.Equal existing).2.1
              | none => role))) = .ok jsonRequest)
    ∧ (∀ first ∈ ((readRole L name s).2.since (CreateRole L name role s).2).head?,
        first.request.Method = "POST"
        ∧ first.request.URL = buildVaultUrl (readRole L name s).2.client
            ("auth/" ++ (readRole L name s).2.client.mount ++ "/role/" ++ name)
        ∧ first.request.Header.get? "X-Vault-Token" = some (readRole L name s).2.client.token
        ∧ first.request.Body = some (L.marshal (RequestBody.role
            (match (readRole L name s).1.1 with
              | some existing => (role.Equal existing).2.1
              | none => role))).1)
    ∧ (∀ err, (readRole L name s).1.2 = some err →
        CreateRole L name role s = (some err, (readRole L name s).2))
    ∧ (∀ existing, (readRole L name s).1 = (some existing, none) →
        (role.Equal existing).1 = true →
        CreateRole L name role s = (none, (readRole L name s).2)) := by
  unfold CreateRole
  rcases hrd : readRole L name s with ⟨⟨existing, err⟩, s1⟩
  simp only
  cases err with
  | some e =>
    simp only [since_self, List.append_nil, ne_eq, not_true_eq_false, false_iff]
    refine ⟨trivial, by simp, by simp, ?_, by simp⟩
    intro err h
    rw [Option.some.injEq] at h
    rw [h]
  | none =>
    cases existing with
    | some ex =>
      by_cases heq : (role.Equal ex).1 = true
      · simp only [heq, if_true, since_self, List.append_nil, ne_eq, not_true_eq_false,
          false_iff]
        refine ⟨trivial, ?_, by simp, by simp, by simp⟩
        intro h
        have := h.2.1 ex rfl
        rw [heq] at this
        exact absurd this (by simp)
      · have heq2 : (role.Equal ex).1 = false := by simpa using heq
        simp only [heq2, Bool.false_eq_true, if_false]
        cases hreq : newJsonRequest L s1.client "POST"
            ("auth/" ++ s1.client.mount ++ "/role/" ++ name)
            (some (RequestBody.role (role.Equal ex).2.1)) with
        | error e =>
          simp only [since_self, List.append_nil, ne_eq, not_true_eq_false, false_iff]
          refine ⟨trivial, ?_, by simp, by simp, by simp [heq2]⟩
          rintro ⟨_, _, jr, hjr⟩
          simp at hjr
        | ok jsonRequest =>
          obtain ⟨hm, hu, hb⟩ := newJsonRequest_ok L s1.client _ _ _ _ hreq
          obtain ⟨first, rest, f1, f2, f3⟩ := doJsonRequest_first L jsonRequest
            (none : Option (String → Unit → Unit × GoError)) ()
            [errorHandler.permissionDenied] s1
          simp only
          rw [f1]
          refine ⟨f2, ?_, ?_, by simp, by simp [heq2]⟩
          · simp only [ne_eq, reduceCtorEq, not_false_eq_true, true_iff]
            refine ⟨trivial, ?_, jsonRequest, rfl⟩
            intro existing h
            rw [Option.some.injEq] at h
            rw [← h]; exact heq2
          · intro x hx
            simp only [List.head?_cons, Option.mem_def, Option.some.injEq] at hx
            subst hx
            rw [f3]
            refine ⟨hm, hu, ?_, ?_⟩
            · simp [Request.HeaderSet, GoMap.get?_set]
            · simpa [Request.HeaderSet] using hb
    | none =>
      simp only [Bool.false_eq_true, if_false]
      cases hreq : newJsonRequest L s1.client "POST"
          ("auth/" ++ s1.client.mount ++ "/role/" ++ name)
          (some (RequestBody.role role)) with
      | error e =>
        simp only [since_self, List.append_nil, ne_eq, not_true_eq_false, false_iff]
        refine ⟨trivial, ?_, by simp, by simp, by simp⟩
        rintro ⟨_, _, jr, hjr⟩
        simp at hjr
      | ok jsonRequest =>
        obtain ⟨hm, hu, hb⟩ := newJsonRequest_ok L s1.client _ _ _ _ hreq
        obtain ⟨first, rest, f1, f2, f3⟩ := doJsonRequest_first L jsonRequest
          (none : Option (String → Unit → Unit × GoError)) ()
          [errorHandler.permissionDenied] s1
        simp only
        rw [f1]
        refine ⟨f2, ?_, ?_, by simp, by simp⟩
        · simp only [ne_eq, reduceCtorEq, not_false_eq_true, true_iff]
          exact ⟨trivial, by simp, jsonRequest, rfl⟩
        · intro x hx
          simp only [List.head?_cons, Option.mem_def, Option.some.injEq] at hx
          subst hx
          rw [f3]
          refine ⟨hm, hu, ?_, ?_⟩
          · simp [Request.HeaderSet, GoMap.get?_set]
          · simpa [Request.HeaderSet] using hb

/-- C16: `DeleteRole` first reads the stored role, and everything it sends
after the read is decided by the read. Something is sent after the read if and
only if the read succeeded and returned a role (and the library builds the
request); what is then sent first is the DELETE for `name` with the token of
the client. When the read fails its error is returned, when the role is absent
nil is returned, and in both cases the session is the one the read left:
no DELETE is sent. -/
theorem DeleteRole_deletes_exactly_when_present (L : Lib) (name : String) (s : Session σ) :
    (DeleteRole L name s).2.log
        = (readRole L name s).2.log ++ (readRole L name s).2.since (DeleteRole L name s).2
    ∧ ((readRole L name s).2.since (DeleteRole L name s).2 ≠ [] ↔
        (readRole L name s).1.2 = none
        ∧ (readRole L name s).1.1 ≠ none
        ∧ ∃ jsonRequest, newJsonRequest L (readRole L name s).2.client "DELETE"
            ("auth/" ++ (readRole L name s).2.client.mount ++ "/role/" ++ name) none
            = .ok jsonRequest)
    ∧ (∀ first ∈ ((readRole L name s).2.since (DeleteRole L name s).2).head?,
        first.request.Method = "DELETE"
        ∧ first.request.URL = buildVaultUrl (readRole L name s).2.client
            ("auth/" ++ (readRole L name s).2.client.mount ++ "/role/" ++ name)
        ∧ first.request.Header.get? "X-Vault-Token" = some (readRole L name s).2.client.token
        ∧ first.request.Body = none)
    ∧ (∀ err, (readRole L name s).1.2 = some err →
        DeleteRole L name s = (some err, (readRole L name s).2))
    ∧ ((readRole L name s).1 = (none, none) →
        DeleteRole L name s = (none, (readRole L name s).2)) := by
  unfold DeleteRole
  rcases hrd : readRole L name s with ⟨⟨existing, err⟩, s1⟩
  simp only
  cases err with
  | some e =>
    simp only [since_self, List.append_nil, ne_eq, not_true_eq_false, false_iff]
    refine ⟨trivial, by simp, by simp, ?_, by simp⟩
    intro err h
    rw [Option.some.injEq] at h
    rw [h]
  | none =>
    cases existing with
    | none =>
      simp only [since_self, List.append_nil, ne_eq, not_true_eq_false, false_iff]
      exact ⟨trivial, by simp, by simp, by simp, by simp⟩
    | some ex =>
      simp only
      cases hreq : newJsonRequest L s1.client "DELETE"
          ("auth/" ++ s1.client.mount ++ "/role/" ++ name) none with
      | error e =>
        simp only [since_self, List.append_nil, ne_eq, not_true_eq_false, false_iff]
        refine ⟨trivial, ?_, by simp, by simp, by simp⟩
        rintro ⟨_, _, jr, hjr⟩
        simp at hjr
      | ok jsonRequest =>
        obtain ⟨hm, hu, hb⟩ := newJsonRequest_ok L s1.client _ _ _ _ hreq
        obtain ⟨first, rest, f1, f2, f3⟩ := doJsonRequest_first L jsonRequest
          (none : Option (String → Unit → Unit × GoError)) ()
          [errorHandler.permissionDenied, errorHandler.expectedNotFound] s1
        simp only
        rw [f1]
        refine ⟨f2, ?_, ?_, by simp, by simp⟩
        · simp only [ne_eq, reduceCtorEq, not_false_eq_true, true_iff]
          exact ⟨trivial, trivial, jsonRequest, rfl⟩
        · intro x hx
          simp only [List.head?_cons, Option.mem_def, Option.some.injEq] at hx
          subst hx
          rw [f3]
          refine ⟨hm, hu, ?_, ?_⟩
          · simp [Request.HeaderSet, GoMap.get?_set]
          · simpa [Request.HeaderSet] using hb

set_option maxRecDepth 100000 in
/-- Witness of C15: a store that already holds the desired role is read once and
nothing is written. -/
theorem CreateRole_posts_exactly_when_absent_or_changed_witness :
    CreateRole exampleLib "test1" exampleRole (exampleSession [answer 200 exampleRoleBody])
        = (none, (readRole exampleLib "test1" (exampleSession [answer 200 exampleRoleBody])).2)
      ∧ (CreateRole exampleLib "test1" exampleRole
          (exampleSession [answer 200 exampleRoleBody])).2.log.length = 1 :=
  ⟨(CreateRole_posts_exactly_when_absent_or_changed exampleLib "test1" exampleRole
      (exampleSession [answer 200 exampleRoleBody])).2.2.2.2 exampleRole (by decide) (by decide),
    by decide⟩

set_option maxRecDepth 100000 in
/-- Witness of C16: a role that the store does not hold (404 on the read) is not
deleted. -/
theorem DeleteRole_deletes_exactly_when_present_witness :
    DeleteRole exampleLib "test1" (exampleSession [answer 404 ""])
        = (none, (readRole exampleLib "test1" (exampleSession [answer 404 ""])).2)
      ∧ (DeleteRole exampleLib "test1" (exampleSession [answer 404 ""])).2.log.length = 1 :=
  ⟨(DeleteRole_deletes_exactly_when_present exampleLib "test1"
      (exampleSession [answer 404 ""])).2.2.2.2 (by decide),
    by decide⟩

/-- What `doHttpRequest` makes of an answer that is not 2xx and whose body was
read and decoded (or is empty). -/
theorem doHttpRequest_of_errors {β : Type} (L : Lib) (request : Request)
    (decode : Option (String → β → β × GoError)) (t : β) (s : Session σ)
    (status : Int) (body : String) (server2 : σ)
    (hDo : s.client.config.HttpClient.Do request s.server = (answer status body, server2))
    (h2 : status.tdiv 100 ≠ 2) (hbody : (decodedErrors L body).2 = none) :
    doHttpRequest L request decode t s
      = ((some ⟨status, (decodedErrors L body).1⟩, none), t,
          { s with server := server2, log := s.log ++ [⟨request, answer status body,
            (some ⟨status, (decodedErrors L body).1⟩, none)⟩] }) := by
  unfold doHttpRequest
  rw [hDo]
  unfold decodedErrors at hbody ⊢
  by_cases hb : body.length > 0
  · rw [if_pos hb] at hbody
    rcases hu : L.unmarshalErrors body with ⟨errs, _ | e⟩
    · simp [answer, h2, hb, hu]
    · rw [hu] at hbody; simp at hbody
  · simp [answer, h2, hb]

set_option maxRecDepth 100000 in
/-- C17 (the code does not keep this): `doHttpRequest` decodes the body of every
answer that is not 2xx before a handler sees its status, and the handler for the
expected not-found does not clear the response value of its caller. A 404 with a
body that is not JSON (here the text `404 page not found`) is a decoding
failure: `ListRoles` sends the request three times and returns the error
`number of retries exceeded`, and so does `readRole`. A 404 that answers the
second attempt of `readRole`, after a 200 whose body was decoded in part, makes
`readRole` return the role that the first answer left in the response value,
with no error. A 404 whose error list holds `permission denied` makes `readRole`
log in before it accepts the answer: two exchanges are made. -/
theorem ListRoles_retries_a_404_that_does_not_decode :
    (ListRoles exampleLib (exampleSession [answer 404 "404 page not found",
        answer 404 "404 page not found", answer 404 "404 page not found"])).1
      = (none, some "number of retries exceeded")
    ∧ ((ListRoles exampleLib (exampleSession [answer 404 "404 page not found",
        answer 404 "404 page not found", answer 404 "404 page not found"])).2.log.map
          (fun e => e.request.Method)) = ["LIST", "LIST", "LIST"]
    ∧ (readRole exampleLib "test1" (exampleSession [answer 404 "404 page not found",
        answer 404 "404 page not found", answer 404 "404 page not found"])).1
      = (none, some "number of retries exceeded")
    ∧ (readRole exampleMistypedLib "test1" (exampleSession [answer 200 exampleMistypedRoleBody,
        answer 404 ""])).1 = (some ⟨some ["a"], none, none, 0⟩, none)
    ∧ ((readRole exampleMistypedLib "test1" (exampleSession
        [answer 200 exampleMistypedRoleBody, answer 404 ""])).2.log.map
          (fun e => (e.request.Method, e.outcome.1.map (fun r => r.status))))
      = [("GET", none), ("GET", some 404)]
    ∧ (readRole exampleLib "test1" (exampleSession [answer 404 permissionDeniedBody,
        answer 200 exampleLoginBody])).1 = (none, none)
    ∧ ((readRole exampleLib "test1" (exampleSession [answer 404 permissionDeniedBody,
        answer 200 exampleLoginBody])).2.log.map (fun e => e.request.Method))
      = ["GET", "POST"] := by
  decide

/-- A 404 that is accepted at once: when the store answers the first attempt of
`ListRoles` with HTTP 404 and a body that is empty or decodes to an error list
without `permission denied`, `ListRoles` returns the nil list and no error, and
that exchange is the only one it makes; the same holds for `readRole`, which
returns no role and no error. -/
theorem ListRoles_and_readRole_accept_a_decoded_404 (L : Lib) (s : Session σ) (body : String)
    (server2 : σ) (hbody : (decodedErrors L body).2 = none)
    (hpd : "permission denied" ∉ (decodedErrors L body).1.elems) :
    (∀ jsonRequest,
      newJsonRequest L s.client "LIST" ("auth/" ++ s.client.mount ++ "/role") none
        = .ok jsonRequest →
      s.client.config.HttpClient.Do (jsonRequest.HeaderSet "X-Vault-Token" s.client.token)
        s.server = (answer 404 body, server2) →
      ListRoles L s = ((none, none), { s with server := server2, log := s.log ++
        [⟨jsonRequest.HeaderSet "X-Vault-Token" s.client.token, answer 404 body,
          (some ⟨404, (decodedErrors L body).1⟩, none)⟩] }))
    ∧ (∀ name jsonRequest,
      newJsonRequest L s.client "GET" ("auth/" ++ s.client.mount ++ "/role/" ++ name) none
        = .ok jsonRequest →
      s.client.config.HttpClient.Do (jsonRequest.HeaderSet "X-Vault-Token" s.client.token)
        s.server = (answer 404 body, server2) →
      readRole L name s = ((none, none), { s with server := server2, log := s.log ++
        [⟨jsonRequest.HeaderSet "X-Vault-Token" s.client.token, answer 404 body,
          (some ⟨404, (decodedErrors L body).1⟩, none)⟩] })) := by
  have hc : responseErrors.contains ⟨404, (decodedErrors L body).1⟩ "permission denied"
      = false := by
    simp only [responseErrors.contains, List.any_eq_false, decide_eq_true_eq]
    intro x hx hxe
    exact hpd (hxe ▸ hx)
  have hrun : ∀ (login : Session σ → GoError × Session σ) (s1 : Session σ),
      runErrorHandlers login ⟨404, (decodedErrors L body).1⟩
        [errorHandler.permissionDenied, errorHandler.expectedNotFound] s1
        = ((true, none), s1) := by
    intro login s1
    simp [runErrorHandlers, errorHandler.call, permissionDeniedErrorHandler, hc,
      expectedNotFoundErrorHandler]
  constructor
  · intro jsonRequest hreq hDo
    unfold ListRoles
    simp only [hreq, httpNumberOfRetries]
    rw [doJsonRequest_succ,
      doHttpRequest_of_errors L _ _ _ s 404 body server2 hDo (by decide) hbody]
    simp only [hrun]
  · intro name jsonRequest hreq hDo
    unfold readRole
    simp only [hreq, httpNumberOfRetries]
    rw [doJsonRequest_succ,
      doHttpRequest_of_errors L _ _ _ s 404 body server2 hDo (by decide) hbody]
    simp only [hrun]

set_option maxRecDepth 100000 in
/-- The 404 with an empty body of the test "when list roles returns 404 then no
error and no roles are returned" is accepted at once. -/
theorem ListRoles_and_readRole_accept_a_decoded_404_witness :
    (ListRoles exampleLib (exampleSession [answer 404 ""])).1 = (none, none)
    ∧ ((ListRoles exampleLib (exampleSession [answer 404 ""])).2.log.map
        (fun e => e.request)) = [exampleRequest.HeaderSet "X-Vault-Token" "ABC123"] :=
  have h := (ListRoles_and_readRole_accept_a_decoded_404 exampleLib
    (exampleSession [answer 404 ""]) "" [] (by decide) (by decide)).1
    exampleRequest (by rfl) (by rfl)
  ⟨by rw [h], by rw [h]; rfl⟩

/-- The handlers of a rejected token, when the login succeeds and no handler
accepts the answer: the session is the one the login left, and the request
goes on. -/
theorem runErrorHandlers_relogin (login : Session σ → GoError × Session σ)
    (responseErrs : responseErrors) (handlers : List errorHandler) (s s2 : Session σ)
    (hcount : handlers.count errorHandler.permissionDenied = 1)
    (hpd : responseErrs.contains "permission denied" = true)
    (h404 : errorHandler.expectedNotFound ∈ handlers → responseErrs.status ≠ 404)
    (hlogin : login s = (none, s2)) :
    runErrorHandlers login responseErrs handlers s = ((false, none), s2) := by
  induction handlers with
  | nil => simp at hcount
  | cons h rest ih =>
    cases h with
    | expectedNotFound =>
      have hne : responseErrs.status ≠ 404 := h404 (List.mem_cons_self _ _)
      have hc : rest.count errorHandler.permissionDenied = 1 := by
        simpa [List.count_cons] using hcount
      simp only [runErrorHandlers, errorHandler.call, expectedNotFoundErrorHandler, hne,
        if_false, Bool.false_or, Option.isSome_none, Bool.false_eq_true]
      exact ih hc (fun hm => h404 (List.mem_cons_of_mem _ hm))
    | permissionDenied =>
      have hc : rest.count errorHandler.permissionDenied = 0 := by
        simpa [List.count_cons] using hcount
      have hrest : errorHandler.permissionDenied ∉ rest := List.count_eq_zero.mp hc
      have hb : (decide (responseErrs.status = 404)
          && rest.contains errorHandler.expectedNotFound) = false := by
        by_cases hm : errorHandler.expectedNotFound ∈ rest
        · have := h404 (List.mem_cons_of_mem _ hm)
          simp [this]
        · simp [hm]
      simp only [runErrorHandlers, errorHandler.call, permissionDeniedErrorHandler, hpd,
        if_true, hlogin, Bool.false_or, Option.isSome_none, Bool.false_eq_true, if_false]
      rw [runErrorHandlers_plain login responseErrs rest s2 hrest, hb]

set_option maxRecDepth 100000 in
/-- C18 as stated does not hold for every non-2xx answer and every request.
`readRole` runs with the budget 3 and the handlers for permission denied and for
the expected not-found. The store answers the first attempt with 404 and the
error `permission denied`, the login succeeds at once with the token `5b1a0318`,
and the next answer of the store would be a 200 with the role: the client logs
in, stores the new token, and returns success without sending the request again;
the third answer is never asked for. -/
theorem readRole_404_permission_denied_is_not_retried :
    (readRole exampleLib "test1" (exampleSession [answer 404 permissionDeniedBody,
        answer 200 exampleLoginBody, answer 200 exampleRoleBody])).1 = (none, none)
    ∧ ((readRole exampleLib "test1" (exampleSession [answer 404 permissionDeniedBody,
        answer 200 exampleLoginBody, answer 200 exampleRoleBody])).2.log.map
          (fun e => (e.request.Method, e.request.URL)))
      = [("GET", "http://127.0.0.1:8200/v1/auth/kubernetes/hcom-sandbox-aws/backend/role/test1"),
          ("POST", "http://127.0.0.1:8200/v1/auth/approle/login")]
    ∧ (readRole exampleLib "test1" (exampleSession [answer 404 permissionDeniedBody,
        answer 200 exampleLoginBody, answer 200 exampleRoleBody])).2.client.token = "5b1a0318"
    ∧ (readRole exampleLib "test1" (exampleSession [answer 404 permissionDeniedBody,
        answer 200 exampleLoginBody, answer 200 exampleRoleBody])).2.server
      = [answer 200 exampleRoleBody] := by
  decide

/-- C18, amended: for every budget `m + 2` and every handler chain with exactly
one handler for permission denied: if the first attempt of the request gets a
non-2xx answer whose error list contains `permission denied` (and whose status
is not 404 when the handler for the expected not-found is in the chain), the
login that follows succeeds at its first attempt with the token
`auth.ClientToken`, and the next attempt of the request is answered 2xx and
decoded, then `doJsonRequest` returns success after exactly three exchanges: the
request, one login, the request again; the retried request is the request
object as the first attempt left it (same method and URL, the body as far as
the first call of `Do` left it to read) and carries
`X-Vault-Token = auth.ClientToken`, and that is the token of the client
afterwards. -/
theorem doJsonRequest_relogin_and_one_retry {β : Type} (L : Lib) (request : Request)
    (decode : Option (String → β → β × GoError)) (t : β) (handlers : List errorHandler)
    (m : Nat) (s : Session σ)
    (hcount : handlers.count errorHandler.permissionDenied = 1)
    (responseErrs : responseErrors) (t1 : β) (s1 : Session σ)
    (h1 : doHttpRequest L (request.HeaderSet "X-Vault-Token" s.client.token) decode t s
      = ((some responseErrs, none), t1, s1))
    (hpd : responseErrs.contains "permission denied" = true)
    (h404 : errorHandler.expectedNotFound ∈ handlers → responseErrs.status ≠ 404)
    (loginRequest : Request)
    (hlreq : newJsonRequest L s.client "POST" "auth/approle/login"
      (some (RequestBody.login s.client.config.RoleId s.client.config.SecretId))
      = .ok loginRequest)
    (auth : AppRoleAuth) (s2 : Session σ)
    (h2 : doHttpRequest L (loginRequest.HeaderSet "X-Vault-Token" s.client.token)
      (some L.unmarshalLogin) AppRoleAuth.zero s1 = ((none, none), auth, s2))
    (t3 : β) (s3 : Session σ)
    (h3 : doHttpRequest L ((s.attempted request).HeaderSet "X-Vault-Token" auth.ClientToken)
      decode t1 { s2 with client := { s2.client with token := auth.ClientToken } }
      = ((none, none), t3, s3)) :
    doJsonRequest L request decode t handlers (m + 2) s = (none, t3, s3)
    ∧ (s.since s3).map (fun e => (e.request, e.outcome))
      = [(request.HeaderSet "X-Vault-Token" s.client.token, (some responseErrs, none)),
          (loginRequest.HeaderSet "X-Vault-Token" s.client.token, (none, none)),
          ((s.attempted request).HeaderSet "X-Vault-Token" auth.ClientToken, (none, none))]
    ∧ ((s.attempted request).HeaderSet "X-Vault-Token" auth.ClientToken).Header.get?
        "X-Vault-Token" = some auth.ClientToken
    ∧ ((s.attempted request).HeaderSet "X-Vault-Token" auth.ClientToken).Method = request.Method
    ∧ ((s.attempted request).HeaderSet "X-Vault-Token" auth.ClientToken).URL = request.URL
    ∧ ((s.attempted request).HeaderSet "X-Vault-Token" auth.ClientToken).Body
        = request.Body.map (fun _ => s.client.config.HttpClient.Unread
            (request.HeaderSet "X-Vault-Token" s.client.token) s.server)
    ∧ s3.client.token = auth.ClientToken := by
  have c1 : s1.client = s.client := by
    have := doHttpRequest_client L (request.HeaderSet "X-Vault-Token" s.client.token) decode t s
    rw [h1] at this; exact this
  have l1 := doHttpRequest_log L (request.HeaderSet "X-Vault-Token" s.client.token) decode t s
  rw [h1] at l1
  have c2 : s2.client = s1.client := by
    have := doHttpRequest_client L (loginRequest.HeaderSet "X-Vault-Token" s.client.token)
      (some L.unmarshalLogin) AppRoleAuth.zero s1
    rw [h2] at this; exact this
  have l2 := doHttpRequest_log L (loginRequest.HeaderSet "X-Vault-Token" s.client.token)
    (some L.unmarshalLogin) AppRoleAuth.zero s1
  rw [h2] at l2
  have c3 := doHttpRequest_client L
    ((s.attempted request).HeaderSet "X-Vault-Token" auth.ClientToken)
    decode t1 { s2 with client := { s2.client with token := auth.ClientToken } }
  rw [h3] at c3
  have l3 := doHttpRequest_log L
    ((s.attempted request).HeaderSet "X-Vault-Token" auth.ClientToken)
    decode t1 { s2 with client := { s2.client with token := auth.ClientToken } }
  rw [h3] at l3
  simp only at l1 l2 l3 c3
  have hlogin : appRoleLogin L (m + 1) s1
      = (none, { s2 with client := { s2.client with token := auth.ClientToken } }) := by
    unfold appRoleLogin appRoleLoginBody
    simp only [c1, hlreq]
    rw [doJsonRequest_succ, c1, h2]
  refine ⟨?_, ?_, ?_, rfl, rfl, rfl, ?_⟩
  · rw [doJsonRequest_succ, h1]
    simp only
    rw [runErrorHandlers_relogin _ _ _ _ _ hcount hpd h404 hlogin]
    simp only
    rw [doJsonRequest_succ]
    simp only
    rw [h3]
  · unfold Session.since
    rw [l3, l2, l1]
    simp
  · simp [Request.HeaderSet, GoMap.get?_set]
  · rw [c3]

set_option maxRecDepth 100000 in
/-- Witness of the amended C18: the test "when token is expired then login needs
to happen to re-generate token before the request". -/
theorem doJsonRequest_relogin_and_one_retry_witness :
    (doJsonRequest exampleLib exampleRequest (some exampleLib.unmarshalKeys) none
        [errorHandler.permissionDenied, errorHandler.expectedNotFound] 3
        expiredTokenSession).1 = none
    ∧ (doJsonRequest exampleLib exampleRequest (some exampleLib.unmarshalKeys) none
        [errorHandler.permissionDenied, errorHandler.expectedNotFound] 3
        expiredTokenSession).2.1 = some ["test1"]
    ∧ (doJsonRequest exampleLib exampleRequest (some exampleLib.unmarshalKeys) none
        [errorHandler.permissionDenied, errorHandler.expectedNotFound] 3
        expiredTokenSession).2.2.client.token = "5b1a0318" :=
  have h := (doJsonRequest_relogin_and_one_retry exampleLib exampleRequest
    (some exampleLib.unmarshalKeys) none
    [errorHandler.permissionDenied, errorHandler.expectedNotFound] 1 expiredTokenSession
    (by decide) ⟨403, some ["permission denied"]⟩ none
    (doHttpRequest exampleLib (exampleRequest.HeaderSet "X-Vault-Token" "expired-token")
      (some exampleLib.unmarshalKeys) none expiredTokenSession).2.2
    (by rfl) (by decide) (fun _ => by decide) exampleLoginRequest (by rfl)
    ⟨true, 1200, some ["default"], "fd6c9a00", "5b1a0318"⟩
    (doHttpRequest exampleLib (exampleLoginRequest.HeaderSet "X-Vault-Token" "expired-token")
      (some exampleLib.unmarshalLogin) AppRoleAuth.zero
      (doHttpRequest exampleLib (exampleRequest.HeaderSet "X-Vault-Token" "expired-token")
        (some exampleLib.unmarshalKeys) none expiredTokenSession).2.2).2.2
    (by rfl) (some ["test1"])
    (doHttpRequest exampleLib (exampleRequest.HeaderSet "X-Vault-Token" "5b1a0318")
      (some exampleLib.unmarshalKeys) none
      ⟨⟨expiredTokenSession.client.config, expiredTokenSession.client.mount, "5b1a0318"⟩, (),
        (doHttpRequest exampleLib
          (exampleLoginRequest.HeaderSet "X-Vault-Token" "expired-token")
          (some exampleLib.unmarshalLogin) AppRoleAuth.zero
          (doHttpRequest exampleLib (exampleRequest.HeaderSet "X-Vault-Token" "expired-token")
            (some exampleLib.unmarshalKeys) none expiredTokenSession).2.2).2.2.log⟩).2.2
    (by rfl)).1
  ⟨by rw [h], by rw [h], by rw [h]; rfl⟩

/-- C19: `doJsonRequest` is total, and for every budget `n`, every handler
chain and every server: the request is attempted at most `n` times (with the
budget 0 nothing is sent and the error `number of retries exceeded` is
returned), every exchange of the run is an attempt of the request or part of a
login, and if no attempt of the request is resolved (every one is a transport,
reading or decoding failure, or a non-2xx answer that no handler accepts, a
repeated `permission denied` included), an error is returned. Attempts are the
exchanges that went to the URL of the request; the request is not the login
request itself unless no handler logs in. -/
theorem doJsonRequest_bounded_and_exhaustion_is_error {β : Type} (L : Lib) (request : Request)
    (decode : Option (String → β → β × GoError)) (t : β) (handlers : List errorHandler)
    (n : Nat) (s : Session σ)
    (hown : errorHandler.permissionDenied ∉ handlers ∨ request.URL ≠ loginUrl s.client) :
    attempts request (s.since (doJsonRequest L request decode t handlers n s).2.2) ≤ n
    ∧ (∀ e ∈ s.since (doJsonRequest L request decode t handlers n s).2.2,
        e.request.URL = request.URL ∨ e.request.URL = loginUrl s.client)
    ∧ ((∀ e ∈ s.since (doJsonRequest L request decode t handlers n s).2.2,
          e.request.URL = request.URL → e.resolved handlers = false) →
        (doJsonRequest L request decode t handlers n s).1 ≠ none)
    ∧ doJsonRequest L request decode t handlers 0 s
        = (some "number of retries exceeded", t, s) := by
  obtain ⟨ext, h1, h2, h3, h4, _, _⟩ := doJsonRequest_run L request decode handlers n t s
  rw [since_of_Extends h1]
  refine ⟨?_, h2, h4, rfl⟩
  rcases hown with hpd | hne
  · obtain ⟨ext2, g1, _, g3, _⟩ := doJsonRequest_plain L request decode handlers hpd n t s
    have : ext2 = ext := List.append_cancel_left (g1.symm.trans h1.1)
    subst this
    exact le_trans (attempts_le_length _ _) g3
  · exact h3 hne

set_option maxRecDepth 100000 in
/-- Witness of C19: a store that rejects every token. With the budget 3 the
request is sent three times, with a login after the first and the second
rejection, and the run ends with an error. -/
theorem doJsonRequest_bounded_and_exhaustion_is_error_witness :
    (doJsonRequest exampleLib exampleRequest (some exampleLib.unmarshalKeys) none
        [errorHandler.permissionDenied, errorHandler.expectedNotFound] 3
        (exampleSession [answer 403 permissionDeniedBody, answer 200 exampleLoginBody,
          answer 403 permissionDeniedBody, answer 200 exampleLoginBody,
          answer 403 permissionDeniedBody])).1 ≠ none
    ∧ attempts exampleRequest ((exampleSession [answer 403 permissionDeniedBody,
          answer 200 exampleLoginBody, answer 403 permissionDeniedBody,
          answer 200 exampleLoginBody, answer 403 permissionDeniedBody]).since
        (doJsonRequest exampleLib exampleRequest (some exampleLib.unmarshalKeys) none
          [errorHandler.permissionDenied, errorHandler.expectedNotFound] 3
          (exampleSession [answer 403 permissionDeniedBody, answer 200 exampleLoginBody,
            answer 403 permissionDeniedBody, answer 200 exampleLoginBody,
            answer 403 permissionDeniedBody])).2.2) ≤ 3 :=
  have h := doJsonRequest_bounded_and_exhaustion_is_error exampleLib exampleRequest
    (some exampleLib.unmarshalKeys) none
    [errorHandler.permissionDenied, errorHandler.expectedNotFound] 3
    (exampleSession [answer 403 permissionDeniedBody, answer 200 exampleLoginBody,
      answer 403 permissionDeniedBody, answer 200 exampleLoginBody,
      answer 403 permissionDeniedBody]) (Or.inr (by decide))
  ⟨h.2.2.1 (by decide), h.1⟩

theorem not_resolved_nil (e : Exchange) : e.resolved [] = false ↔ e.outcome ≠ (none, none) := by
  obtain ⟨request, result, ⟨ore, oerr⟩⟩ := e
  cases ore <;> cases oerr <;> simp [Exchange.resolved]

/-- C20: `NewClient` logs in with the budget 3. It sends at most three requests,
all of them posts to the login URL of the client. It succeeds if and only if
one of them is answered 2xx with a body that is read and decoded; that exchange
is then the last one, and the client returned holds the `ClientToken` that the
library decoded from the body of that answer (into the response value as the
failed attempts before left it). If no attempt is answered so, an error and no
client are returned. A login that fails, whatever its budget, leaves the client
and so its token as they were. -/
theorem NewClient_logs_in_with_three_attempts (L : Lib) (config : Vault.Config σ)
    (authK8sMount : String) (server : σ) (log : List Exchange) :
    (NewClient L config authK8sMount server log).2.log
        = log ++ (NewClient L config authK8sMount server log).2.log.drop log.length
    ∧ ((NewClient L config authK8sMount server log).2.log.drop log.length).length ≤ 3
    ∧ (∀ e ∈ (NewClient L config authK8sMount server log).2.log.drop log.length,
        e.request.Method = "POST"
        ∧ e.request.URL = stringsTrimSuffix config.Host "/" ++ "/v1/auth/approle/login")
    ∧ ((∃ e ∈ (NewClient L config authK8sMount server log).2.log.drop log.length,
          e.outcome = (none, none))
        ↔ (NewClient L config authK8sMount server log).1.2 = none)
    ∧ ((NewClient L config authK8sMount server log).1.2 = none →
        ∃ c pre e status body,
          (NewClient L config authK8sMount server log).1.1 = some c
          ∧ (NewClient L config authK8sMount server log).2.log.drop log.length = pre ++ [e]
          ∧ (∀ x ∈ pre, x.outcome ≠ (none, none))
          ∧ e.outcome = (none, none)
          ∧ e.result = .replied ⟨status, (body, none)⟩ ∧ status.tdiv 100 = 2
          ∧ (L.unmarshalLogin body (pre.foldl (Exchange.decodeInto (some L.unmarshalLogin))
              AppRoleAuth.zero)).2 = none
          ∧ c.token = (L.unmarshalLogin body
              (pre.foldl (Exchange.decodeInto (some L.unmarshalLogin))
                AppRoleAuth.zero)).1.ClientToken
          ∧ c.mount = stringsTrim authK8sMount "/"
          ∧ c.config.Host = stringsTrimSuffix config.Host "/")
    ∧ ((NewClient L config authK8sMount server log).1.2 ≠ none →
        (NewClient L config authK8sMount server log).1.1 = none)
    ∧ (∀ (n : Nat) (s : Session σ), (appRoleLogin L n s).1 ≠ none →
        (appRoleLogin L n s).2.client = s.client) := by
  have hfail : ∀ (n : Nat) (s : Session σ), (appRoleLogin L n s).1 ≠ none →
      (appRoleLogin L n s).2.client = s.client := by
    intro n s h
    obtain ⟨ext, _, _, _, h4, _⟩ := appRoleLogin_run L n s
    exact (h4 h).1
  unfold NewClient
  simp only
  obtain ⟨ext, h1, h2, h3, h4, h5⟩ := appRoleLogin_run L httpNumberOfRetries
    ⟨⟨{ config with Host := stringsTrimSuffix config.Host "/" },
      stringsTrim authK8sMount "/", ""⟩, server, log⟩
  have hurl : ∀ e ∈ ext, e.request.Method = "POST"
      ∧ e.request.URL = stringsTrimSuffix config.Host "/" ++ "/v1/auth/approle/login" := by
    intro e he
    refine ⟨(h3 e he).2, ?_⟩
    rw [(h3 e he).1]
    simp only [loginUrl, buildVaultUrl, vaultVersion]
    have : stringsTrim "auth/approle/login" "/" = "auth/approle/login" := by decide
    have e2 : "/" ++ ("v1" ++ ("/" ++ "auth/approle/login")) = "/v1/auth/approle/login" := by
      decide
    rw [this, String.append_assoc, String.append_assoc, String.append_assoc, e2]
  rcases hr : appRoleLogin L httpNumberOfRetries
    ⟨⟨{ config with Host := stringsTrimSuffix config.Host "/" },
      stringsTrim authK8sMount "/", ""⟩, server, log⟩ with ⟨err, s1⟩
  rw [hr] at h1 h4 h5
  simp only at h1 h4 h5
  have hdrop : s1.log.drop log.length = ext := by
    rw [h1.1]; simp
  cases err with
  | some e =>
    simp only
    rw [hdrop]
    refine ⟨h1.1, h2, hurl, ?_, by simp, by simp, hfail⟩
    simp only [reduceCtorEq, iff_false, not_exists, not_and]
    intro x hx
    exact (not_resolved_nil x).mp ((h4 (by simp)).2 x hx)
  | none =>
    simp only
    rw [hdrop]
    obtain ⟨pre, e, status, body, g1, g2, g3, g4, g5, g6, g7⟩ := h5 rfl
    refine ⟨h1.1, h2, hurl, ?_, ?_, by simp, hfail⟩
    · simp only [iff_true]
      exact ⟨e, by rw [g1]; simp, g2⟩
    · intro _
      refine ⟨s1.client, pre, e, status, body, rfl, g1,
        fun x hx => (not_resolved_nil x).mp (g3 x hx), g2, g4, g5, g6, ?_, ?_, ?_⟩
      · rw [g7]
      · rw [g7]
      · rw [g7]

set_option maxRecDepth 100000 in
/-- Witness of C20: the tests "when new client login fails then login is
retried" (the second attempt is answered with a token) and "when new client
login keeps fails then error returned". -/
theorem NewClient_logs_in_with_three_attempts_witness :
    (NewClient exampleLib ⟨scriptedHttpClient, "http://127.0.0.1:8200/", "role-id", "secret-id"⟩
        "/kubernetes/hcom-sandbox-aws/backend/"
        [answer 500 "", answer 200 exampleLoginBody] []).1.2 = none
    ∧ (NewClient exampleLib
        ⟨scriptedHttpClient, "http://127.0.0.1:8200/", "role-id", "secret-id"⟩
        "/kubernetes/hcom-sandbox-aws/backend/"
        [answer 500 "", answer 500 "", answer 500 ""] []).1.1 = none :=
  ⟨(NewClient_logs_in_with_three_attempts exampleLib
      ⟨scriptedHttpClient, "http://127.0.0.1:8200/", "role-id", "secret-id"⟩
      "/kubernetes/hcom-sandbox-aws/backend/"
      [answer 500 "", answer 200 exampleLoginBody] []).2.2.2.1.mp
      ⟨⟨{ exampleLoginRequest.HeaderSet "X-Vault-Token" "" with Body := some "" },
        answer 200 exampleLoginBody, (none, none)⟩, by decide, rfl⟩,
    (NewClient_logs_in_with_three_attempts exampleLib
      ⟨scriptedHttpClient, "http://127.0.0.1:8200/", "role-id", "secret-id"⟩
      "/kubernetes/hcom-sandbox-aws/backend/"
      [answer 500 "", answer 500 "", answer 500 ""] []).2.2.2.2.2.1 (by decide)⟩

end VaultClient

/-! ## `Role.Equal` and the order of the lists -/

set_option maxRecDepth 100000 in
/-- C12 (the code does not keep this): `Equal` sorts the lists of its receiver and
of its argument in place. For the desired role `exampleDesiredRole`, authored
with the names `vault-injector, default`, and a stored role with the names
`test1, default`, the caller sees both roles with their lists in ascending
order after `a.Equal(b)`, and the request that `CreateRole` then posts carries
the sorted lists, not the lists in the order of the configuration. -/
theorem Role_Equal_sorts_the_lists_of_both_roles :
    (Vault.exampleDesiredRole.Equal ⟨some ["test1", "default"], some ["test1"], some ["test1"], 3600⟩).2.1
        = ⟨some ["default", "vault-injector"], some ["kube-system", "test"],
            some ["default", "test"], 1800⟩
    ∧ (Vault.exampleDesiredRole.Equal
          ⟨some ["test1", "default"], some ["test1"], some ["test1"], 3600⟩).2.2
        = ⟨some ["default", "test1"], some ["test1"], some ["test1"], 3600⟩
    ∧ (Vault.exampleDesiredRole.Equal
          ⟨some ["test1", "default"], some ["test1"], some ["test1"], 3600⟩).2.1
        ≠ Vault.exampleDesiredRole
    ∧ ((Vault.CreateRole Vault.exampleLib "test1" Vault.exampleDesiredRole
          (Vault.exampleSession [Vault.answer 200 Vault.exampleRoleBody,
            Vault.answer 204 ""])).2.log.map (fun e => (e.request.Method, e.request.Body)))
        = [("GET", none),
            ("POST", some (Vault.exampleLib.marshal (Vault.RequestBody.role
              ⟨some ["default", "vault-injector"], some ["kube-system", "test"],
                some ["default", "test"], 1800⟩)).1)] := by
  decide


/-! ## The token reviewer -/

section TokenReviewer

variable {σ : Type}

theorem nothing_after_last_of_ok (init : List Event) (last : Event)
    (h : ∀ x ∈ init, x.reply.err = none) :
    ∀ pre e post, init ++ [last] = pre ++ e :: post → e.reply.err ≠ none → post = [] := by
  intro pre e post hsplit he
  rcases List.append_eq_append_iff.mp hsplit with ⟨a2, rfl, h2⟩ | ⟨c2, h1, h2⟩
  · cases a2 with
    | nil =>
      simp only [List.nil_append, List.cons.injEq] at h2
      exact h2.2.symm
    | cons x a2 =>
      simp only [List.cons_append, List.cons.injEq] at h2
      have := h2.2
      simp at this
  · cases c2 with
    | nil =>
      simp only [List.nil_append, List.cons.injEq] at h2
      exact h2.2
    | cons x c2 =>
      simp only [List.cons_append, List.cons.injEq] at h2
      exfalso
      apply he
      apply h
      rw [h1, ← h2.1]
      simp

/-- C22: `initTokenReviewer` calls, in this order, `CreateServiceAccount` for
`token-reviewer` in `vault-auth` without annotations, `GetServiceAccountToken`,
`CreateAuthDelegatorClusterRoleBinding` and `InitAuthKubernetes` with the host
and CA of the configuration and the token that `GetServiceAccountToken`
returned. Its calls are a non-empty initial part of that sequence: no call
follows a call that returned an error, an error is returned exactly when the
last call made returned one, and nil is returned exactly when all four calls
were made and none failed. When it fails, `Run` returns its error and has
called nothing else, so no pass has started; when it succeeds, `Run` goes on
with the passes. -/
theorem initTokenReviewer_aborts_at_the_first_failing_step (a : Auth σ) (w : Run σ) :
    (∃ token seg, (a.initTokenReviewer w).2.trace = w.trace ++ seg
      ∧ seg ≠ []
      ∧ calls seg <+: [Call.CreateServiceAccount tokenReviewerNamespace
            tokenReviewerServiceAccount GoMap.empty,
          Call.GetServiceAccountToken tokenReviewerNamespace tokenReviewerServiceAccount,
          Call.CreateAuthDelegatorClusterRoleBinding tokenReviewerClusterRoleBinding
            tokenReviewerNamespace tokenReviewerServiceAccount,
          Call.InitAuthKubernetes a.config.K8sHost a.config.K8sCA token]
      ∧ (∀ e ∈ seg, e.call = Call.GetServiceAccountToken tokenReviewerNamespace
            tokenReviewerServiceAccount → e.reply.err = none → e.reply = .bytes token none)
      ∧ (∀ pre e post, seg = pre ++ e :: post → e.reply.err ≠ none → post = [])
      ∧ ((a.initTokenReviewer w).1 ≠ none ↔ ∃ e ∈ seg, e.reply.err ≠ none)
      ∧ ((a.initTokenReviewer w).1 = none ↔ seg.length = 4 ∧ ∀ e ∈ seg, e.reply.err = none))
    ∧ (∀ err, (a.initTokenReviewer w).1 = some err →
        ∀ ro unmarshal passes,
          a.Run ro unmarshal passes w = (some err, (a.initTokenReviewer w).2))
    ∧ ((a.initTokenReviewer w).1 = none →
        ∀ ro unmarshal passes,
          a.Run ro unmarshal passes w
            = (none, a.reconcile ro unmarshal passes (a.initTokenReviewer w).2)) := by
  refine ⟨?_, ?_, ?_⟩
  · unfold Auth.initTokenReviewer Auth.CreateServiceAccount Auth.GetServiceAccountToken
      Auth.CreateAuthDelegatorClusterRoleBinding Auth.InitAuthKubernetes Run.record
    simp only
    rcases h1 : (a.k8sClient.CreateServiceAccount tokenReviewerNamespace
      tokenReviewerServiceAccount GoMap.empty w.state) with ⟨e1, st1⟩
    cases e1 with
    | some err1 =>
      refine ⟨[], [⟨Call.CreateServiceAccount tokenReviewerNamespace tokenReviewerServiceAccount GoMap.empty,
          .error (some err1)⟩], rfl, by simp, ?_, ?_,
        nothing_after_last_of_ok [] _ (by simp), ?_, ?_⟩
      · simp [calls, List.prefix_cons_inj]
      · simp
      · simp [Reply.err]
      · simp
    | none =>
      simp only
      rcases h2 : (a.k8sClient.GetServiceAccountToken tokenReviewerNamespace
        tokenReviewerServiceAccount st1) with ⟨⟨token, e2⟩, st2⟩
      cases e2 with
      | some err2 =>
        refine ⟨[], [⟨Call.CreateServiceAccount tokenReviewerNamespace tokenReviewerServiceAccount GoMap.empty,
            .error none⟩,
          ⟨Call.GetServiceAccountToken tokenReviewerNamespace tokenReviewerServiceAccount,
            .bytes token (some err2)⟩],
          by simp [List.append_assoc], by simp, ?_, ?_,
          nothing_after_last_of_ok [_] _ (by simp [Reply.err]), ?_, ?_⟩
        · simp [calls, List.prefix_cons_inj]
        · simp [Reply.err]
        · simp [Reply.err]
        · simp
      | none =>
        simp only
        rcases h3 : (a.k8sClient.CreateAuthDelegatorClusterRoleBinding
          tokenReviewerClusterRoleBinding tokenReviewerNamespace tokenReviewerServiceAccount
          st2) with ⟨e3, st3⟩
        cases e3 with
        | some err3 =>
          refine ⟨token, [⟨Call.CreateServiceAccount tokenReviewerNamespace tokenReviewerServiceAccount GoMap.empty,
              .error none⟩,
            ⟨Call.GetServiceAccountToken tokenReviewerNamespace tokenReviewerServiceAccount,
              .bytes token none⟩,
            ⟨Call.CreateAuthDelegatorClusterRoleBinding tokenReviewerClusterRoleBinding
              tokenReviewerNamespace tokenReviewerServiceAccount, .error (some err3)⟩],
            by simp [List.append_assoc], by simp, ?_, ?_,
            nothing_after_last_of_ok [_, _] _ (by simp [Reply.err]), ?_, ?_⟩
          · simp [calls, List.prefix_cons_inj]
          · simp [Reply.err]
          · simp [Reply.err]
          · simp
        | none =>
          simp only
          rcases h4 : (a.vaultClient.InitAuthKubernetes a.config.K8sHost a.config.K8sCA token
            st3) with ⟨e4, st4⟩
          refine ⟨token, [⟨Call.CreateServiceAccount tokenReviewerNamespace tokenReviewerServiceAccount GoMap.empty,
              .error none⟩,
            ⟨Call.GetServiceAccountToken tokenReviewerNamespace tokenReviewerServiceAccount,
              .bytes token none⟩,
            ⟨Call.CreateAuthDelegatorClusterRoleBinding tokenReviewerClusterRoleBinding
              tokenReviewerNamespace tokenReviewerServiceAccount, .error none⟩,
            ⟨Call.InitAuthKubernetes a.config.K8sHost a.config.K8sCA token, .error e4⟩],
            by simp [List.append_assoc], by simp, ?_, ?_,
            nothing_after_last_of_ok [_, _, _] _ (by simp [Reply.err]), ?_, ?_⟩
          · simp [calls]
          · simp [Reply.err]
          · cases e4 <;> simp [Reply.err]
          · cases e4 <;> simp [Reply.err]
  · intro err h ro unmarshal passes
    unfold Auth.Run
    rcases hr : a.initTokenReviewer w with ⟨e, w2⟩
    rw [hr] at h
    simp only at h
    subst h
    rfl
  · intro h ro unmarshal passes
    unfold Auth.Run
    rcases hr : a.initTokenReviewer w with ⟨e, w2⟩
    rw [hr] at h
    simp only at h
    subst h
    rfl

set_option maxRecDepth 100000 in
/-- Witness of C22: the case "when kube service account creation fails then error
is return": with a cluster that refuses to create service accounts, `Run`
returns the error after that one call, whatever number of passes is waited for. -/
theorem initTokenReviewer_aborts_at_the_first_failing_step_witness :
    exampleAuthFailing.Run (fun _ => RangeOrder.stored) exampleUnmarshal 5 ⟨(), []⟩
        = (some "create service account: test failure",
            (exampleAuthFailing.initTokenReviewer ⟨(), []⟩).2)
      ∧ calls (exampleAuthFailing.initTokenReviewer ⟨(), []⟩).2.trace
        = [Call.CreateServiceAccount "vault-auth" "token-reviewer" GoMap.empty] :=
  ⟨(initTokenReviewer_aborts_at_the_first_failing_step exampleAuthFailing ⟨(), []⟩).2.1
      "create service account: test failure" (by decide) (fun _ => RangeOrder.stored)
      exampleUnmarshal 5,
    by decide⟩

end TokenReviewer

/-! ## Order of the calls of a pass, and the wildcards -/

section PassOrder

variable {σ : Type}

theorem nothing_later_of_split {α : Type} (A B pre post : List α) (c : α) (isC isD : α → Prop)
    (hA : ∀ x ∈ A, ¬ isC x) (hB : ∀ x ∈ B, ¬ isD x) (h : A ++ B = pre ++ c :: post)
    (hc : isC c) : ∀ d ∈ post, ¬ isD d := by
  rcases List.append_eq_append_iff.mp h with ⟨a2, rfl, hB2⟩ | ⟨c2, hA2, hc2⟩
  · intro d hd
    exact hB d (by rw [hB2]; simp [hd])
  · cases c2 with
    | nil =>
      simp only [List.nil_append] at hc2
      intro d hd
      exact hB d (by rw [← hc2]; simp [hd])
    | cons x c2 =>
      simp only [List.cons_append, List.cons.injEq] at hc2
      exfalso
      exact hA c (by rw [hA2, ← hc2.1]; simp) hc

/-- The calls of a pass, as calls that are no creation followed by calls that
are no deletion. -/
theorem pass_calls_split (a : Auth σ) (ro : RangeOrder) (unmarshal : String → Role × GoError)
    (s : σ) :
    ∃ A B : List Call, calls (a.pass ro unmarshal s) = A ++ B
      ∧ (∀ x ∈ A, ¬ (x.method = 3 ∨ x.method = 8))
      ∧ (∀ x ∈ B, ¬ (x.method = 2 ∨ x.method = 7)) := by
  obtain ⟨data, err, rest, hp, _, h1, h2⟩ := pass_trace a ro unmarshal s
  cases err with
  | some e =>
    refine ⟨calls (a.pass ro unmarshal s), [], by simp, ?_, by simp⟩
    rw [hp, h1 rfl]
    intro x hx
    simp only [calls, List.map_cons, List.map_nil, List.mem_singleton] at hx
    subst hx
    simp [Call.method]
  | none =>
    obtain ⟨s1, s2, s3, s4, rfl, p1, p2, p3, p4⟩ := h2 rfl
    refine ⟨Call.GetConfigMapData vaultAuthConfigNamespace vaultAuthConfigMap
      :: (calls s1 ++ calls s2), calls s3 ++ calls s4, ?_, ?_, ?_⟩
    · rw [hp, calls_cons, calls_append, calls_append, calls_append]
      simp
    · intro x hx
      rcases List.mem_cons.mp hx with rfl | hx
      · simp [Call.method]
      · rcases List.mem_append.mp hx with hx | hx
        · rcases methods_deleteServiceAccounts p1 x hx with h | h | h <;> simp [h]
        · rcases methods_deleteVaultRoles p2 x hx with h | h <;> simp [h]
    · intro x hx
      rcases List.mem_append.mp hx with hx | hx
      · rcases methods_createServiceAccounts p3 x hx with h | h <;> simp [h]
      · simp [methods_createVaultRoles p4 x hx]

/-- C25: in the calls of one pass of `initServiceAccounts`, whatever the
collaborators answer, no deletion follows a creation: after a
`CreateServiceAccount` call there is no `DeleteServiceAccount` call, after a
`CreateRole` call there is no `DeleteRole` call, and more generally after any of
the two kinds of creation there is none of the two kinds of deletion. -/
theorem initServiceAccounts_deletions_precede_creations (a : Auth σ) (ro : RangeOrder)
    (unmarshal : String → Role × GoError) (s : σ) (pre post : List Call) (c : Call)
    (hsplit : calls (a.pass ro unmarshal s) = pre ++ c :: post) :
    (c.method = 8 → ∀ d ∈ post, d.method ≠ 7)
    ∧ (c.method = 3 → ∀ d ∈ post, d.method ≠ 2)
    ∧ (c.method = 3 ∨ c.method = 8 → ∀ d ∈ post, d.method ≠ 2 ∧ d.method ≠ 7) := by
  obtain ⟨A, B, hAB, hA, hB⟩ := pass_calls_split a ro unmarshal s
  rw [hAB] at hsplit
  have key : c.method = 3 ∨ c.method = 8 → ∀ d ∈ post, ¬ (d.method = 2 ∨ d.method = 7) :=
    fun hc => nothing_later_of_split A B pre post c _ _ hA hB hsplit hc
  refine ⟨fun hc d hd h => key (Or.inr hc) d hd (Or.inr h),
    fun hc d hd h => key (Or.inl hc) d hd (Or.inl h), ?_⟩
  intro hc d hd
  have := key hc d hd
  exact ⟨fun h => this (Or.inl h), fun h => this (Or.inr h)⟩

set_option maxRecDepth 100000 in
/-- Witness of C25: in the first case of `TestAuth_initServiceAccounts` the
eleventh call of the pass is the first `CreateServiceAccount`, and no
`DeleteServiceAccount` follows it. -/
theorem initServiceAccounts_deletions_precede_creations_witness :
    (((calls (exampleAuth.pass RangeOrder.stored exampleUnmarshal ())).drop 11).map
      Call.method).count 7 = 0 := by
  have h := (initServiceAccounts_deletions_precede_creations exampleAuth RangeOrder.stored
    exampleUnmarshal ()
    ((calls (exampleAuth.pass RangeOrder.stored exampleUnmarshal ())).take 10)
    ((calls (exampleAuth.pass RangeOrder.stored exampleUnmarshal ())).drop 11)
    (Call.CreateServiceAccount "kube-system" "default" serviceAccountAnnotations)
    (by decide)).1 (by decide)
  rw [List.count_eq_zero]
  intro hm
  obtain ⟨d, hd, hd7⟩ := List.mem_map.mp hm
  exact h d hd hd7

end PassOrder

section Wildcards

variable {σ : Type}

/-- A pass whose config map was read without error, cut into its four parts. -/
theorem pass_of_data (a : Auth σ) (ro : RangeOrder) (unmarshal : String → Role × GoError)
    (s : σ) (data : GoMap String)
    (hdata : ⟨.GetConfigMapData vaultAuthConfigNamespace vaultAuthConfigMap, .data data none⟩
      ∈ a.pass ro unmarshal s) :
    ∃ s1 s2 s3 s4, a.pass ro unmarshal s
        = ⟨.GetConfigMapData vaultAuthConfigNamespace vaultAuthConfigMap, .data data none⟩
          :: (s1 ++ (s2 ++ (s3 ++ s4))) ∧
      IsDeleteServiceAccounts
        (getServiceAccountsSetByNamespace ro (newVaultRoles ro unmarshal data))
        serviceAccountAnnotations s1 ∧
      IsDeleteVaultRoles (newVaultRoles ro unmarshal data) s2 ∧
      IsCreateServiceAccounts ro
        (getServiceAccountsSetByNamespace ro (newVaultRoles ro unmarshal data)) s3 ∧
      IsCreateVaultRoles ro (newVaultRoles ro unmarshal data) s4 := by
  obtain ⟨data', err', rest, hp, _, h1, h2⟩ := pass_trace a ro unmarshal s
  rw [hp] at hdata
  cases err' with
  | some e =>
    rw [h1 rfl] at hdata
    simp at hdata
  | none =>
    obtain ⟨s1, s2, s3, s4, rfl, p1, p2, p3, p4⟩ := h2 rfl
    have := (mem_pass_of_method p1 p2 p3 p4
      ⟨.GetConfigMapData vaultAuthConfigNamespace vaultAuthConfigMap, .data data' none⟩ rfl _
      hdata).2.1 rfl
    cases this
    exact ⟨s1, s2, s3, s4, hp, p1, p2, p3, p4⟩

theorem listing_namespace_of_sweeps {R : GoMap (GoMap Unit)} {ann : GoMap String}
    {namespaces : List String} {sweeps : List (List Event)}
    (h : List.Forall₂ (IsSweep R ann) namespaces sweeps)
    (ns : String) (ann2 : GoMap String) (listed : List String) (err : GoError)
    (hm : ⟨.GetServiceAccounts ns ann2, .names listed err⟩ ∈ sweeps.flatten) :
    ns ∈ namespaces := by
  induction h with
  | nil => simp at hm
  | @cons x seg1 xs segs hx _ ih =>
    rw [List.flatten_cons, List.mem_append] at hm
    rcases hm with hm | hm
    · obtain ⟨listed1, err1, dels, rfl, hd⟩ := hx
      rcases List.mem_cons.mp hm with hm | hm
      · cases hm
        exact List.mem_cons_self _ _
      · have hc := mem_calls_of_mem hm
        rw [hd] at hc
        have := methods_sweepCalls R x listed1 err1 _ hc
        simp [Call.method] at this
    · exact List.mem_cons_of_mem _ (ih hm)

/-- A listing of the service accounts of `ns` in `deleteServiceAccounts` is made
for a namespace that the `GetNamespaces` call of that part returned. -/
theorem listing_namespace_of_deleteServiceAccounts {R : GoMap (GoMap Unit)}
    {ann : GoMap String} {seg : List Event} (h : IsDeleteServiceAccounts R ann seg)
    (ns : String) (ann2 : GoMap String) (listed : List String) (err : GoError)
    (hm : ⟨.GetServiceAccounts ns ann2, .names listed err⟩ ∈ seg) :
    ∃ namespaces nerr, ⟨.GetNamespaces, .names namespaces nerr⟩ ∈ seg ∧ ns ∈ namespaces := by
  obtain ⟨namespaces, nerr, sweeps, rfl, h1, h2⟩ := h
  refine ⟨namespaces, nerr, List.mem_cons_self _ _, ?_⟩
  rcases List.mem_cons.mp hm with hm2 | hm2
  · cases hm2
  · cases nerr with
    | some e => rw [h1 rfl] at hm2; simp at hm2
    | none => exact listing_namespace_of_sweeps (h2 rfl) ns ann2 listed err hm2

theorem delete_mem_pass_iff {R : GoMap (GoMap Unit)} {ann : GoMap String} {D : GoMap Role}
    {ro : RangeOrder} {s1 s2 s3 s4 : List Event}
    (h1 : IsDeleteServiceAccounts R ann s1) (h2 : IsDeleteVaultRoles D s2)
    (h3 : IsCreateServiceAccounts ro R s3) (h4 : IsCreateVaultRoles ro D s4)
    (e0 : Event) (he0 : e0.call.method = 5) (ns sa : String) :
    Call.DeleteServiceAccount ns sa ∈ calls (e0 :: (s1 ++ (s2 ++ (s3 ++ s4))))
      ↔ Call.DeleteServiceAccount ns sa ∈ calls s1 := by
  have hc := (count_pass_of_method h1 h2 h3 h4 e0 he0 (.DeleteServiceAccount ns sa)).2.2.1
    (Or.inr rfl)
  rw [← List.count_pos_iff, ← List.count_pos_iff, hc]

theorem create_mem_pass_iff {R : GoMap (GoMap Unit)} {ann : GoMap String} {D : GoMap Role}
    {ro : RangeOrder} {s1 s2 s3 s4 : List Event}
    (h1 : IsDeleteServiceAccounts R ann s1) (h2 : IsDeleteVaultRoles D s2)
    (h3 : IsCreateServiceAccounts ro R s3) (h4 : IsCreateVaultRoles ro D s4)
    (e0 : Event) (he0 : e0.call.method = 5) (ns sa : String) (ann2 : GoMap String) :
    Call.CreateServiceAccount ns sa ann2 ∈ calls (e0 :: (s1 ++ (s2 ++ (s3 ++ s4))))
      ↔ Call.CreateServiceAccount ns sa ann2 ∈ calls s3 := by
  have hc := (count_pass_of_method h1 h2 h3 h4 e0 he0 (.CreateServiceAccount ns sa ann2)).2.2.2
    rfl
  rw [← List.count_pos_iff, ← List.count_pos_iff, hc]

/-- The `CreateServiceAccount` calls of the creating part of a pass. -/
theorem create_mem_createServiceAccounts {ro : RangeOrder} {R : GoMap (GoMap Unit)}
    {seg : List Event} (h : IsCreateServiceAccounts ro R seg) (ns sa : String)
    (ann : GoMap String) :
    Call.CreateServiceAccount ns sa ann ∈ calls seg ↔
      ann = serviceAccountAnnotations ∧ isRequired R ns sa = true
        ∧ ∃ namespaces err, ⟨.GetNamespaces, .names namespaces err⟩ ∈ seg ∧ ns ∈ namespaces := by
  obtain ⟨namespaces, err, creates, rfl, hc⟩ := h
  have hev : ∀ namespaces2 err2, (⟨.GetNamespaces, .names namespaces2 err2⟩ : Event)
      ∈ (⟨.GetNamespaces, .names namespaces err⟩ : Event) :: creates → namespaces2 = namespaces := by
    intro namespaces2 err2 hm
    rcases List.mem_cons.mp hm with hm | hm
    · cases hm; rfl
    · have := methods_createServiceAccountCalls ro R namespaces _ (hc ▸ mem_calls_of_mem hm)
      simp [Call.method] at this
  rw [calls_cons, List.mem_cons, hc, ← List.count_pos_iff, count_createServiceAccountCalls]
  constructor
  · rintro (h | h)
    · cases h
    · by_cases hcond : ann = serviceAccountAnnotations ∧ isRequired R ns sa = true
      · rw [if_pos hcond] at h
        exact ⟨hcond.1, hcond.2, namespaces, err, List.mem_cons_self _ _,
          List.count_pos_iff.mp h⟩
      · rw [if_neg hcond] at h
        exact absurd h (by simp)
  · rintro ⟨ha, hr, namespaces2, err2, hm, hns⟩
    right
    rw [hev namespaces2 err2 hm] at hns
    rw [if_pos ⟨ha, hr⟩]
    exact List.count_pos_iff.mpr hns

/-- C29: in a pass that read the config map `data` without error, if every
desired role has `BoundServiceAccountNamespaces = ["*"]` and no `GetNamespaces`
call of the pass returned a namespace named `*`, then the pass issues no
`CreateServiceAccount` call, and it issues `DeleteServiceAccount(ns, sa)` for
every `sa` that a `GetServiceAccounts(ns, {vak-managed: true})` call of the pass
returned without error. -/
theorem initServiceAccounts_namespace_wildcard_is_not_expanded (a : Auth σ) (ro : RangeOrder)
    (unmarshal : String → Role × GoError) (s : σ) (data : GoMap String)
    (hdata : ⟨.GetConfigMapData vaultAuthConfigNamespace vaultAuthConfigMap, .data data none⟩
      ∈ a.pass ro unmarshal s)
    (hroles : ∀ p ∈ (newVaultRoles ro unmarshal data).entries,
      p.2.BoundServiceAccountNamespaces = some ["*"])
    (hns : ∀ e ∈ a.pass ro unmarshal s, e.call = Call.GetNamespaces → "*" ∉ e.names) :
    (∀ c ∈ calls (a.pass ro unmarshal s), c.method ≠ 8)
    ∧ (∀ ns listed sa,
        ⟨.GetServiceAccounts ns serviceAccountAnnotations, .names listed none⟩
          ∈ a.pass ro unmarshal s →
        sa ∈ listed → Call.DeleteServiceAccount ns sa ∈ calls (a.pass ro unmarshal s)) := by
  obtain ⟨s1, s2, s3, s4, hp, p1, p2, p3, p4⟩ := pass_of_data a ro unmarshal s data hdata
  have hstar : ∀ ns sa, isRequired
      (getServiceAccountsSetByNamespace ro (newVaultRoles ro unmarshal data)) ns sa = true →
      ns = "*" := by
    intro ns sa h
    obtain ⟨p, hp1, hp2, _⟩ :=
      (getServiceAccountsSetByNamespace_spec ro (newVaultRoles ro unmarshal data) ns sa).1.mp h
    rw [hroles p hp1] at hp2
    simpa [Slice.elems] using hp2
  rw [hp] at hns ⊢
  constructor
  · intro c hc h8
    cases c with
    | CreateServiceAccount ns sa ann =>
      rw [create_mem_pass_iff p1 p2 p3 p4
        (⟨.GetConfigMapData vaultAuthConfigNamespace vaultAuthConfigMap, .data data none⟩ : Event) rfl,
        create_mem_createServiceAccounts p3] at hc
      obtain ⟨_, hr, namespaces, err, hm, hmem⟩ := hc
      have := hstar ns sa hr
      subst this
      exact hns ⟨.GetNamespaces, .names namespaces err⟩ (by simp [hm]) rfl hmem
    | _ => simp [Call.method] at h8
  · intro ns listed sa hl hsa
    have hl1 := (mem_pass_of_method p1 p2 p3 p4
      (⟨.GetConfigMapData vaultAuthConfigNamespace vaultAuthConfigMap, .data data none⟩ : Event) rfl _ hl).2.2 (Or.inl rfl)
    rw [delete_mem_pass_iff p1 p2 p3 p4
      (⟨.GetConfigMapData vaultAuthConfigNamespace vaultAuthConfigMap, .data data none⟩ : Event) rfl,
      deleteServiceAccounts_delete_iff p1]
    refine ⟨⟨listed, hl1, hsa⟩, ?_⟩
    obtain ⟨namespaces, nerr, hm, hmem⟩ :=
      listing_namespace_of_deleteServiceAccounts p1 ns _ listed none hl1
    by_contra hreq
    have hreq2 : isRequired
        (getServiceAccountsSetByNamespace ro (newVaultRoles ro unmarshal data)) ns sa = true := by
      simpa using hreq
    have := hstar ns sa hreq2
    subst this
    exact hns ⟨.GetNamespaces, .names namespaces nerr⟩ (by simp [hm]) rfl hmem

set_option maxRecDepth 100000 in
/-- Witness of C29: with one role bound to the account `app` in every
namespace, the managed account `default` of the namespace `test` is deleted. -/
theorem initServiceAccounts_namespace_wildcard_is_not_expanded_witness :
    Call.DeleteServiceAccount "test" "default"
        ∈ calls (namespaceWildcardAuth.pass RangeOrder.stored wildcardUnmarshal ())
      ∧ ∀ c ∈ calls (namespaceWildcardAuth.pass RangeOrder.stored wildcardUnmarshal ()),
          c.method ≠ 8 :=
  have h := initServiceAccounts_namespace_wildcard_is_not_expanded namespaceWildcardAuth
    RangeOrder.stored wildcardUnmarshal ()
    (namespaceWildcardAuth.k8sClient.GetConfigMapData vaultAuthConfigNamespace
      vaultAuthConfigMap ()).1.1
    (by decide) (by decide) (by decide)
  ⟨h.2 "test" ["vault-agent-injector", "default"] "default" (by decide) (by decide), h.1⟩

/-- C30: in a pass that read the config map `data` without error, for a desired
role `role` (stored under `name`) with `BoundServiceAccountNames = ["*"]` and a
namespace `ns` among its bound namespaces that every `GetNamespaces` call of the
pass returned: the pass issues `CreateServiceAccount(ns, "*", {vak-managed:
true})`; in the requirement the account named `*` is required in `ns`, and any
other name is required there only through another role; so `*` is never deleted
in `ns`, and every other listed managed account of `ns` that no other role
requires is deleted. -/
theorem initServiceAccounts_name_wildcard_is_a_literal_name (a : Auth σ) (ro : RangeOrder)
    (unmarshal : String → Role × GoError) (s : σ) (data : GoMap String) (name : String)
    (role : Role) (ns : String)
    (hdata : ⟨.GetConfigMapData vaultAuthConfigNamespace vaultAuthConfigMap, .data data none⟩
      ∈ a.pass ro unmarshal s)
    (hrole : (newVaultRoles ro unmarshal data).get? name = some role)
    (hnames : role.BoundServiceAccountNames = some ["*"])
    (hbound : ns ∈ role.BoundServiceAccountNamespaces.elems)
    (hns : ∀ e ∈ a.pass ro unmarshal s, e.call = Call.GetNamespaces → ns ∈ e.names) :
    Call.CreateServiceAccount ns "*" serviceAccountAnnotations ∈ calls (a.pass ro unmarshal s)
    ∧ (∀ sa, isRequired
          (getServiceAccountsSetByNamespace ro (newVaultRoles ro unmarshal data)) ns sa = true
        ↔ sa = "*" ∨ ∃ p ∈ (newVaultRoles ro unmarshal data).entries, p.1 ≠ name
            ∧ ns ∈ p.2.BoundServiceAccountNamespaces.elems
            ∧ sa ∈ p.2.BoundServiceAccountNames.elems)
    ∧ Call.DeleteServiceAccount ns "*" ∉ calls (a.pass ro unmarshal s)
    ∧ (∀ listed sa,
        ⟨.GetServiceAccounts ns serviceAccountAnnotations, .names listed none⟩
          ∈ a.pass ro unmarshal s →
        sa ∈ listed → sa ≠ "*" →
        (∀ p ∈ (newVaultRoles ro unmarshal data).entries, p.1 ≠ name →
          ns ∈ p.2.BoundServiceAccountNamespaces.elems →
          sa ∉ p.2.BoundServiceAccountNames.elems) →
        Call.DeleteServiceAccount ns sa ∈ calls (a.pass ro unmarshal s)) := by
  obtain ⟨s1, s2, s3, s4, hp, p1, p2, p3, p4⟩ := pass_of_data a ro unmarshal s data hdata
  have hentry : (name, role) ∈ (newVaultRoles ro unmarshal data).entries :=
    (GoMap.get?_eq_some_iff _ _ _).mp hrole
  have hreq : ∀ sa, isRequired
        (getServiceAccountsSetByNamespace ro (newVaultRoles ro unmarshal data)) ns sa = true
      ↔ sa = "*" ∨ ∃ p ∈ (newVaultRoles ro unmarshal data).entries, p.1 ≠ name
          ∧ ns ∈ p.2.BoundServiceAccountNamespaces.elems
          ∧ sa ∈ p.2.BoundServiceAccountNames.elems := by
    intro sa
    rw [(getServiceAccountsSetByNamespace_spec ro (newVaultRoles ro unmarshal data) ns sa).1]
    constructor
    · rintro ⟨p, hp1, hp2, hp3⟩
      by_cases hn : p.1 = name
      · left
        have h1 : (newVaultRoles ro unmarshal data).get? p.1 = some p.2 :=
          (GoMap.get?_eq_some_iff _ _ _).mpr hp1
        rw [hn, hrole, Option.some.injEq] at h1
        rw [← h1, hnames] at hp3
        simpa [Slice.elems] using hp3
      · right; exact ⟨p, hp1, hn, hp2, hp3⟩
    · rintro (h | ⟨p, hp1, _, hp2, hp3⟩)
      · refine ⟨(name, role), hentry, hbound, ?_⟩
        rw [hnames, h]
        simp [Slice.elems]
      · exact ⟨p, hp1, hp2, hp3⟩
  rw [hp] at hns ⊢
  refine ⟨?_, hreq, ?_, ?_⟩
  · rw [create_mem_pass_iff p1 p2 p3 p4
      (⟨.GetConfigMapData vaultAuthConfigNamespace vaultAuthConfigMap, .data data none⟩ : Event)
      rfl, create_mem_createServiceAccounts p3]
    refine ⟨rfl, (hreq "*").mpr (Or.inl rfl), ?_⟩
    obtain ⟨namespaces, err, creates, rfl, _⟩ := p3
    refine ⟨namespaces, err, List.mem_cons_self _ _, ?_⟩
    exact hns ⟨.GetNamespaces, .names namespaces err⟩ (by simp) rfl
  · rw [delete_mem_pass_iff p1 p2 p3 p4
      (⟨.GetConfigMapData vaultAuthConfigNamespace vaultAuthConfigMap, .data data none⟩ : Event)
      rfl, deleteServiceAccounts_delete_iff p1]
    rintro ⟨_, h⟩
    rw [(hreq "*").mpr (Or.inl rfl)] at h
    cases h
  · intro listed sa hl hsa hne hother
    have hl1 := (mem_pass_of_method p1 p2 p3 p4
      (⟨.GetConfigMapData vaultAuthConfigNamespace vaultAuthConfigMap, .data data none⟩ : Event)
      rfl _ hl).2.2 (Or.inl rfl)
    rw [delete_mem_pass_iff p1 p2 p3 p4
      (⟨.GetConfigMapData vaultAuthConfigNamespace vaultAuthConfigMap, .data data none⟩ : Event)
      rfl, deleteServiceAccounts_delete_iff p1]
    refine ⟨⟨listed, hl1, hsa⟩, ?_⟩
    by_contra hreq2
    have hreq3 : isRequired
        (getServiceAccountsSetByNamespace ro (newVaultRoles ro unmarshal data)) ns sa = true := by
      simpa using hreq2
    rcases (hreq sa).mp hreq3 with h | ⟨p, hp1, hp2, hp3, hp4⟩
    · exact hne h
    · exact hother p hp1 hp2 hp3 hp4

set_option maxRecDepth 100000 in
/-- Witness of C30: with one role bound to every account name in the namespace
`test`, an account named `*` is created there and the managed account `default`
is deleted. -/
theorem initServiceAccounts_name_wildcard_is_a_literal_name_witness :
    Call.CreateServiceAccount "test" "*" serviceAccountAnnotations
        ∈ calls (nameWildcardAuth.pass RangeOrder.stored wildcardUnmarshal ())
      ∧ Call.DeleteServiceAccount "test" "default"
        ∈ calls (nameWildcardAuth.pass RangeOrder.stored wildcardUnmarshal ()) :=
  have h := initServiceAccounts_name_wildcard_is_a_literal_name nameWildcardAuth
    RangeOrder.stored wildcardUnmarshal ()
    (nameWildcardAuth.k8sClient.GetConfigMapData vaultAuthConfigNamespace
      vaultAuthConfigMap ()).1.1
    "test" ⟨some ["*"], some ["test"], some ["test"], 0⟩ "test"
    (by decide) (by decide) (by decide) (by decide) (by decide)
  ⟨h.1, h.2.2.2 ["vault-agent-injector", "default"] "default" (by decide) (by decide)
    (by decide) (by decide)⟩

end Wildcards

/-! ## Mounting the auth backend -/

section Mount

open Vault

variable {σ : Type}

theorem findAuthKubernetesMount_none (mount : String) (l : List (String × String))
    (h : ∀ p ∈ l, stringsTrim p.1 "/" ≠ mount) :
    findAuthKubernetesMount mount l = (false, none) := by
  induction l with
  | nil => rfl
  | cons p l ih =>
    obtain ⟨key, type⟩ := p
    have h1 : stringsTrim key "/" ≠ mount := h (key, type) (List.mem_cons_self _ _)
    simp only [findAuthKubernetesMount, h1, if_false]
    exact ih (fun q hq => h q (List.mem_cons_of_mem _ hq))

theorem findAuthKubernetesMount_kubernetes (mount : String) (l : List (String × String))
    (hex : ∃ p ∈ l, stringsTrim p.1 "/" = mount)
    (hall : ∀ p ∈ l, stringsTrim p.1 "/" = mount → p.2 = kubernetesMountType) :
    findAuthKubernetesMount mount l = (true, none) := by
  induction l with
  | nil => obtain ⟨p, hp, _⟩ := hex; simp at hp
  | cons p l ih =>
    obtain ⟨key, type⟩ := p
    by_cases h1 : stringsTrim key "/" = mount
    · have h2 : type = kubernetesMountType := hall (key, type) (List.mem_cons_self _ _) h1
      simp [findAuthKubernetesMount, h1, h2]
    · simp only [findAuthKubernetesMount, h1, if_false]
      apply ih
      · obtain ⟨q, hq, hq2⟩ := hex
        rcases List.mem_cons.mp hq with rfl | hq
        · exact absurd hq2 h1
        · exact ⟨q, hq, hq2⟩
      · exact fun q hq => hall q (List.mem_cons_of_mem _ hq)

theorem findAuthKubernetesMount_other (mount : String) (l : List (String × String))
    (hex : ∃ p ∈ l, stringsTrim p.1 "/" = mount)
    (hall : ∀ p ∈ l, stringsTrim p.1 "/" = mount → p.2 ≠ kubernetesMountType) :
    (findAuthKubernetesMount mount l).1 = false
      ∧ (findAuthKubernetesMount mount l).2 ≠ none := by
  induction l with
  | nil => obtain ⟨p, hp, _⟩ := hex; simp at hp
  | cons p l ih =>
    obtain ⟨key, type⟩ := p
    by_cases h1 : stringsTrim key "/" = mount
    · have h2 : type ≠ kubernetesMountType := hall (key, type) (List.mem_cons_self _ _) h1
      simp [findAuthKubernetesMount, h1, h2]
    · simp only [findAuthKubernetesMount, h1, if_false]
      apply ih
      · obtain ⟨q, hq, hq2⟩ := hex
        rcases List.mem_cons.mp hq with rfl | hq
        · exact absurd hq2 h1
        · exact ⟨q, hq, hq2⟩
      · exact fun q hq => hall q (List.mem_cons_of_mem _ hq)

/-- C21: `InitAuthKubernetes` first lists the auth backends. When the listing
was read and decoded, what follows depends on its entries whose key is the mount
of the client, leading and trailing `/` apart (a key that only shares a prefix
with the mount is not such an entry), whatever the order in which the map is
ranged over. If there are such entries and they have the type `kubernetes`, nil
is returned and nothing is sent after the listing. If there are such entries and
they have another type, an error is returned and nothing is sent after the
listing. If there is no such entry, the mount request is made, and then, only if
it succeeded, the configure request; a failed mount request gives the error and
the session of the mount request. The mount request is a POST to
`sys/auth/<mount>` and the configure request a POST to `auth/<mount>/config`.
When the listing fails, its error is returned and nothing else is sent. -/
theorem InitAuthKubernetes_mounts_only_when_not_mounted (L : Lib) (ro : RangeOrder)
    (kubernetesHost kubernetesCACert tokenReviewerJWT : String) (s : Session σ) :
    (∀ jsonRequest listing s1,
      newJsonRequest L s.client "GET" "sys/auth" none = .ok jsonRequest →
      doJsonRequest L jsonRequest (some L.unmarshalMounts) GoMap.empty
        [errorHandler.permissionDenied] httpNumberOfRetries s = (none, listing, s1) →
      ((∃ p ∈ listing.entries, stringsTrim p.1 "/" = s1.client.mount) →
        (∀ p ∈ listing.entries, stringsTrim p.1 "/" = s1.client.mount →
          p.2 = kubernetesMountType) →
        InitAuthKubernetes L ro kubernetesHost kubernetesCACert tokenReviewerJWT s = (none, s1))
      ∧ ((∃ p ∈ listing.entries, stringsTrim p.1 "/" = s1.client.mount) →
        (∀ p ∈ listing.entries, stringsTrim p.1 "/" = s1.client.mount →
          p.2 ≠ kubernetesMountType) →
        (InitAuthKubernetes L ro kubernetesHost kubernetesCACert tokenReviewerJWT s).1 ≠ none
        ∧ (InitAuthKubernetes L ro kubernetesHost kubernetesCACert tokenReviewerJWT s).2 = s1)
      ∧ ((∀ p ∈ listing.entries, stringsTrim p.1 "/" ≠ s1.client.mount) →
        (∀ err, (mountAuthKubernetes L s1).1 = some err →
          InitAuthKubernetes L ro kubernetesHost kubernetesCACert tokenReviewerJWT s
            = (some err, (mountAuthKubernetes L s1).2))
        ∧ ((mountAuthKubernetes L s1).1 = none →
          InitAuthKubernetes L ro kubernetesHost kubernetesCACert tokenReviewerJWT s
            = configureAuthKubernetes L kubernetesHost kubernetesCACert tokenReviewerJWT
                (mountAuthKubernetes L s1).2)))
    ∧ (∀ (s1 : Session σ) jsonRequest,
      newJsonRequest L s1.client "POST" ("sys/auth/" ++ s1.client.mount)
        (some (RequestBody.mount kubernetesMountType "Kubernetes auth backend for RUN cluster"
          (GoMap.empty.set "max_lease_ttl" "8760h"))) = .ok jsonRequest →
      ∃ first rest, s1.since (mountAuthKubernetes L s1).2 = first :: rest
        ∧ (mountAuthKubernetes L s1).2.log = s1.log ++ first :: rest
        ∧ first.request.Method = "POST"
        ∧ first.request.URL = buildVaultUrl s1.client ("sys/auth/" ++ s1.client.mount))
    ∧ (∀ (s2 : Session σ) jsonRequest,
      newJsonRequest L s2.client "POST" ("auth/" ++ s2.client.mount ++ "/config")
        (some (RequestBody.configure kubernetesHost kubernetesCACert tokenReviewerJWT))
        = .ok jsonRequest →
      ∃ first rest,
        s2.since (configureAuthKubernetes L kubernetesHost kubernetesCACert tokenReviewerJWT
          s2).2 = first :: rest
        ∧ (configureAuthKubernetes L kubernetesHost kubernetesCACert tokenReviewerJWT s2).2.log
          = s2.log ++ first :: rest
        ∧ first.request.Method = "POST"
        ∧ first.request.URL = buildVaultUrl s2.client ("auth/" ++ s2.client.mount ++ "/config")
        ∧ first.request.Body = some (L.marshal
            (RequestBody.configure kubernetesHost kubernetesCACert tokenReviewerJWT)).1)
    ∧ (∀ err, (isAuthKubernetesMounted L ro s).1.2 = some err →
      InitAuthKubernetes L ro kubernetesHost kubernetesCACert tokenReviewerJWT s
        = (some err, (isAuthKubernetesMounted L ro s).2)) := by
  refine ⟨?_, ?_, ?_, ?_⟩
  · intro jsonRequest listing s1 hreq hrun
    have hm : isAuthKubernetesMounted L ro s
        = (findAuthKubernetesMount s1.client.mount (ro.visit 5 listing.entries), s1) := by
      unfold isAuthKubernetesMounted
      simp only [hreq, hrun]
    have hperm : ∀ p, p ∈ ro.visit 5 listing.entries ↔ p ∈ listing.entries :=
      fun p => (ro.perm 5 listing.entries).mem_iff
    refine ⟨?_, ?_, ?_⟩
    · intro hex hall
      have hf := findAuthKubernetesMount_kubernetes s1.client.mount
        (ro.visit 5 listing.entries)
        (by obtain ⟨p, hp, hp2⟩ := hex; exact ⟨p, (hperm p).mpr hp, hp2⟩)
        (fun p hp => hall p ((hperm p).mp hp))
      unfold InitAuthKubernetes
      rw [hm, hf]
    · intro hex hall
      have hf := findAuthKubernetesMount_other s1.client.mount
        (ro.visit 5 listing.entries)
        (by obtain ⟨p, hp, hp2⟩ := hex; exact ⟨p, (hperm p).mpr hp, hp2⟩)
        (fun p hp => hall p ((hperm p).mp hp))
      unfold InitAuthKubernetes
      rw [hm]
      rcases hfm : findAuthKubernetesMount s1.client.mount (ro.visit 5 listing.entries)
        with ⟨b, e⟩
      rw [hfm] at hf
      cases e with
      | none => exact absurd rfl hf.2
      | some e => simp
    · intro hno
      have hf := findAuthKubernetesMount_none s1.client.mount (ro.visit 5 listing.entries)
        (fun p hp => hno p ((hperm p).mp hp))
      unfold InitAuthKubernetes
      rw [hm, hf]
      simp only
      rcases hmt : mountAuthKubernetes L s1 with ⟨e, s2⟩
      cases e with
      | none => simp
      | some e => simp
  · intro s1 jsonRequest hreq
    obtain ⟨hm, hu, _⟩ := newJsonRequest_ok L s1.client _ _ _ _ hreq
    obtain ⟨first, rest, f1, f2, f3⟩ := doJsonRequest_first L jsonRequest
      (none : Option (String → Unit → Unit × GoError)) ()
      [errorHandler.permissionDenied] s1
    unfold mountAuthKubernetes
    simp only [hreq]
    refine ⟨first, rest, f1, f2, ?_, ?_⟩
    · rw [f3]; exact hm
    · rw [f3]; exact hu
  · intro s2 jsonRequest hreq
    obtain ⟨hm, hu, hb⟩ := newJsonRequest_ok L s2.client _ _ _ _ hreq
    obtain ⟨first, rest, f1, f2, f3⟩ := doJsonRequest_first L jsonRequest
      (none : Option (String → Unit → Unit × GoError)) ()
      [errorHandler.permissionDenied] s2
    unfold configureAuthKubernetes
    simp only [hreq]
    refine ⟨first, rest, f1, f2, ?_, ?_, ?_⟩
    · rw [f3]; exact hm
    · rw [f3]; exact hu
    · rw [f3]; simpa [Request.HeaderSet] using hb
  · intro err h
    unfold InitAuthKubernetes
    rcases hm : isAuthKubernetesMounted L ro s with ⟨⟨b, e⟩, s1⟩
    rw [hm] at h
    simp only at h
    subst h
    cases b <;> rfl

set_option maxRecDepth 100000 in
/-- Witness of C21: the test "when auth is already mounted then init is skipped and
no error is returned"; and a listing where only a mount that shares a prefix with
the mount of the client is found: the mount request and the configure request
are sent. -/
theorem InitAuthKubernetes_mounts_only_when_not_mounted_witness :
    InitAuthKubernetes exampleMountsLib RangeOrder.stored "https://backend.kube.com" "CA" "JWT"
        (exampleSession [answer 200 exampleMountsBody])
      = (none, (isAuthKubernetesMounted exampleMountsLib RangeOrder.stored
          (exampleSession [answer 200 exampleMountsBody])).2)
    ∧ ((InitAuthKubernetes exampleMountsLib RangeOrder.stored "https://backend.kube.com" "CA"
          "JWT" (exampleSession [answer 200 exampleOtherMountsBody, answer 204 "",
            answer 204 ""])).2.log.map (fun e => (e.request.Method, e.request.URL)))
      = [("GET", "http://127.0.0.1:8200/v1/sys/auth"),
          ("POST", "http://127.0.0.1:8200/v1/sys/auth/kubernetes/hcom-sandbox-aws/backend"),
          ("POST",
            "http://127.0.0.1:8200/v1/auth/kubernetes/hcom-sandbox-aws/backend/config")] :=
  ⟨((InitAuthKubernetes_mounts_only_when_not_mounted exampleMountsLib RangeOrder.stored
      "https://backend.kube.com" "CA" "JWT" (exampleSession [answer 200 exampleMountsBody])).1
      ⟨"GET", "http://127.0.0.1:8200/v1/sys/auth",
        GoMap.empty.set "Content-Type" "application/json", none⟩
      ⟨[("kubernetes/hcom-sandbox-aws/backend/", "kubernetes"), ("approle/", "approle"),
        ("kubernetes/hcom-sandbox-aws/", "ldap")], by decide⟩
      (isAuthKubernetesMounted exampleMountsLib RangeOrder.stored
        (exampleSession [answer 200 exampleMountsBody])).2
      (by rfl) (by rfl)).1 (by decide) (by decide),
    by decide⟩

end Mount

/-! ## The number of round trips of one request -/

section RoundTrips

open Vault

variable {σ : Type}

set_option maxRecDepth 100000 in
/-- C26 as stated does not hold when a handler logs in. With the budget 3 and
the handlers of `ListRoles`, against a store that rejects every token and lets
the first login fail once, `doJsonRequest` makes six round trips: the request
three times, and three login requests. -/
theorem doJsonRequest_makes_six_round_trips_with_budget_three :
    ((doJsonRequest exampleLib exampleRequest (some exampleLib.unmarshalKeys) none
        [errorHandler.permissionDenied, errorHandler.expectedNotFound] 3
        (exampleSession [answer 403 permissionDeniedBody, answer 500 "",
          answer 200 exampleLoginBody, answer 403 permissionDeniedBody,
          answer 200 exampleLoginBody, answer 403 permissionDeniedBody])).2.2.log.map
      (fun e => e.request.Method))
      = ["LIST", "POST", "POST", "LIST", "POST", "LIST"]
    ∧ (doJsonRequest exampleLib exampleRequest (some exampleLib.unmarshalKeys) none
        [errorHandler.permissionDenied, errorHandler.expectedNotFound] 3
        (exampleSession [answer 403 permissionDeniedBody, answer 500 "",
          answer 200 exampleLoginBody, answer 403 permissionDeniedBody,
          answer 200 exampleLoginBody, answer 403 permissionDeniedBody])).1
      = some "app role login: number of retries exceeded" := by
  decide

/-- C26, amended: for every budget `n`, every handler chain and every server, a
run of `doJsonRequest` attempts its request at most `n` times; it makes at most
`n` round trips in total when no handler of the chain logs in, and at most
`n (n + 1) / 2` round trips, the logins included, when the chain holds the
handler that logs in at most once. -/
theorem doJsonRequest_round_trips_are_bounded {β : Type} (L : Lib) (request : Request)
    (decode : Option (String → β → β × GoError)) (t : β) (handlers : List errorHandler)
    (n : Nat) (s : Session σ) :
    (errorHandler.permissionDenied ∉ handlers →
      (s.since (doJsonRequest L request decode t handlers n s).2.2).length ≤ n)
    ∧ (handlers.count errorHandler.permissionDenied ≤ 1 →
      2 * (s.since (doJsonRequest L request decode t handlers n s).2.2).length ≤ n * (n + 1))
    ∧ (request.URL ≠ loginUrl s.client →
      attempts request (s.since (doJsonRequest L request decode t handlers n s).2.2) ≤ n) := by
  obtain ⟨ext, h1, _, h3, _, h5, _⟩ := doJsonRequest_run L request decode handlers n t s
  rw [since_of_Extends h1]
  refine ⟨?_, h5, h3⟩
  intro hpd
  obtain ⟨ext2, g1, _, g3, _⟩ := doJsonRequest_plain L request decode handlers hpd n t s
  have : ext2 = ext := List.append_cancel_left (g1.symm.trans h1.1)
  subst this
  exact g3

set_option maxRecDepth 100000 in
/-- Witness of the amended C26: the run with six round trips stays within
`3 * 4 / 2`, and the request itself is sent three times. -/
theorem doJsonRequest_round_trips_are_bounded_witness :
    2 * ((exampleSession [answer 403 permissionDeniedBody, answer 500 "",
          answer 200 exampleLoginBody, answer 403 permissionDeniedBody,
          answer 200 exampleLoginBody, answer 403 permissionDeniedBody]).since
        (doJsonRequest exampleLib exampleRequest (some exampleLib.unmarshalKeys) none
          [errorHandler.permissionDenied, errorHandler.expectedNotFound] 3
          (exampleSession [answer 403 permissionDeniedBody, answer 500 "",
            answer 200 exampleLoginBody, answer 403 permissionDeniedBody,
            answer 200 exampleLoginBody, answer 403 permissionDeniedBody])).2.2).length
      ≤ 3 * (3 + 1) :=
  (doJsonRequest_round_trips_are_bounded exampleLib exampleRequest
    (some exampleLib.unmarshalKeys) none
    [errorHandler.permissionDenied, errorHandler.expectedNotFound] 3
    (exampleSession [answer 403 permissionDeniedBody, answer 500 "",
      answer 200 exampleLoginBody, answer 403 permissionDeniedBody,
      answer 200 exampleLoginBody, answer 403 permissionDeniedBody])).2.1 (by decide)

/-- The handlers of a rejected token, when exactly one of them logs in and
none accepts the answer: the session is the one the login left; a failed login
ends the request with its error, a successful one lets it go on. -/
theorem runErrorHandlers_login (login : Session σ → GoError × Session σ)
    (responseErrs : responseErrors) (handlers : List errorHandler) (s : Session σ)
    (hcount : handlers.count errorHandler.permissionDenied = 1)
    (hpd : responseErrs.contains "permission denied" = true)
    (h404 : errorHandler.expectedNotFound ∈ handlers → responseErrs.status ≠ 404) :
    runErrorHandlers login responseErrs handlers s
      = (match (login s).1 with
          | some err => (true, some ("app role login: " ++ err))
          | none => (false, none), (login s).2) := by
  rcases hl : login s with ⟨e, s2⟩
  cases e with
  | none => exact runErrorHandlers_relogin login responseErrs handlers s s2 hcount hpd h404 hl
  | some err =>
    simp only
    induction handlers with
    | nil => simp at hcount
    | cons h rest ih =>
      cases h with
      | expectedNotFound =>
        have hne : responseErrs.status ≠ 404 := h404 (List.mem_cons_self _ _)
        have hc : rest.count errorHandler.permissionDenied = 1 := by
          simpa [List.count_cons] using hcount
        simp only [runErrorHandlers, errorHandler.call, expectedNotFoundErrorHandler, hne,
          if_false, Bool.false_or, Option.isSome_none, Bool.false_eq_true]
        exact ih hc (fun hm => h404 (List.mem_cons_of_mem _ hm))
      | permissionDenied =>
        simp [runErrorHandlers, errorHandler.call, permissionDeniedErrorHandler, hpd, hl]

/-- C27: for every budget `n`, every server and every handler chain that holds
the handler for permission denied once, as the chains of the package do, a run
of `doJsonRequest` makes at most `n (n + 1) / 2` round trips, logins included.
The attempt made with the budget `k + 1` that is rejected with `permission
denied` (and not as an expected 404) runs `appRoleLogin` with the budget `k`,
which makes at most `k` round trips; when that login fails the request ends with
its error, otherwise it goes on with the budget `k` and the request object as
the attempt left it. A budget that is not negative stays so: the budget is
decreased only after it was found not to be 0. -/
theorem doJsonRequest_with_login_is_quadratic {β : Type} (L : Lib) (request : Request)
    (decode : Option (String → β → β × GoError)) (t : β) (handlers : List errorHandler)
    (n : Nat) (s : Session σ)
    (hcount : handlers.count errorHandler.permissionDenied = 1) :
    2 * (s.since (doJsonRequest L request decode t handlers n s).2.2).length ≤ n * (n + 1)
    ∧ (∀ (k : Nat) (t0 : β) (s0 : Session σ) (responseErrs : responseErrors) (t1 : β)
        (s1 : Session σ),
        doHttpRequest L (request.HeaderSet "X-Vault-Token" s0.client.token) decode t0 s0
          = ((some responseErrs, none), t1, s1) →
        responseErrs.contains "permission denied" = true →
        (errorHandler.expectedNotFound ∈ handlers → responseErrs.status ≠ 404) →
        doJsonRequest L request decode t0 handlers (k + 1) s0
          = match (appRoleLogin L k s1).1 with
            | some err => (some ("app role login: " ++ err), t1, (appRoleLogin L k s1).2)
            | none => doJsonRequest L (s0.attempted request) decode t1 handlers k
                (appRoleLogin L k s1).2)
    ∧ (∀ (k : Nat) (s0 : Session σ), (s0.since (appRoleLogin L k s0).2).length ≤ k)
    ∧ (∀ retries : Int, 0 ≤ retries → retries ≠ 0 → 0 ≤ retries - 1) := by
  refine ⟨?_, ?_, ?_, ?_⟩
  · obtain ⟨ext, h1, _, _, _, h5, _⟩ := doJsonRequest_run L request decode handlers n t s
    rw [since_of_Extends h1]
    exact h5 (le_of_eq hcount)
  · intro k t0 s0 responseErrs t1 s1 hd hpd h404
    rw [doJsonRequest_succ, hd]
    simp only
    rw [runErrorHandlers_login _ _ _ _ hcount hpd h404]
    cases (appRoleLogin L k s1).1 <;> rfl
  · intro k s0
    obtain ⟨ext, h1, h2, _⟩ := appRoleLogin_run L k s0
    rw [since_of_Extends h1]
    exact h2
  · intro retries h0 hne
    omega

set_option maxRecDepth 100000 in
/-- Witness of C27: the run with the budget 3 against a store that rejects every
token makes at most six round trips. -/
theorem doJsonRequest_with_login_is_quadratic_witness :
    2 * ((exampleSession [answer 403 permissionDeniedBody, answer 200 exampleLoginBody,
          answer 403 permissionDeniedBody, answer 200 exampleLoginBody,
          answer 403 permissionDeniedBody]).since
        (doJsonRequest exampleLib exampleRequest (some exampleLib.unmarshalKeys) none
          [errorHandler.permissionDenied, errorHandler.expectedNotFound] 3
          (exampleSession [answer 403 permissionDeniedBody, answer 200 exampleLoginBody,
            answer 403 permissionDeniedBody, answer 200 exampleLoginBody,
            answer 403 permissionDeniedBody])).2.2).length
      ≤ 3 * (3 + 1) :=
  (doJsonRequest_with_login_is_quadratic exampleLib exampleRequest
    (some exampleLib.unmarshalKeys) none
    [errorHandler.permissionDenied, errorHandler.expectedNotFound] 3
    (exampleSession [answer 403 permissionDeniedBody, answer 200 exampleLoginBody,
      answer 403 permissionDeniedBody, answer 200 exampleLoginBody,
      answer 403 permissionDeniedBody]) (by decide)).1

end RoundTrips

/-! ## `Role.Equal` on an absent and an empty list -/

section NilAndEmpty

open Vault

variable {σ : Type}

/-- `CreateRole` when the store holds a role that is not `Equal` to the desired
one: the request is made with the role as `Equal` left it. -/
theorem CreateRole_of_changed (L : Lib) (name : String) (role existing : Role)
    (s s1 : Session σ) (jsonRequest : Request)
    (hrd : readRole L name s = ((some existing, none), s1))
    (hneq : (role.Equal existing).1 = false)
    (hreq : newJsonRequest L s1.client "POST" ("auth/" ++ s1.client.mount ++ "/role/" ++ name)
      (some (RequestBody.role (role.Equal existing).2.1)) = .ok jsonRequest) :
    CreateRole L name role s
      = ((doJsonRequest L jsonRequest (none : Option (String → Unit → Unit × GoError)) ()
          [errorHandler.permissionDenied] httpNumberOfRetries s1).1,
        (doJsonRequest L jsonRequest (none : Option (String → Unit → Unit × GoError)) ()
          [errorHandler.permissionDenied] httpNumberOfRetries s1).2.2) := by
  unfold CreateRole
  rw [hrd]
  simp only [hneq, Bool.false_eq_true, if_false, hreq]

/-- C28: `Equal` tells an absent list from an empty one. For roles `a` and `b`
that agree on every field except one list, nil in `a` and empty but not nil in
`b`, `a.Equal(b)` and `b.Equal(a)` are false; `StringSliceToSet` turns an empty
list into a nil one; and whenever the store holds `b`, `CreateRole(name, a)`
sends, after the read, the POST for `name` with the role `a`. -/
theorem Role_Equal_distinguishes_nil_from_empty (a b : Role) (h : a.NilWhereEmpty b) :
    (a.Equal b).1 = false
    ∧ (b.Equal a).1 = false
    ∧ StringSliceToSet (some []) = none
    ∧ (∀ (L : Lib) (name : String) (s : Session σ) (jsonRequest : Request),
        (readRole L name s).1 = (some b, none) →
        newJsonRequest L (readRole L name s).2.client "POST"
          ("auth/" ++ (readRole L name s).2.client.mount ++ "/role/" ++ name)
          (some (RequestBody.role (a.Equal b).2.1)) = .ok jsonRequest →
        ∃ first rest,
          (readRole L name s).2.since (CreateRole L name a s).2 = first :: rest
          ∧ (CreateRole L name a s).2.log = (readRole L name s).2.log ++ first :: rest
          ∧ first.request.Method = "POST"
          ∧ first.request.URL = buildVaultUrl (readRole L name s).2.client
              ("auth/" ++ (readRole L name s).2.client.mount ++ "/role/" ++ name)
          ∧ first.request.Body = some (L.marshal (RequestBody.role a.sortLists)).1) := by
  have hne : a.sortLists ≠ b.sortLists := by
    intro e
    have e1 := congrArg Role.BoundServiceAccountNames e
    have e2 := congrArg Role.BoundServiceAccountNamespaces e
    have e3 := congrArg Role.TokenPolicies e
    rcases h with ⟨h1, rfl⟩ | ⟨h1, rfl⟩ | ⟨h1, rfl⟩
    · simp [Role.sortLists, sortStrings, h1] at e1
    · simp [Role.sortLists, sortStrings, h1] at e2
    · simp [Role.sortLists, sortStrings, h1] at e3
  have hab : (a.Equal b).1 = false := by
    simp [Role.Equal, hne]
  refine ⟨hab, by simp [Role.Equal, Ne.symm hne], by decide, ?_⟩
  intro L name s jsonRequest hrd hreq
  rcases hr : readRole L name s with ⟨res, s1⟩
  rw [hr] at hrd hreq
  simp only at hrd hreq
  subst hrd
  rw [CreateRole_of_changed L name a b s s1 jsonRequest hr hab hreq]
  obtain ⟨hm, hu, hb⟩ := newJsonRequest_ok L s1.client _ _ _ _ hreq
  obtain ⟨first, rest, f1, f2, f3⟩ := doJsonRequest_first L jsonRequest
    (none : Option (String → Unit → Unit × GoError)) ()
    [errorHandler.permissionDenied] s1
  refine ⟨first, rest, f1, f2, ?_, ?_, ?_⟩
  · rw [f3]; exact hm
  · rw [f3]; exact hu
  · rw [f3]; simpa [Request.HeaderSet, Role.Equal] using hb

/-- Witness of C28: a desired role without token policies against a stored role
whose token policies are the empty list. -/
theorem Role_Equal_distinguishes_nil_from_empty_witness :
    (Role.Equal ⟨some ["default"], some ["test1"], none, 3600⟩
      ⟨some ["default"], some ["test1"], some [], 3600⟩).1 = false :=
  (@Role_Equal_distinguishes_nil_from_empty Unit
    ⟨some ["default"], some ["test1"], none, 3600⟩
    ⟨some ["default"], some ["test1"], some [], 3600⟩ (by decide)).1

end NilAndEmpty

/-! ## The Kubernetes client: listing service accounts, reading a token -/

section KubernetesClient

open K8s

variable {σ : Type}

theorem foldl_append_name (annotations : GoMap String) (name : String)
    (l : List (String × String)) (acc : Slice) :
    l.foldl (fun serviceAccountNames entry =>
        if (annotations.get? entry.1).getD "" ≠ entry.2 then serviceAccountNames
        else Slice.append serviceAccountNames name) acc
      = if l.countP (fun entry => (annotations.get? entry.1).getD "" = entry.2) = 0 then acc
        else some (acc.elems ++ List.replicate
          (l.countP (fun entry => (annotations.get? entry.1).getD "" = entry.2)) name) := by
  induction l generalizing acc with
  | nil => simp
  | cons p l ih =>
    rw [List.foldl_cons, ih]
    by_cases hp : (annotations.get? p.1).getD "" = p.2
    · have h1 : (p :: l).countP (fun entry => (annotations.get? entry.1).getD "" = entry.2)
          = l.countP (fun entry => (annotations.get? entry.1).getD "" = entry.2) + 1 := by
        rw [List.countP_cons]; simp [hp]
      rw [h1]
      simp only [hp, ne_eq, not_true_eq_false, if_false, Nat.add_one_ne_zero]
      by_cases h0 : l.countP (fun entry => (annotations.get? entry.1).getD "" = entry.2) = 0
      · simp [h0, Slice.append]
      · simp only [h0, if_false, Slice.append, Slice.elems, List.replicate_succ]
        simp
    · have h1 : (p :: l).countP (fun entry => (annotations.get? entry.1).getD "" = entry.2)
          = l.countP (fun entry => (annotations.get? entry.1).getD "" = entry.2) := by
        rw [List.countP_cons]; simp [hp]
      rw [h1]
      simp [hp]

theorem foldl_listedNames (ro : RangeOrder) (annotations : GoMap String)
    (items : List K8s.ServiceAccount) (acc : Slice) :
    items.foldl
      (fun serviceAccountNames serviceAccount =>
        if annotations.entries.length = 0 then
          Slice.append serviceAccountNames serviceAccount.Name
        else
          (ro.visit 6 serviceAccount.Annotations.entries).foldl
            (fun serviceAccountNames entry =>
              if (annotations.get? entry.1).getD "" ≠ entry.2 then serviceAccountNames
              else Slice.append serviceAccountNames serviceAccount.Name)
            serviceAccountNames) acc
      = if listedNames annotations items = [] then acc
        else some (acc.elems ++ listedNames annotations items) := by
  induction items generalizing acc with
  | nil => simp [listedNames]
  | cons x items ih =>
    rw [List.foldl_cons, ih]
    have hl : listedNames annotations (x :: items)
        = (if annotations.entries.length = 0 then [x.Name]
            else List.replicate (matchingAnnotations annotations x) x.Name)
          ++ listedNames annotations items := by
      simp [listedNames]
    rw [hl]
    by_cases ha : annotations.entries.length = 0
    · simp only [ha, if_true, Slice.append, Slice.elems]
      by_cases h0 : listedNames annotations items = [] <;> simp [h0]
    · simp only [ha, if_false]
      rw [foldl_append_name]
      have hperm : (ro.visit 6 x.Annotations.entries).countP
            (fun entry => (annotations.get? entry.1).getD "" = entry.2)
          = matchingAnnotations annotations x :=
        (ro.perm 6 x.Annotations.entries).countP_eq _
      rw [hperm]
      by_cases hm : matchingAnnotations annotations x = 0
      · simp [hm]
      · by_cases h0 : listedNames annotations items = []
        · simp [hm, h0, Slice.elems]
        · simp [hm, h0, Slice.elems]

set_option maxRecDepth 100000 in
/-- C23 (the code does not keep this): `GetServiceAccounts` ranges over the
annotations of each account, not over the filter, and appends the name once for
every annotation whose value is what the filter gives for its key, the empty
string for a key that the filter does not hold. Whatever the range order, it
returns the names `listedNames`. With the filter `{vak-managed: true}` and the
accounts `default` (annotation `description` with the empty value) and `vault`
(annotations `vak-managed: true` and `description` with the empty value) it
returns `default, vault, vault`: an account that does not carry the filter, and
an account twice. -/
theorem GetServiceAccounts_lists_once_per_matching_annotation (c : Client σ) (ro : RangeOrder)
    (ns : String) (annotations : GoMap String) (w : Cluster σ) :
    (GetServiceAccounts c ro ns annotations w).1
        = (match ((c.serviceAccountsGetter ns).List w.state).1 with
          | (_, some err) => (none, some err)
          | (items, none) =>
            (if listedNames annotations items = [] then none
              else some (listedNames annotations items), none))
    ∧ (GetServiceAccounts (exampleClient exampleServiceAccounts) RangeOrder.stored "default"
          serviceAccountAnnotations ⟨(), []⟩).1
        = (some ["default", "vault", "vault"], none)
    ∧ exampleServiceAccounts.map (fun sa => (sa.Name, sa.carries serviceAccountAnnotations))
        = [("default", false), ("vault", true)] := by
  refine ⟨?_, by decide, by decide⟩
  unfold GetServiceAccounts
  simp only
  rcases ((c.serviceAccountsGetter ns).List w.state).1 with ⟨items, _ | err⟩
  · simp only
    rw [foldl_listedNames]
    simp [Slice.elems]
  · rfl

/-- A lookup of a service account that keeps showing no secrets: with the
budget `n` the account is looked up `n + 1` times, and the error is returned. -/
theorem getServiceAccount_without_secrets (c : Client σ) (ns name : String)
    (hget : ∀ st, ((c.serviceAccountsGetter ns).Get name st).1.2 = none
      ∧ ((c.serviceAccountsGetter ns).Get name st).1.1.Secrets = []) :
    ∀ (n : Nat) (w : Cluster σ),
      (getServiceAccount c ns name n w).1.2 = some "number of retries exceeded"
      ∧ (getServiceAccount c ns name n w).2.calls
        = w.calls ++ List.replicate (n + 1) (ApiCall.serviceAccountsGet ns name) := by
  intro n
  induction n with
  | zero =>
    intro w
    obtain ⟨h1, h2⟩ := hget w.state
    unfold getServiceAccount
    rcases hr : ((c.serviceAccountsGetter ns).Get name w.state).1 with ⟨sa, e⟩
    rw [hr] at h1 h2
    simp only at h1 h2
    subst h1
    simp only [hr]
    simp [h2]
  | succ n ih =>
    intro w
    obtain ⟨h1, h2⟩ := hget w.state
    unfold getServiceAccount
    rcases hr : ((c.serviceAccountsGetter ns).Get name w.state).1 with ⟨sa, e⟩
    rw [hr] at h1 h2
    simp only at h1 h2
    subst h1
    simp only [hr, h2, List.length_nil, if_true]
    obtain ⟨g1, g2⟩ := ih ⟨((c.serviceAccountsGetter ns).Get name w.state).2,
      w.calls ++ [ApiCall.serviceAccountsGet ns name]⟩
    refine ⟨g1, ?_⟩
    rw [g2, List.append_assoc]
    congr 1

set_option maxRecDepth 100000 in
/-- C24 as stated is off by one. Against a cluster where every lookup finds the
account without secrets, `GetServiceAccountToken` looks the account up six
times, not five: the first lookup and five retries. -/
theorem GetServiceAccountToken_looks_up_six_times :
    (GetServiceAccountToken (exampleClient []) "default" "default" ⟨(), []⟩).2.calls
      = List.replicate 6 (ApiCall.serviceAccountsGet "default" "default")
    ∧ (GetServiceAccountToken (exampleClient []) "default" "default" ⟨(), []⟩).1
      = ([], some "number of retries exceeded") := by
  decide

/-- C24, amended: if every lookup of the service account succeeds but shows no
secrets, `GetServiceAccountToken` looks the account up exactly six times (the
first lookup and the five retries of its budget), reads no secret, and returns
the error `number of retries exceeded` and no token. -/
theorem GetServiceAccountToken_retries_are_bounded (c : Client σ) (ns name : String)
    (w : Cluster σ)
    (hget : ∀ st, ((c.serviceAccountsGetter ns).Get name st).1.2 = none
      ∧ ((c.serviceAccountsGetter ns).Get name st).1.1.Secrets = []) :
    (GetServiceAccountToken c ns name w).1 = ([], some "number of retries exceeded")
    ∧ (GetServiceAccountToken c ns name w).2.calls
      = w.calls ++ List.replicate 6 (ApiCall.serviceAccountsGet ns name)
    ∧ (∀ secret, ApiCall.secretsGet ns secret ∉ (GetServiceAccountToken c ns name w).2.calls
        ∨ ApiCall.secretsGet ns secret ∈ w.calls) := by
  obtain ⟨h1, h2⟩ := getServiceAccount_without_secrets c ns name hget 5 w
  unfold GetServiceAccountToken
  rcases hr : getServiceAccount c ns name 5 w with ⟨⟨sa, e⟩, w2⟩
  rw [hr] at h1 h2
  simp only at h1 h2
  subst h1
  refine ⟨rfl, h2, ?_⟩
  intro secret
  show ApiCall.secretsGet ns secret ∉ w2.calls ∨ ApiCall.secretsGet ns secret ∈ w.calls
  by_cases hm : ApiCall.secretsGet ns secret ∈ w.calls
  · right; exact hm
  · left
    rw [h2]
    simp [hm]

set_option maxRecDepth 100000 in
/-- Witness of the amended C24: the test "when service account does not have any
secrets even on multiple retries then error is returned". -/
theorem GetServiceAccountToken_retries_are_bounded_witness :
    (GetServiceAccountToken (exampleClient []) "default" "default" ⟨(), []⟩).1
      = ([], some "number of retries exceeded") :=
  (GetServiceAccountToken_retries_are_bounded (exampleClient []) "default" "default" ⟨(), []⟩
    (fun _ => ⟨rfl, rfl⟩)).1

end KubernetesClient

end VaultAuthKubernetes
